import Mathlib

/-!
# IMP-Server: request parser, upload task and reactor dispatch

A shallow embedding of `src/src/HttpParser.cpp`, of the upload task and of
`Server::handle_client_data` from `src/src/Server.cpp`, and of
`ThreadPool::enqueue` from `src/include/ThreadPool.h`.

Conventions of the embedding

* a byte is a `Nat` (its unsigned value), a `std::string` or
  `std::vector<char>` is a `List Nat`;
* `size_t` arithmetic that the source stores in a `size_t` variable is done
  modulo `2 ^ 64` (`size_sub`);
* a C++ exception that leaves a function is the `error` side of `Except`;
  the object state at the throw is not observed afterwards, because no caller
  in the repository catches it;
* a `while` loop is a function with a fuel argument, started with more fuel
  than the loop can use (`header_loop_fuel`, `multipart_loop_fuel` show that
  the result does not depend on the fuel);
* logging calls are left out.
-/

namespace ImpServer

/-! ## Bytes and the standard library functions the parser calls -/

/-- The bytes of an ASCII string literal. -/
def bytes (s : String) : List Nat := s.toList.map Char.toNat

/-- The line terminator `"\r\n"`. -/
def CRLF : List Nat := [13, 10]

/-- The header terminator `"\r\n\r\n"`. -/
def CRLFCRLF : List Nat := [13, 10, 13, 10]

/-- Exceptions (and undefined behaviour) that can leave the modelled code. -/
inductive Failure where
  | out_of_range
  | invalid_argument
  | length_error
  | out_of_bounds_read
  | null_dereference
  | runtime_error
deriving DecidableEq, Repr

deriving instance DecidableEq for Except

/-- Search `pat` in `s`, where `s` is the text from index `i` on. -/
def findAux (pat : List Nat) : List Nat → Nat → Option Nat
  | [], i => if pat = [] then some i else none
  | c :: cs, i => if pat.isPrefixOf (c :: cs) then some i else findAux pat cs (i + 1)

/-- `std::string::find(pat, pos)`: the least index `i ≥ pos` at which `pat`
occurs in `s`; `none` is `npos`. -/
def find (s pat : List Nat) (pos : Nat) : Option Nat :=
  if pos ≤ s.length then findAux pat (s.drop pos) pos else none

/-- `pat` occurs in `s` at index `i`. -/
def occurs (pat s : List Nat) (i : Nat) : Prop := i ≤ s.length ∧ pat <+: s.drop i

/-- `std::string::substr(pos, n)`: throws `std::out_of_range` when
`pos > size()`. -/
def substr (s : List Nat) (pos n : Nat) : Except Failure (List Nat) :=
  if pos ≤ s.length then .ok ((s.drop pos).take n) else .error .out_of_range

/-- `std::string::substr(pos)`: the rest of the string from `pos`. -/
def substr_from (s : List Nat) (pos : Nat) : Except Failure (List Nat) :=
  if pos ≤ s.length then .ok (s.drop pos) else .error .out_of_range

/-- `memmem(mem + start, len, needle, needle_len)` as an index into `mem`:
the first occurrence of `needle` inside `mem[start, start + len)`. -/
def memmem (mem : List Nat) (start len : Nat) (needle : List Nat) : Option Nat :=
  find (mem.take (start + len)) needle start

/-- Subtraction of two `size_t` values. -/
def size_sub (a b : Nat) : Nat := (a + 2 ^ 64 - b % 2 ^ 64) % 2 ^ 64

/-- `isspace` in the C locale. -/
def isspace (c : Nat) : Bool := c == 32 || (9 ≤ c && c ≤ 13)

/-- `isdigit`. -/
def isdigit (c : Nat) : Bool := 48 ≤ c && c ≤ 57

/-- `std::stoul(s)` (base 10, `unsigned long` of 64 bits): leading white space,
an optional sign, then the longest run of digits; `invalid_argument` without a
digit, `out_of_range` when the digits exceed `ULONG_MAX`; a leading minus
negates the value modulo `2 ^ 64`. Trailing text is ignored. -/
def stoul (s : List Nat) : Except Failure Nat :=
  let s1 := s.dropWhile isspace
  let neg := s1.head? == some 45
  let s2 := if s1.head? == some 43 || s1.head? == some 45 then s1.tail else s1
  let digits := s2.takeWhile isdigit
  if digits = [] then .error .invalid_argument
  else
    let v := digits.foldl (fun acc d => acc * 10 + (d - 48)) 0
    if 2 ^ 64 ≤ v then .error .out_of_range
    else .ok (if neg then (2 ^ 64 - v) % 2 ^ 64 else v)

/-- The loop of `std::to_string` on an unsigned value, with an accumulator. -/
def to_string_aux : Nat → Nat → List Nat → List Nat
  | 0, _, acc => acc
  | fuel + 1, n, acc =>
    if n < 10 then (n + 48) :: acc
    else to_string_aux fuel (n / 10) ((n % 10 + 48) :: acc)

/-- `std::to_string(n)` for an unsigned `n`: its decimal digits. -/
def to_string (n : Nat) : List Nat := to_string_aux (n + 1) n []

/-! ## `std::unordered_map<std::string, std::string>` -/

/-- The header table; it is never iterated, so an association list with at
most one entry per key is enough. -/
abbrev HeaderMap := List (List Nat × List Nat)

/-- `m.count(key)`. -/
def map_count (m : HeaderMap) (key : List Nat) : Bool := m.any (fun kv => kv.1 == key)

/-- `m[key]` read for a key that is present (the empty string otherwise, as
`operator[]` default-constructs). -/
def map_get (m : HeaderMap) (key : List Nat) : List Nat :=
  match m.find? (fun kv => kv.1 == key) with
  | some kv => kv.2
  | none => []

/-- `m[key] = value`. -/
def map_set (m : HeaderMap) (key value : List Nat) : HeaderMap :=
  (key, value) :: m.filter (fun kv => !(kv.1 == key))

/-! ## The parser (`include/HttpParser.h`, `src/HttpParser.cpp`) -/

/-- `enum class ParseState`. -/
inductive ParseState where
  | METHOD
  | PATH
  | VERSION
  | HEADERS
  | BODY
  | COMPLETE
deriving DecidableEq, Repr

/-- The position of a state in the declaration order of the enum. -/
def ParseState.rank : ParseState → Nat
  | .METHOD => 0
  | .PATH => 1
  | .VERSION => 2
  | .HEADERS => 3
  | .BODY => 4
  | .COMPLETE => 5

/-- The data members of `class HttpParser`. -/
structure HttpParser where
  _state : ParseState
  _buffer : List Nat
  _method : List Nat
  _path : List Nat
  _headers : HeaderMap
  _body : List Nat
  _content_length : Nat
  _boundary : List Nat
  _image_data : List Nat
  _filter_type : List Nat
  _image_uuid : List Nat
  _blur_intensity : List Nat
  _sharpen_intensity : List Nat
deriving DecidableEq, Repr

namespace HttpParser

/-- `HttpParser::HttpParser()`. -/
def new : HttpParser :=
  { _state := .METHOD, _buffer := [], _method := [], _path := [], _headers := [],
    _body := [], _content_length := 0, _boundary := [], _image_data := [],
    _filter_type := [], _image_uuid := [], _blur_intensity := [],
    _sharpen_intensity := [] }

/-- `HttpParser::reset`. -/
def reset (p : HttpParser) : HttpParser :=
  { p with _state := .METHOD, _buffer := [], _method := [], _path := [], _headers := [],
           _body := [], _content_length := 0, _boundary := [], _image_data := [],
           _filter_type := [], _image_uuid := [], _blur_intensity := [],
           _sharpen_intensity := [] }

/-- The request line part of `parse_headers` (source lines 74-87): sets the
method and the path and returns the start of the first header line. -/
def parse_request_line (p : HttpParser) : Except Failure (HttpParser × Nat) :=
  match find p._buffer CRLF 0 with
  | none => .ok (p, 0)
  | some line_end =>
    match substr p._buffer 0 line_end with
    | .error e => .error e
    | .ok request_line =>
      match find request_line [32] 0 with
      | none => .ok (p, line_end + 2)
      | some method_end =>
        match substr request_line 0 method_end with
        | .error e => .error e
        | .ok m =>
          let path_start := method_end + 1
          match find request_line [32] path_start with
          | none => .ok ({ p with _method := m }, line_end + 2)
          | some path_end =>
            match substr request_line path_start (path_end - path_start) with
            | .error e => .error e
            | .ok pa => .ok ({ p with _method := m, _path := pa }, line_end + 2)

/-- One header line of the loop body (source lines 95-102). -/
def parse_header_line (hs : HeaderMap) (header_line : List Nat) : Except Failure HeaderMap :=
  match find header_line [58] 0 with
  | none => .ok hs
  | some colon_pos =>
    match substr header_line 0 colon_pos with
    | .error e => .error e
    | .ok key =>
      match substr_from header_line (colon_pos + 2) with
      | .error e => .error e
      | .ok value => .ok (map_set hs key value)

/-- The `while` loop of `parse_headers` (source lines 90-104). -/
def header_loop : Nat → List Nat → Nat → HeaderMap → Except Failure HeaderMap
  | 0, _, _, hs => .ok hs
  | fuel + 1, buf, line_start, hs =>
    match find buf CRLF line_start with
    | none => .ok hs
    | some line_end =>
      if line_end = line_start then .ok hs
      else
        match substr buf line_start (line_end - line_start) with
        | .error e => .error e
        | .ok header_line =>
          match parse_header_line hs header_line with
          | .error e => .error e
          | .ok hs1 => header_loop fuel buf (line_end + 2) hs1

/-- The extraction of `Content-Length` (source lines 107-113). -/
def extract_content_length (p : HttpParser) : HttpParser :=
  if map_count p._headers (bytes "Content-Length") then
    match stoul (map_get p._headers (bytes "Content-Length")) with
    | .ok v => { p with _content_length := v }
    | .error _ => { p with _content_length := 0 }
  else p

/-- The extraction of the boundary (source lines 114-121). -/
def extract_boundary (p : HttpParser) : Except Failure HttpParser :=
  if map_count p._headers (bytes "Content-Type") then
    let content_type := map_get p._headers (bytes "Content-Type")
    match find content_type (bytes "boundary=") 0 with
    | none => .ok p
    | some boundary_pos =>
      match substr_from content_type (boundary_pos + 9) with
      | .error e => .error e
      | .ok b => .ok { p with _boundary := bytes "--" ++ b }
  else .ok p

/-- `HttpParser::parse_headers`. -/
def parse_headers (p : HttpParser) : Except Failure HttpParser :=
  match parse_request_line p with
  | .error e => .error e
  | .ok (p1, line_start) =>
    match header_loop (p._buffer.length + 1) p._buffer line_start p1._headers with
    | .error e => .error e
    | .ok hs => extract_boundary (extract_content_length { p1 with _headers := hs })

/-- The routing of one part by the `name="..."` token of its header (source
lines 166-176). `value` is the part body. -/
def assign_part (p : HttpParser) (part_header value : List Nat) : HttpParser :=
  if (find part_header (bytes "name=\"image\"") 0).isSome then
    { p with _image_data := value }
  else if (find part_header (bytes "name=\"filter\"") 0).isSome then
    { p with _filter_type := value }
  else if (find part_header (bytes "name=\"uuid\"") 0).isSome then
    { p with _image_uuid := value }
  else if (find part_header (bytes "name=\"blur_intensity\"") 0).isSome then
    { p with _blur_intensity := value }
  else if (find part_header (bytes "name=\"sharpen_intensity\"") 0).isSome then
    { p with _sharpen_intensity := value }
  else p

/-- Does the part header carry one of the five recognised names? -/
def recognised (part_header : List Nat) : Bool :=
  (find part_header (bytes "name=\"image\"") 0).isSome ||
  (find part_header (bytes "name=\"filter\"") 0).isSome ||
  (find part_header (bytes "name=\"uuid\"") 0).isSome ||
  (find part_header (bytes "name=\"blur_intensity\"") 0).isSome ||
  (find part_header (bytes "name=\"sharpen_intensity\"") 0).isSome

/-- The start of a part (source lines 147-151): the position behind the
boundary, moved past a `"\r\n"` that follows it. -/
def skip_crlf (body : List Nat) (part_start : Nat) : Nat :=
  if part_start + 2 ≤ body.length ∧ body[part_start]? = some 13 ∧
      body[part_start + 1]? = some 10 then part_start + 2
  else part_start

/-- The body of the part loop after both boundaries are found (source lines
146-177). Positions are indices into `_body`. The two lengths are `size_t`
values; a `memmem` over a range that leaves the body is undefined behaviour,
and an `assign` with a length past the body (a wrapped `part_body_len`) throws
`std::length_error`. -/
def process_part (p : HttpParser) (boundary_start next_boundary_start : Nat) :
    Except Failure HttpParser :=
  let body_size := p._body.length
  let boundary_len := p._boundary.length
  let part_start := skip_crlf p._body (boundary_start + boundary_len)
  let part_len := size_sub next_boundary_start part_start
  if body_size < part_start + part_len then .error .out_of_bounds_read
  else
    match memmem p._body part_start part_len CRLFCRLF with
    | none => .ok p
    | some part_header_end =>
      let part_header := (p._body.drop part_start).take (part_header_end - part_start)
      let part_body_start := part_header_end + 4
      let part_body_len := size_sub (size_sub next_boundary_start part_body_start) 2
      if recognised part_header then
        if body_size < part_body_start + part_body_len then .error .length_error
        else .ok (assign_part p part_header
                    ((p._body.drop part_body_start).take part_body_len))
      else .ok p

/-- The `while` loop of `parse_multipart_body` (source lines 136-179). -/
def multipart_loop : Nat → HttpParser → Nat → Except Failure HttpParser
  | 0, p, _ => .ok p
  | fuel + 1, p, current_pos =>
    let body_size := p._body.length
    let boundary_len := p._boundary.length
    if current_pos < body_size then
      match memmem p._body current_pos (body_size - current_pos) p._boundary with
      | none => .ok p
      | some boundary_start =>
        match memmem p._body (boundary_start + boundary_len)
            (body_size - (boundary_start + boundary_len)) p._boundary with
        | none => .ok p
        | some next_boundary_start =>
          match process_part p boundary_start next_boundary_start with
          | .error e => .error e
          | .ok p1 => multipart_loop fuel p1 next_boundary_start
    else .ok p

/-- `HttpParser::parse_multipart_body`. -/
def parse_multipart_body (p : HttpParser) : Except Failure HttpParser :=
  if p._boundary = [] ∨ p._body = [] then .ok p
  else multipart_loop (p._body.length + 1) p 0

/-- `std::vector<char>::resize(n)`. -/
def resize (v : List Nat) (n : Nat) : List Nat := v.take n ++ List.replicate (n - v.length) 0

/-- Step 3 of `parse` (source lines 59-65). -/
def check_body_complete (p : HttpParser) : Except Failure HttpParser :=
  if p._state = .BODY ∧ 0 < p._content_length ∧ p._content_length ≤ p._body.length then
    match parse_multipart_body { p with _body := resize p._body p._content_length } with
    | .error e => .error e
    | .ok p1 => .ok { p1 with _state := .COMPLETE }
  else .ok p

/-- The end of step 1 of `parse`, after `parse_headers` (source lines 38-50):
the bytes behind the header terminator become the body when there are any,
the header buffer is cleared and the state is chosen by the declared length. -/
def after_headers (p : HttpParser) (body_part : List Nat) : HttpParser :=
  { p with _body := if body_part ≠ [] then body_part else p._body,
           _buffer := [],
           _state := if 0 < p._content_length then .BODY else .COMPLETE }

/-- Steps 1 and 2 of `parse` (source lines 27-56). -/
def receive (p : HttpParser) (data : List Nat) : Except Failure HttpParser :=
  if p._state ≠ .BODY ∧ p._state ≠ .COMPLETE then
    let p0 := { p with _buffer := p._buffer ++ data }
    match find p0._buffer CRLFCRLF 0 with
    | none => .ok p0
    | some header_end_pos =>
      match parse_headers p0 with
      | .error e => .error e
      | .ok p1 =>
        match substr_from p1._buffer (header_end_pos + 4) with
        | .error e => .error e
        | .ok body_part => .ok (after_headers p1 body_part)
  else if p._state = .BODY then .ok { p with _body := p._body ++ data }
  else .ok p

/-- `HttpParser::parse(data, len)`. -/
def parse (p : HttpParser) (data : List Nat) : Except Failure HttpParser :=
  match receive p data with
  | .error e => .error e
  | .ok p1 => check_body_complete p1

/-- `HttpParser::is_request_ready`. -/
def is_request_ready (p : HttpParser) : Bool := p._state == .COMPLETE

/-- `HttpParser::get_method`. -/
def get_method (p : HttpParser) : List Nat := p._method

/-- `HttpParser::get_path`. -/
def get_path (p : HttpParser) : List Nat := p._path

/-- `HttpParser::get_image_data`. -/
def get_image_data (p : HttpParser) : List Nat := p._image_data

/-- `HttpParser::get_filter_type`. -/
def get_filter_type (p : HttpParser) : List Nat := p._filter_type

/-- `HttpParser::get_image_uuid`. -/
def get_image_uuid (p : HttpParser) : List Nat := p._image_uuid

/-- `HttpParser::get_blur_intensity`. -/
def get_blur_intensity (p : HttpParser) : List Nat := p._blur_intensity

/-- `HttpParser::get_sharpen_intensity`. -/
def get_sharpen_intensity (p : HttpParser) : List Nat := p._sharpen_intensity

/-- A sequence of `parse` calls on consecutive chunks; an exception ends it. -/
def feed (p : HttpParser) : List (List Nat) → Except Failure HttpParser
  | [] => .ok p
  | c :: cs =>
    match parse p c with
    | .error e => .error e
    | .ok p1 => feed p1 cs

/-! ### Vocabulary of the statements about the parser -/

/-- A fresh parser that has buffered `b` and still waits for the header
terminator. -/
def awaiting (b : List Nat) : HttpParser := { new with _buffer := b }

/-- What a caller can see of a parsed request. -/
def observe (p : HttpParser) : Bool × List Nat × List Nat × List Nat × List Nat :=
  (p.is_request_ready, p.get_method, p.get_path, p.get_filter_type, p.get_image_data)

/-- The result `r` is the result of the single call (first argument), up to
the body buffer of a request without a declared length. -/
def same_upto_body : Except Failure HttpParser → Except Failure HttpParser → Prop
  | .error e, r => r = .error e
  | .ok q, r => ∃ body, r = .ok { q with _body := body } ∧
      ((q._state ≠ .COMPLETE ∨ 0 < q._content_length) → body = q._body)

/-- `q` differs from `p` at most in the five extracted multipart fields. -/
def extraction_frame (p q : HttpParser) : Prop :=
  q = { p with _image_data := q._image_data, _filter_type := q._filter_type,
               _image_uuid := q._image_uuid, _blur_intensity := q._blur_intensity,
               _sharpen_intensity := q._sharpen_intensity }

/-- The bytes of the stream `s` behind its header terminator. -/
def body_bytes (s : List Nat) : List Nat :=
  match find s CRLFCRLF 0 with
  | some pos => s.drop (pos + 4)
  | none => []

/-- The parser as `parse_headers` leaves it on the header block of the
stream `s`; `none` while the terminator is missing or when `parse_headers`
throws. -/
def parsed_header (s : List Nat) : Option HttpParser :=
  match find s CRLFCRLF 0 with
  | none => none
  | some _ =>
    match parse_headers (awaiting s) with
    | .ok q => some q
    | .error _ => none

/-- The body length that the header block of the stream `s` declares. -/
def declared_length (s : List Nat) : Option Nat :=
  (parsed_header s).map (fun q => q._content_length)

/-- The boundary token that the header block of the stream `s` declares. -/
def declared_boundary (s : List Nat) : Option (List Nat) :=
  (parsed_header s).map (fun q => q._boundary)

/-- Header lines, each closed by `"\r\n"`. -/
def header_lines : List (List Nat) → List Nat
  | [] => []
  | l :: ls => l ++ (CRLF ++ header_lines ls)

/-- The header table after the lines `lines`, each handled as in the loop
body of `parse_headers`. -/
def fold_header_lines (hs : HeaderMap) : List (List Nat) → Except Failure HeaderMap
  | [] => .ok hs
  | l :: ls => (parse_header_line hs l).bind (fun hs1 => fold_header_lines hs1 ls)

/-- A header block: the request line `first`, the header lines and the empty
line, followed by `post`. -/
def header_block (first : List Nat) (lines : List (List Nat)) (post : List Nat) : List Nat :=
  first ++ (CRLF ++ (header_lines lines ++ (CRLF ++ post)))

/-- One part of a multipart body: the boundary line, the part header, the
empty line, the value and the closing `"\r\n"`. -/
def part (bnd hdr value : List Nat) : List Nat :=
  bnd ++ (CRLF ++ (hdr ++ (CRLFCRLF ++ (value ++ CRLF))))

/-- The body of the upload of the end-to-end scenario: the parts `filter`
(value `grayscale`) and `image` between boundaries `--X`, closed by `--X--`. -/
def upload_body (filter_header image_header image : List Nat) : List Nat :=
  part (bytes "--X") filter_header (bytes "grayscale") ++
    (part (bytes "--X") image_header image ++ bytes "--X--")

/-- The upload request of the end-to-end scenario. -/
def upload_request (filter_header image_header image : List Nat) : List Nat :=
  header_block (bytes "POST /upload HTTP/1.1")
    [bytes "Content-Type: multipart/form-data; boundary=X",
     bytes "Content-Length: " ++ to_string (upload_body filter_header image_header image).length]
    (upload_body filter_header image_header image)

/-- The parser as `parse_headers` leaves it on the upload request `s` with the
declared length `n`. -/
def upload_parsed (s : List Nat) (n : Nat) : HttpParser :=
  { awaiting s with _method := bytes "POST", _path := bytes "/upload",
                    _headers := [(bytes "Content-Length", to_string n),
                      (bytes "Content-Type", bytes "multipart/form-data; boundary=X")],
                    _content_length := n, _boundary := bytes "--X" }

/-- A part header of the scenario: it does not contain the boundary `--X`, and
the first `"\r\n\r\n"` behind its start is the separator that follows it. -/
def part_header_ok (hdr : List Nat) : Prop :=
  find hdr (bytes "--X") 0 = none ∧ find (hdr ++ CRLFCRLF) CRLFCRLF 0 = some hdr.length

/-! ### Concrete requests -/

/-- An image value with a NUL byte, `"\r\n\r\n"` and a byte above 127. -/
def image_sample : List Nat := [137, 80, 78, 71, 0, 13, 10, 13, 10, 26, 10, 255]

/-- The scenario upload of `image_sample`, cut into two chunks inside its
header block. -/
def upload_chunks : List (List Nat) :=
  [(upload_request (bytes "name=\"filter\"") (bytes "name=\"image\"") image_sample).take 30,
   (upload_request (bytes "name=\"filter\"") (bytes "name=\"image\"") image_sample).drop 30]


/-- A request with a header line that ends right behind its colon. -/
def request_colon_only : List Nat := bytes "GET / HTTP/1.1\r\nHost:\r\n\r\n"

/-- An upload whose three declared body bytes hold no boundary. -/
def request_no_boundary : List Nat :=
  bytes "POST /upload HTTP/1.1\r\nContent-Type: multipart/form-data; boundary=X\r\nContent-Length: 3\r\n\r\nabc"

/-- The parser after `request_no_boundary`. -/
def parsed_no_boundary : HttpParser :=
  { new with _state := .COMPLETE, _method := bytes "POST", _path := bytes "/upload",
             _headers := [(bytes "Content-Length", bytes "3"),
               (bytes "Content-Type", bytes "multipart/form-data; boundary=X")],
             _body := bytes "abc", _content_length := 3, _boundary := bytes "--X" }

/-- An upload whose `filter` part ends right behind its header separator, so
that no `"\r\n"` stands between the separator and the next boundary. -/
def request_empty_part : List Nat :=
  bytes "POST /upload HTTP/1.1\r\nContent-Type: multipart/form-data; boundary=X\r\nContent-Length: 27\r\n\r\n--X\r\nname=\"filter\"\r\n\r\n--X--"

/-- The header block of an upload that declares ten body bytes. -/
def request_head_ten : List Nat :=
  bytes "POST /upload HTTP/1.1\r\nContent-Type: multipart/form-data; boundary=X\r\nContent-Length: 10\r\n\r\n"

/-- The chunks of an upload that declares ten body bytes and supplies three. -/
def chunks_short : List (List Nat) := [request_head_ten, bytes "abc"]

/-- A well-formed upload with a `filter` part and an `image` part. -/
def request_upload : List Nat :=
  bytes "POST /upload HTTP/1.1\r\nContent-Type: multipart/form-data; boundary=X\r\nContent-Length: 64\r\n\r\n--X\r\nname=\"filter\"\r\n\r\ngrayscale\r\n--X\r\nname=\"image\"\r\n\r\nPNG\r\n--X--"

end HttpParser

/-! ## The worker pool (`include/ThreadPool.h`) and the upload task -/

/-- The captures of the lambda that `handle_client_data` submits. -/
structure UploadTask where
  client_fd : Int
  image_data : List Nat
  filter : List Nat
  blur_intensity : List Nat
  sharpen_intensity : List Nat
deriving DecidableEq, Repr

/-- The queue and the stop flag of `class ThreadPool`. -/
structure ThreadPool where
  tasks : List UploadTask
  stop : Bool
deriving DecidableEq, Repr

/-- `ThreadPool::enqueue`: throws `std::runtime_error` on a stopped pool,
otherwise appends the task to the queue. -/
def ThreadPool.enqueue (tp : ThreadPool) (t : UploadTask) : Except Failure ThreadPool :=
  if tp.stop then .error .runtime_error
  else .ok { tp with tasks := tp.tasks ++ [t] }

/-- The system calls on connection handles and the pool submissions, in the
order in which the code issues them. -/
inductive Effect where
  | accept (fd : Int)
  | epoll_add (fd : Int)
  | epoll_del (fd : Int)
  | close (fd : Int)
  | send (fd : Int) (data : List Nat) (ok : Bool)
  | enqueue (t : UploadTask)
deriving DecidableEq, Repr

/-- `safe_send(fd, data, len)`: refuses a negative handle and an empty
buffer without touching the socket; otherwise sends, and `os_ok` says whether
the operating system took all the bytes. Returns the result and the effects. -/
def safe_send (fd : Int) (data : List Nat) (os_ok : Bool) : Bool × List Effect :=
  if fd < 0 ∨ data.length = 0 then (false, [])
  else (os_ok, [Effect.send fd data os_ok])

/-- `SocketGuard::~SocketGuard`. -/
def SocketGuard_dtor (_fd : Int) : List Effect :=
  if 0 ≤ _fd then [Effect.close _fd] else []

/-- What the call of `ImageProcessor::process` did: it returned `success`
with the two out-parameters, or it threw. -/
inductive ProcessOutcome where
  | returned (success : Bool) (processed_image : List Nat) (content_type : List Nat)
  | threw
deriving DecidableEq, Repr

/-- The UTF-8 bytes of the diagnostic text of the 500 response. -/
def error_msg : List Nat :=
  [229, 155, 190, 229, 131, 143, 229, 164, 132, 231, 144, 134, 229, 164, 177, 232, 180, 165]

/-- The statements of the upload task between the construction of the guard
and the end of its scope (source lines 422-468). `os_send i` is the outcome
of the `i`-th send that reaches the socket. -/
def upload_task_body (t : UploadTask) (r : ProcessOutcome) (os_send : Nat → Bool) :
    List Effect :=
  match r with
  | .threw => []
  | .returned success processed_image content_type =>
    if success then
      let response := bytes "HTTP/1.1 200 OK\r\nContent-Type: " ++ content_type ++
        bytes "\r\nContent-Length: " ++ to_string processed_image.length ++ CRLFCRLF
      let s1 := safe_send t.client_fd response (os_send 0)
      if !s1.1 then s1.2
      else
        let s2 := safe_send t.client_fd processed_image (os_send 1)
        s1.2 ++ s2.2
    else
      let response := bytes "HTTP/1.1 500 Internal Server Error\r\nContent-Type: text/plain\r\nContent-Length: " ++
        to_string error_msg.length ++ CRLFCRLF ++ error_msg
      (safe_send t.client_fd response (os_send 0)).2

/-- The upload task: `SocketGuard sg(client_fd)` is constructed first, so its
destructor runs after the body on every way out of the lambda. -/
def upload_task (t : UploadTask) (r : ProcessOutcome) (os_send : Nat → Bool) : List Effect :=
  upload_task_body t r os_send ++ SocketGuard_dtor t.client_fd

/-! ## The reactor (`src/Server.cpp`) -/

/-- The state of `class Server` that the connection handlers use, with the
trace of the effects issued so far. -/
structure Server where
  _thread_pool : ThreadPool
  _client_parsers : List (Int × HttpParser)
  _current_connections : Int
  trace : List Effect
deriving DecidableEq, Repr

/-- What one `recv` on a non-blocking socket returned. -/
inductive RecvResult where
  | data (bs : List Nat)
  | would_block
  | error
  | closed
deriving DecidableEq, Repr

/-- How the read loop of `handle_client_data` ended. -/
inductive DrainResult where
  | drained (parser : Option HttpParser)
  | teardown
deriving DecidableEq, Repr

namespace Server

/-- `_client_parsers[fd].get()`; `none` is the null pointer. -/
def parser_of (s : Server) (fd : Int) : Option HttpParser :=
  (s._client_parsers.find? (fun e => e.1 == fd)).map (fun e => e.2)

/-- `_client_parsers.erase(fd)`. -/
def parsers_erase (s : Server) (fd : Int) : Server :=
  { s with _client_parsers := s._client_parsers.filter (fun e => !(e.1 == fd)) }

/-- The parser of `fd` is updated in place through the pointer. -/
def parsers_store (s : Server) (fd : Int) (p : HttpParser) : Server :=
  { s with _client_parsers := s._client_parsers.map (fun e => if e.1 == fd then (fd, p) else e) }

/-- `Server::close_connection`. -/
def close_connection (s : Server) (fd : Int) : Server :=
  let s1 := { s with trace := s.trace ++ [Effect.epoll_del fd, Effect.close fd] }
  let s2 := parsers_erase s1 fd
  { s2 with _current_connections := s2._current_connections - 1 }

/-- The read loop of `handle_client_data` (source lines 306-331) over the
results of the successive `recv` calls; a script that ends stands for a
socket with nothing more to read. -/
def drain (parser : Option HttpParser) : List RecvResult → Except Failure DrainResult
  | [] => .ok (.drained parser)
  | .would_block :: _ => .ok (.drained parser)
  | .error :: _ => .ok .teardown
  | .closed :: _ => .ok .teardown
  | .data bs :: rest =>
    if bs = [] then .ok .teardown
    else
      match parser with
      | none => .error .null_dereference
      | some p =>
        match HttpParser.parse p bs with
        | .error e => .error e
        | .ok p1 => drain (some p1) rest

/-- The 404 response. -/
def response_404 : List Nat := bytes "HTTP/1.1 404 Not Found\r\nContent-Length: 0\r\n\r\n"

/-- The routing of a completed request (source lines 357-484). `html_content`
is what `load_file("web/index.html")` returned and `send_ok` the outcome of
the one send of this call. -/
def route (s : Server) (client_fd : Int) (parser : HttpParser) (html_content : List Nat)
    (send_ok : Bool) : Except Failure Server :=
  let path := parser.get_path
  if path = bytes "/" ∧ parser.get_method = bytes "GET" then
    if html_content ≠ [] then
      let response := bytes "HTTP/1.1 200 OK\r\nContent-Type: text/html\r\nContent-Length: " ++
        to_string html_content.length ++ CRLFCRLF ++ html_content
      let r := safe_send client_fd response send_ok
      .ok (close_connection { s with trace := s.trace ++ r.2 } client_fd)
    else
      let r := safe_send client_fd response_404 send_ok
      .ok (close_connection { s with trace := s.trace ++ r.2 } client_fd)
  else if path = bytes "/upload" ∧ parser.get_method = bytes "POST" then
    let t : UploadTask :=
      { client_fd := client_fd, image_data := parser.get_image_data,
        filter := parser.get_filter_type, blur_intensity := parser.get_blur_intensity,
        sharpen_intensity := parser.get_sharpen_intensity }
    match s._thread_pool.enqueue t with
    | .error e => .error e
    | .ok tp =>
      let s1 := { s with _thread_pool := tp, trace := s.trace ++ [Effect.enqueue t] }
      let s2 := { s1 with trace := s1.trace ++ [Effect.epoll_del client_fd] }
      .ok (parsers_erase s2 client_fd)
  else
    let s1 := { s with trace := s.trace ++ [Effect.send client_fd response_404 send_ok] }
    .ok (close_connection s1 client_fd)

/-- `Server::handle_client_data`. -/
def handle_client_data (s : Server) (client_fd : Int) (reads : List RecvResult)
    (html_content : List Nat) (send_ok : Bool) : Except Failure Server :=
  match drain (parser_of s client_fd) reads with
  | .error e => .error e
  | .ok .teardown => .ok (close_connection s client_fd)
  | .ok (.drained none) => .error .null_dereference
  | .ok (.drained (some parser)) =>
    let s1 := parsers_store s client_fd parser
    if parser.is_request_ready then route s1 client_fd parser html_content send_ok
    else .ok s1

end Server

/-! ### A concrete reactor state -/

/-- A server with one registered connection, handle 5, and a running pool. -/
def server_one : Server :=
  { _thread_pool := { tasks := [], stop := false },
    _client_parsers := [(5, HttpParser.new)],
    _current_connections := 1,
    trace := [] }

/-- The task that the upload of `request_upload` on handle 5 submits. -/
def task_upload : UploadTask :=
  { client_fd := 5, image_data := bytes "PNG", filter := bytes "grayscale",
    blur_intensity := [], sharpen_intensity := [] }

/-! ## Request lines, header lines and responses as text -/

/-- A first line `M SP P SP V`. -/
def request_line (m p v : List Nat) : List Nat := m ++ (32 :: (p ++ (32 :: v)))

/-- A header line `Key: Value`. -/
def header_line_of (kv : List Nat × List Nat) : List Nat := kv.1 ++ (58 :: 32 :: kv.2)

/-- The header table after recording the pairs `kvs` in order with `m[key] = value`. -/
def record_headers (hs : HeaderMap) (kvs : List (List Nat × List Nat)) : HeaderMap :=
  kvs.foldl (fun m kv => map_set m kv.1 kv.2) hs

/-- The value of the last pair of `kvs` with the key `k`. -/
def last_value (kvs : List (List Nat × List Nat)) (k : List Nat) : Option (List Nat) :=
  (kvs.reverse.find? (fun kv => kv.1 == k)).map (fun kv => kv.2)

/-- The declared length that belongs to a header table: the value of
`Content-Length` as `std::stoul` reads it, `0` when the header is missing or
`std::stoul` throws. -/
def length_of_headers (hs : HeaderMap) : Nat :=
  if map_count hs (bytes "Content-Length") then
    match stoul (map_get hs (bytes "Content-Length")) with
    | .ok v => v
    | .error _ => 0
  else 0

/-- The boundary token that belongs to a header table: `--` followed by the
text behind the first `boundary=` of the `Content-Type` value, empty without
it. -/
def boundary_of_headers (hs : HeaderMap) : List Nat :=
  if map_count hs (bytes "Content-Type") then
    match find (map_get hs (bytes "Content-Type")) (bytes "boundary=") 0 with
    | some i => bytes "--" ++ (map_get hs (bytes "Content-Type")).drop (i + 9)
    | none => []
  else []

/-- A framed response: `HTTP/1.1 <status>`, the header lines, the empty line
and the body. -/
def http_response (status : List Nat) (headers : List (List Nat × List Nat))
    (body : List Nat) : List Nat :=
  HttpParser.header_block (bytes "HTTP/1.1 " ++ status) (headers.map header_line_of) body

/-- The value of the `Content-Length` line of a response with the headers
`headers`, as a number. -/
def response_content_length (headers : List (List Nat × List Nat)) : Nat :=
  length_of_headers (record_headers [] headers)

namespace HttpParser

/-- A request without a `Content-Length` header, followed by stray bytes. -/
def request_get : List Nat := bytes "GET / HTTP/1.1\r\nHost: a\r\n\r\nxyz"

/-- The parser as `parse_headers` leaves it on `request_get`. -/
def parsed_get : HttpParser :=
  { awaiting request_get with _method := bytes "GET", _path := bytes "/",
                              _headers := [(bytes "Host", bytes "a")] }

/-- A header block of a request cut before its terminator. -/
def chunks_no_terminator : List (List Nat) :=
  [bytes "POST /upload HTTP/1.1\r\nContent-", bytes "Length: 10\r\n", bytes "\r"]

end HttpParser

/-! ## The accept path and the runs of the reactor (`src/Server.cpp`) -/

/-- `constexpr int MAX_CONNECTIONS` of `Server.cpp`. -/
def MAX_CONNECTIONS : Int := 1000000

namespace Server

/-- `_client_parsers[fd] = std::make_unique<HttpParser>()`. -/
def parsers_insert (s : Server) (fd : Int) (p : HttpParser) : Server :=
  { s with _client_parsers := (fd, p) :: s._client_parsers.filter (fun e => !(e.1 == fd)) }

/-- `Server::handle_new_connection`. `client_fd` is what `accept` returned
(negative when nothing could be accepted) and `epoll_add_ok` says whether the
registration of the new handle succeeded. -/
def handle_new_connection (s : Server) (client_fd : Int) (epoll_add_ok : Bool) : Server :=
  if MAX_CONNECTIONS ≤ s._current_connections then s
  else if client_fd < 0 then s
  else
    let s1 := { s with trace := s.trace ++ [Effect.accept client_fd],
                       _current_connections := s._current_connections + 1 }
    if epoll_add_ok then
      parsers_insert { s1 with trace := s1.trace ++ [Effect.epoll_add client_fd] } client_fd
        HttpParser.new
    else
      { s1 with trace := s1.trace ++ [Effect.close client_fd],
                _current_connections := s1._current_connections - 1 }

/-- A worker takes the task at the front of the queue and runs it to its end
(nothing happens on an empty queue). -/
def worker_task (s : Server) (r : ProcessOutcome) (os_send : Nat → Bool) : Server :=
  match s._thread_pool.tasks with
  | [] => s
  | t :: rest =>
    { s with _thread_pool := { s._thread_pool with tasks := rest },
             trace := s.trace ++ upload_task t r os_send }

/-- The server as constructed: no connection, an empty registry, a running
pool. -/
def init : Server :=
  { _thread_pool := { tasks := [], stop := false },
    _client_parsers := [],
    _current_connections := 0,
    trace := [] }

end Server

/-- What can happen to the server: a readiness notification on a listening
socket, one on a client connection, or a worker running a queued task. -/
inductive ServerEvent where
  | new_connection (client_fd : Int) (epoll_add_ok : Bool)
  | client_data (client_fd : Int) (reads : List RecvResult) (html_content : List Nat)
      (send_ok : Bool)
  | worker_task (r : ProcessOutcome) (os_send : Nat → Bool)

/-- One event on the server. -/
def Server.step (s : Server) : ServerEvent → Except Failure Server
  | .new_connection client_fd epoll_add_ok =>
    .ok (s.handle_new_connection client_fd epoll_add_ok)
  | .client_data client_fd reads html_content send_ok =>
    s.handle_client_data client_fd reads html_content send_ok
  | .worker_task r os_send => .ok (s.worker_task r os_send)

/-- A sequence of events; an exception ends it. -/
def Server.run (s : Server) : List ServerEvent → Except Failure Server
  | [] => .ok s
  | e :: es => (s.step e).bind (fun s1 => Server.run s1 es)

/-- The handles accepted and not yet closed at the end of the trace: each
close removes one accepted handle of its number. -/
def live_handles (trace : List Effect) : List Int :=
  trace.foldl (fun live e =>
    match e with
    | .accept fd => fd :: live
    | .close fd => live.erase fd
    | _ => live) []

/-- The run of one upload from accept to the worker-side close: connection 5
is accepted and registered, its upload request is read and dispatched, and a
worker runs the task with a successful Image Service call. -/
def run_one_upload : List ServerEvent :=
  [.new_connection 5 true,
   .client_data 5 [.data HttpParser.request_upload, .would_block] [] true,
   .worker_task (.returned true (bytes "JPG") (bytes "image/jpeg")) (fun _ => true)]

/-! ## The executors of the pool (`src/ThreadPool.cpp`) -/

/-- How a call of the submitted function ends. `is_std` tells whether the
thrown object derives from `std::exception`. -/
inductive TaskOutcome where
  | returned
  | threw (is_std : Bool)
deriving DecidableEq, Repr

/-- Where an executor stands in its loop: blocked in (or on its way to)
`condition.wait`, inside `task()`, returned from its thread function, or ended
by an exception that left the thread function. -/
inductive WorkerStatus where
  | waiting
  | running (t : UploadTask)
  | exited
  | terminated
deriving DecidableEq, Repr

/-- `(*task)()` on the `std::packaged_task` that `enqueue` wraps around the
submitted function: the result or the exception is stored in the shared state
of the future and the call itself returns. -/
def packaged_task_call (_o : TaskOutcome) : TaskOutcome := .returned

/-- The `try`/`catch` of the worker loop around `task()` (source lines
19-23): a `std::exception` is caught and the loop goes on; anything else
leaves the thread function. -/
def worker_after_task : TaskOutcome → WorkerStatus
  | .returned => .waiting
  | .threw true => .waiting
  | .threw false => .terminated

/-- The critical section of the worker loop (source lines 10-17) once
`condition.wait` lets the executor pass; `none` while it stays blocked. -/
def worker_wake (pool : ThreadPool) : Option (ThreadPool × WorkerStatus) :=
  if pool.stop = true ∨ pool.tasks ≠ [] then
    match pool.tasks with
    | [] => some (pool, .exited)
    | t :: rest => some ({ pool with tasks := rest }, .running t)
  else none

/-- The pool with its executors, and the record of what was submitted,
dequeued and executed so far. -/
structure PoolSystem where
  pool : ThreadPool
  workers : List WorkerStatus
  submitted : List UploadTask
  dequeued : List UploadTask
  executed : List UploadTask
deriving DecidableEq, Repr

/-- The atomic steps of the pool: a submission, the start of the shutdown
(`~ThreadPool` sets the stop flag), an executor passing its wait, and the end
of the `task()` call of an executor. -/
inductive PoolEvent where
  | enqueue (t : UploadTask)
  | shutdown
  | wake (i : Nat)
  | finish (i : Nat) (o : TaskOutcome)
deriving DecidableEq, Repr

namespace PoolSystem

/-- `ThreadPool::ThreadPool(threads)`. -/
def init (threads : Nat) : PoolSystem :=
  { pool := { tasks := [], stop := false },
    workers := List.replicate threads .waiting,
    submitted := [], dequeued := [], executed := [] }

/-- The tasks that executors hold inside `task()`. -/
def in_flight : List WorkerStatus → List UploadTask
  | [] => []
  | .running t :: ws => t :: in_flight ws
  | _ :: ws => in_flight ws

/-- One atomic step; an event that is not enabled leaves the state as it is
(a failed submission changes nothing, a blocked executor stays blocked). -/
def step (s : PoolSystem) : PoolEvent → PoolSystem
  | .enqueue t =>
    match s.pool.enqueue t with
    | .ok p => { s with pool := p, submitted := s.submitted ++ [t] }
    | .error _ => s
  | .shutdown => { s with pool := { s.pool with stop := true } }
  | .wake i =>
    match s.workers[i]? with
    | some .waiting =>
      match worker_wake s.pool with
      | some (p, .running t) =>
        { s with pool := p, workers := s.workers.set i (.running t),
                 dequeued := s.dequeued ++ [t] }
      | some (p, st) => { s with pool := p, workers := s.workers.set i st }
      | none => s
    | _ => s
  | .finish i o =>
    match s.workers[i]? with
    | some (.running t) =>
      { s with workers := s.workers.set i (worker_after_task (packaged_task_call o)),
               executed := s.executed ++ [t] }
    | _ => s

/-- A sequence of atomic steps. -/
def run (s : PoolSystem) : List PoolEvent → PoolSystem
  | [] => s
  | e :: es => run (s.step e) es

end PoolSystem

/-- `ThreadPool::enqueue` with the state that it leaves behind: on a stopped
pool the exception is thrown before the queue is touched. -/
def ThreadPool.enqueue_outcome (tp : ThreadPool) (t : UploadTask) : ThreadPool × Option Failure :=
  if tp.stop then (tp, some .runtime_error)
  else ({ tp with tasks := tp.tasks ++ [t] }, none)

/-! ## The part loop round by round -/

namespace HttpParser

/-- One round of the `while` loop of `parse_multipart_body`, entered at
`current_pos` (source lines 137-178). In the result `none` is a `break` and
`some pos` the value of `current_pos` at the next test of the loop
condition. -/
def multipart_round (p : HttpParser) (current_pos : Nat) :
    Except Failure (HttpParser × Option Nat) :=
  let body_size := p._body.length
  let boundary_len := p._boundary.length
  match memmem p._body current_pos (body_size - current_pos) p._boundary with
  | none => .ok (p, none)
  | some boundary_start =>
    match memmem p._body (boundary_start + boundary_len)
        (body_size - (boundary_start + boundary_len)) p._boundary with
    | none => .ok (p, none)
    | some next_boundary_start =>
      match process_part p boundary_start next_boundary_start with
      | .error e => .error e
      | .ok p1 => .ok (p1, some next_boundary_start)

/-- How a round of the loop goes on: the result of the loop after a `break`,
the rest of the loop from the new position otherwise. -/
def after_round (rest : HttpParser → Nat → Except Failure HttpParser)
    (r : HttpParser × Option Nat) : Except Failure HttpParser :=
  match r.2 with
  | none => .ok r.1
  | some next => rest r.1 next

/-- The number of rounds that the loop enters from `current_pos` on, until its
condition fails or a round breaks or throws; `none` when `fuel` rounds did not
end the loop. -/
def multipart_rounds : Nat → HttpParser → Nat → Option Nat
  | 0, _, _ => none
  | fuel + 1, p, current_pos =>
    if current_pos < p._body.length then
      match multipart_round p current_pos with
      | .ok (p1, some next) => (multipart_rounds fuel p1 next).map (· + 1)
      | _ => some 1
    else some 0

/-- A parser in the body phase that holds `body` with the boundary `--X`. -/
def with_body (body : List Nat) : HttpParser :=
  { new with _state := .BODY, _body := body, _content_length := body.length,
             _boundary := bytes "--X" }

/-- A body whose one part, `filter`, has nothing between its header separator
and the next boundary. -/
def body_empty_part : List Nat := bytes "--X\r\nname=\"filter\"\r\n\r\n--X--"

/-- A body whose one part, `filter`, has one byte between its header separator
and the next boundary. -/
def body_one_byte_part : List Nat := bytes "--X\r\nname=\"filter\"\r\n\r\na--X--"

/-- A body whose one part is the form field `photo`, a file with the file name
`image`. -/
def body_photo_part : List Nat :=
  bytes "--X\r\nContent-Disposition: form-data; name=\"photo\"; filename=\"image\"\r\n\r\nabc\r\n--X--"

/-- A body whose one part is the form field `filter`, sent with the file name
`image`. -/
def body_filter_file_part : List Nat :=
  bytes "--X\r\nContent-Disposition: form-data; name=\"filter\"; filename=\"image\"\r\n\r\nabc\r\n--X--"

/-- An upload request whose one part is the form field `photo`, a file with
the file name `image`. -/
def request_photo : List Nat :=
  bytes "POST /upload HTTP/1.1\r\nContent-Type: multipart/form-data; boundary=X\r\nContent-Length: 81\r\n\r\n--X\r\nContent-Disposition: form-data; name=\"photo\"; filename=\"image\"\r\n\r\nabc\r\n--X--"

/-- A body with the one part `filter` of value `blur`. -/
def body_filter_blur : List Nat := bytes "--X\r\nname=\"filter\"\r\n\r\nblur\r\n--X--"

/-- An upload whose length header is spelled in lower case, followed by a
well-formed multipart body of 33 bytes. -/
def request_lower_case : List Nat :=
  bytes "POST /upload HTTP/1.1\r\nContent-Type: multipart/form-data; boundary=X\r\ncontent-length: 33\r\n\r\n--X\r\nname=\"filter\"\r\n\r\nblur\r\n--X--"

end HttpParser

/-! ## The configuration (`src/ConfigManager.cpp`, `src/main.cpp`) -/

/-- What `ConfigManager::getMaxConnections` reads of `class ConfigManager`:
the loaded flag, and what `config_["server"]["max_connections"].get<int>()`
yields, `none` when that lookup throws. -/
structure ConfigManager where
  config_loaded_ : Bool
  server_max_connections : Option Int
deriving DecidableEq, Repr

/-- `ConfigManager::getMaxConnections`. -/
def ConfigManager.getMaxConnections (c : ConfigManager) : Int :=
  if !c.config_loaded_ then 1000
  else
    match c.server_max_connections with
    | some v => v
    | none => 1000

/-- The server that `main` constructs, `Server server(addr.data(), ports,
num_threads)`: the address, the ports and the pool size come from the
configuration, and `getMaxConnections` is not called. -/
def Server.of_config (_config : ConfigManager) : Server := Server.init

/-! ## The logger (`include/Logger.h`, `src/Logger.cpp`) -/

/-- `enum class LogLevel`. -/
inductive LogLevel where
  | DEBUG
  | INFO
  | ERROR
deriving DecidableEq, Repr

/-- The underlying value of a `LogLevel`, which `<` compares. -/
def LogLevel.value : LogLevel → Nat
  | .DEBUG => 0
  | .INFO => 1
  | .ERROR => 2

/-- `::toupper` in the C locale. -/
def toupper (c : Nat) : Nat := if 97 ≤ c ∧ c ≤ 122 then c - 32 else c

/-- `std::string::find_last_of(chars)`: the last index that holds one of
`chars`; `none` is `npos`. -/
def find_last_of (s chars : List Nat) : Option Nat :=
  (List.range s.length).reverse.find? (fun i => chars.contains (s.getD i 0))

/-- The decimal text that `operator<<` writes for an `int`. -/
def int_to_string (i : Int) : List Nat :=
  if i < 0 then 45 :: to_string i.natAbs else to_string i.toNat

/-- The level, the sink switches, and the two sinks of `class Logger`: the
lines written to `std::cout` and the queue that the writer thread of the log
file empties. -/
structure Logger where
  current_level_ : LogLevel
  enable_console_ : Bool
  enable_file_ : Bool
  console : List (List Nat)
  log_queue_ : List (List Nat)
deriving DecidableEq, Repr

namespace Logger

/-- `Logger::levelToString`. -/
def levelToString : LogLevel → List Nat
  | .DEBUG => bytes "DEBUG"
  | .INFO => bytes "INFO "
  | .ERROR => bytes "ERROR"

/-- The text that `Logger::log` composes (source lines 42-55); `now` is what
`getCurrentTime` returned. -/
def formatted_message (level : LogLevel) (message file : List Nat) (line : Int)
    (now : List Nat) : List Nat :=
  bytes "[" ++ now ++ bytes "] " ++ bytes "[" ++ levelToString level ++ bytes "] " ++
    (if file ≠ [] then
      let filename :=
        match find_last_of file [47, 92] with
        | none => file
        | some pos => file.drop (pos + 1)
      bytes "[" ++ filename ++ bytes ":" ++ int_to_string line ++ bytes "] "
    else []) ++ message

/-- `Logger::log`. -/
def log (lg : Logger) (level : LogLevel) (message file : List Nat) (line : Int)
    (now : List Nat) : Logger :=
  if level.value < lg.current_level_.value then lg
  else
    let lg1 := if lg.enable_console_ then
        { lg with console := lg.console ++ [formatted_message level message file line now] }
      else lg
    if lg1.enable_file_ then
      { lg1 with log_queue_ := lg1.log_queue_ ++ [formatted_message level message file line now] }
    else lg1

/-- `Logger::setLevel(LogLevel)`. -/
def setLevel (lg : Logger) (level : LogLevel) : Logger := { lg with current_level_ := level }

/-- `Logger::setLevel(const std::string&)`. -/
def setLevel_string (lg : Logger) (level : List Nat) : Logger :=
  let upper_level := level.map toupper
  if upper_level = bytes "DEBUG" then { lg with current_level_ := .DEBUG }
  else if upper_level = bytes "INFO" then { lg with current_level_ := .INFO }
  else if upper_level = bytes "ERROR" then { lg with current_level_ := .ERROR }
  else { lg with current_level_ := .INFO }

/-- A logger that writes to the console only, at level `DEBUG`. -/
def console_only : Logger :=
  { current_level_ := .DEBUG, enable_console_ := true, enable_file_ := false,
    console := [], log_queue_ := [] }

end Logger

/-! ## The blur branch of the Image Service (`src/ImageProcessor.cpp`) -/

/-- `std::stoi(s)` (base 10, `int` of 32 bits): leading white space, an
optional sign, then digits; `invalid_argument` without a digit,
`out_of_range` when the value is no `int`. Trailing text is ignored. -/
def stoi (s : List Nat) : Except Failure Int :=
  let s1 := s.dropWhile isspace
  let neg := s1.head? == some 45
  let s2 := if s1.head? == some 43 || s1.head? == some 45 then s1.tail else s1
  let digits := s2.takeWhile isdigit
  if digits = [] then .error .invalid_argument
  else
    let v : Int := ((digits.foldl (fun acc d => acc * 10 + (d - 48)) 0 : Nat) : Int)
    let r : Int := if neg then -v else v
    if r < -(2 ^ 31) ∨ 2 ^ 31 - 1 < r then .error .out_of_range
    else .ok r

/-- The kernel size that the blur branch of `ImageProcessor::process` passes
to `cv::GaussianBlur` (source lines 58-70). The remainder is taken of a value
between 3 and 51, where `%` of C++ and of Lean agree. -/
def blur_size (blur_intensity : List Nat) : Int :=
  if blur_intensity ≠ [] then
    match stoi blur_intensity with
    | .ok v =>
      let b1 := if v < 3 then 3 else v
      let b2 := if 51 < b1 then 51 else b1
      if b2 % 2 = 0 then b2 + 1 else b2
    | .error _ => 15
  else 15

end ImpServer

namespace ImpServer

/-! ## `find`: the first occurrence -/

theorem occurs_nil (pat : List Nat) (k : Nat) : occurs pat [] k ↔ k = 0 ∧ pat = [] := by
  simp [occurs]

theorem occurs_cons_zero (pat : List Nat) (c : Nat) (cs : List Nat) :
    occurs pat (c :: cs) 0 ↔ pat <+: c :: cs := by
  simp [occurs]

theorem occurs_cons_succ (pat : List Nat) (c : Nat) (cs : List Nat) (j : Nat) :
    occurs pat (c :: cs) (j + 1) ↔ occurs pat cs j := by
  simp [occurs]

theorem occurs_drop (pat s : List Nat) (pos k : Nat) (h : pos ≤ s.length) :
    occurs pat (s.drop pos) k ↔ occurs pat s (pos + k) := by
  simp only [occurs, List.length_drop, List.drop_drop]
  constructor
  · rintro ⟨h1, h2⟩; exact ⟨by omega, h2⟩
  · rintro ⟨h1, h2⟩; exact ⟨by omega, h2⟩

theorem occurs_length (pat s : List Nat) (i : Nat) (h : occurs pat s i) :
    i + pat.length ≤ s.length := by
  have := h.2.length_le
  simp at this
  have := h.1
  omega

theorem occurs_iff_take (pat s : List Nat) (i : Nat) :
    occurs pat s i ↔ i + pat.length ≤ s.length ∧ (s.drop i).take pat.length = pat := by
  constructor
  · intro h
    refine ⟨occurs_length pat s i h, ?_⟩
    exact (List.prefix_iff_eq_take.mp h.2).symm
  · rintro ⟨h1, h2⟩
    refine ⟨by omega, ?_⟩
    rw [← h2]
    exact List.take_prefix _ _

theorem findAux_offset (pat : List Nat) (s : List Nat) (i d : Nat) :
    findAux pat s (i + d) = (findAux pat s i).map (· + d) := by
  induction s generalizing i with
  | nil => by_cases h : pat = [] <;> simp [findAux, h]
  | cons c cs ih =>
    by_cases h : pat.isPrefixOf (c :: cs) = true
    · simp [findAux, h]
    · have := ih (i + 1)
      simp only [findAux, h]
      rw [show i + d + 1 = i + 1 + d by omega]
      simpa using this

theorem findAux_zero_some (pat s : List Nat) (k : Nat) :
    findAux pat s 0 = some k ↔ occurs pat s k ∧ ∀ j, j < k → ¬ occurs pat s j := by
  induction s generalizing k with
  | nil =>
    by_cases h : pat = []
    · simp [findAux, h, occurs_nil]
      constructor
      · intro hk; subst hk; simp
      · intro hk; exact hk.1.symm
    · simp [findAux, h, occurs_nil]
  | cons c cs ih =>
    by_cases h : pat.isPrefixOf (c :: cs) = true
    · have hp : pat <+: c :: cs := List.isPrefixOf_iff_prefix.mp h
      simp only [findAux, h, if_true, Option.some.injEq]
      constructor
      · intro hk; subst hk
        exact ⟨(occurs_cons_zero _ _ _).mpr hp, by intro j hj; omega⟩
      · rintro ⟨_, h2⟩
        by_contra hne
        exact h2 0 (by omega) ((occurs_cons_zero _ _ _).mpr hp)
    · have hp : ¬ pat <+: c :: cs := fun hh => h (List.isPrefixOf_iff_prefix.mpr hh)
      have hstep : findAux pat (c :: cs) 0 = (findAux pat cs 0).map (· + 1) := by
        have ho := findAux_offset pat cs 0 1
        simp only [Nat.zero_add] at ho
        rw [← ho]
        simp [findAux, h]
      rw [hstep]
      cases k with
      | zero =>
        simp only [Option.map_eq_some', occurs_cons_zero]
        constructor
        · rintro ⟨a, _, ha⟩; omega
        · rintro ⟨h1, _⟩; exact absurd h1 hp
      | succ k =>
        simp only [Option.map_eq_some', occurs_cons_succ]
        constructor
        · rintro ⟨a, ha, hak⟩
          have hak : a = k := by omega
          subst hak
          have := (ih a).mp ha
          refine ⟨this.1, ?_⟩
          intro j hj
          cases j with
          | zero => simpa [occurs_cons_zero] using hp
          | succ j => rw [occurs_cons_succ]; exact this.2 j (by omega)
        · rintro ⟨h1, h2⟩
          refine ⟨k, (ih k).mpr ⟨h1, ?_⟩, rfl⟩
          intro j hj
          have := h2 (j + 1) (by omega)
          rwa [occurs_cons_succ] at this

theorem findAux_zero_none (pat s : List Nat) :
    findAux pat s 0 = none ↔ ∀ j, ¬ occurs pat s j := by
  constructor
  · intro h j hj
    have hex : ∃ k, occurs pat s k := ⟨j, hj⟩
    classical
    have hmin := Nat.find_spec hex
    have hlt := fun m => @Nat.find_min _ _ hex m
    have := (findAux_zero_some pat s (Nat.find hex)).mpr ⟨hmin, fun m hm => hlt m hm⟩
    rw [h] at this
    exact absurd this (by simp)
  · intro h
    cases hf : findAux pat s 0 with
    | none => rfl
    | some k => exact absurd ((findAux_zero_some pat s k).mp hf).1 (h k)

theorem find_eq (s pat : List Nat) (pos : Nat) (h : pos ≤ s.length) :
    find s pat pos = (findAux pat (s.drop pos) 0).map (· + pos) := by
  have := findAux_offset pat (s.drop pos) 0 pos
  simp only [Nat.zero_add] at this
  simp [find, h, this]

theorem find_eq_some_iff (s pat : List Nat) (pos i : Nat) :
    find s pat pos = some i ↔
      pos ≤ i ∧ occurs pat s i ∧ ∀ j, pos ≤ j → j < i → ¬ occurs pat s j := by
  by_cases h : pos ≤ s.length
  · rw [find_eq s pat pos h]
    simp only [Option.map_eq_some', findAux_zero_some]
    constructor
    · rintro ⟨k, ⟨h1, h2⟩, hk⟩
      subst hk
      refine ⟨by omega, ?_, ?_⟩
      · have := (occurs_drop pat s pos k h).mp h1
        rwa [Nat.add_comm] at this
      · intro j hj1 hj2 hj
        have : occurs pat (s.drop pos) (j - pos) := by
          rw [occurs_drop pat s pos _ h]
          rwa [show pos + (j - pos) = j by omega]
        exact h2 (j - pos) (by omega) this
    · rintro ⟨h1, h2, h3⟩
      refine ⟨i - pos, ⟨?_, ?_⟩, by omega⟩
      · rw [occurs_drop pat s pos _ h]
        rwa [show pos + (i - pos) = i by omega]
      · intro j hj hjo
        rw [occurs_drop pat s pos _ h] at hjo
        exact h3 (pos + j) (by omega) (by omega) hjo
  · simp only [find, h, if_false]
    constructor
    · intro hh; exact absurd hh (by simp)
    · rintro ⟨h1, h2, _⟩
      have := h2.1
      omega

theorem find_eq_none_iff (s pat : List Nat) (pos : Nat) :
    find s pat pos = none ↔ ∀ j, pos ≤ j → ¬ occurs pat s j := by
  by_cases h : pos ≤ s.length
  · rw [find_eq s pat pos h]
    simp only [Option.map_eq_none', findAux_zero_none]
    constructor
    · intro hh j hj hjo
      apply hh (j - pos)
      rw [occurs_drop pat s pos _ h]
      rwa [show pos + (j - pos) = j by omega]
    · intro hh j hjo
      rw [occurs_drop pat s pos _ h] at hjo
      exact hh (pos + j) (by omega) hjo
  · simp only [find, h, if_false, true_iff]
    intro j hj hjo
    have := hjo.1
    omega

end ImpServer

namespace ImpServer

/-! ## `find` and concatenation -/

theorem occurs_get (pat s : List Nat) (j t : Nat) (h : occurs pat s j) (ht : t < pat.length) :
    s[j + t]? = pat[t]? := by
  obtain ⟨r, hr⟩ := h.2
  have : (s.drop j)[t]? = pat[t]? := by
    rw [← hr, List.getElem?_append_left ht]
  rw [← this, List.getElem?_drop]

theorem occurs_append_left (pat a b : List Nat) (i : Nat) (h : occurs pat a i) :
    occurs pat (a ++ b) i := by
  refine ⟨by have := h.1; simp; omega, ?_⟩
  rw [List.drop_append_of_le_length h.1]
  exact h.2.trans (List.prefix_append _ _)

theorem occurs_of_append (pat a b : List Nat) (j : Nat) (h : occurs pat (a ++ b) j)
    (hj : j + pat.length ≤ a.length) : occurs pat a j := by
  rw [occurs_iff_take] at h ⊢
  refine ⟨hj, ?_⟩
  have h2 := h.2
  rw [List.drop_append_of_le_length (by omega), List.take_append_of_le_length] at h2
  · exact h2
  · simp; omega

theorem occurs_append_right (pat a b : List Nat) (k : Nat) :
    occurs pat (a ++ b) (a.length + k) ↔ occurs pat b k := by
  simp only [occurs, List.length_append, List.drop_append]
  constructor
  · rintro ⟨h1, h2⟩; exact ⟨by omega, h2⟩
  · rintro ⟨h1, h2⟩; exact ⟨by omega, h2⟩

theorem find_append_of_some (a b pat : List Nat) (pos i : Nat) (h : find a pat pos = some i) :
    find (a ++ b) pat pos = some i := by
  rw [find_eq_some_iff] at h ⊢
  obtain ⟨h1, h2, h3⟩ := h
  refine ⟨h1, occurs_append_left _ _ _ _ h2, ?_⟩
  intro j hj1 hj2 hjo
  have := occurs_length _ _ _ h2
  exact h3 j hj1 hj2 (occurs_of_append _ _ _ _ hjo (by omega))

theorem find_some_of_occurs (s pat : List Nat) (pos p : Nat) (h : occurs pat s p)
    (hp : pos ≤ p) : ∃ q, find s pat pos = some q ∧ q ≤ p := by
  cases hf : find s pat pos with
  | none => exact absurd h ((find_eq_none_iff _ _ _).mp hf p hp)
  | some q =>
    refine ⟨q, rfl, ?_⟩
    by_contra hlt
    exact ((find_eq_some_iff _ _ _ _).mp hf).2.2 p hp (by omega) h

theorem find_some_ge (s pat : List Nat) (pos i : Nat) (h : find s pat pos = some i) : pos ≤ i :=
  ((find_eq_some_iff _ _ _ _).mp h).1

theorem find_some_occurs (s pat : List Nat) (pos i : Nat) (h : find s pat pos = some i) :
    occurs pat s i :=
  ((find_eq_some_iff _ _ _ _).mp h).2.1

theorem find_some_bound (s pat : List Nat) (pos i : Nat) (h : find s pat pos = some i) :
    i + pat.length ≤ s.length :=
  occurs_length _ _ _ (find_some_occurs _ _ _ _ h)

theorem find_append_right (a b pat : List Nat) (k : Nat) :
    find (a ++ b) pat (a.length + k) = (find b pat k).map (· + a.length) := by
  cases hf : find b pat k with
  | none =>
    simp only [Option.map_none']
    rw [find_eq_none_iff] at hf ⊢
    intro j hj hjo
    have : occurs pat b (j - a.length) := by
      rw [← occurs_append_right pat a b, show a.length + (j - a.length) = j by omega]
      exact hjo
    exact hf _ (by omega) this
  | some i =>
    simp only [Option.map_some']
    rw [find_eq_some_iff] at hf ⊢
    obtain ⟨h1, h2, h3⟩ := hf
    refine ⟨by omega, ?_, ?_⟩
    · rw [Nat.add_comm]; exact (occurs_append_right pat a b i).mpr h2
    · intro j hj1 hj2 hjo
      have : occurs pat b (j - a.length) := by
        rw [← occurs_append_right pat a b, show a.length + (j - a.length) = j by omega]
        exact hjo
      exact h3 _ (by omega) (by omega) this

/-- An occurrence of `pat` cannot span a byte that is not in `pat`. -/
theorem occurs_sep (pat a b : List Nat) (c j : Nat) (hc : c ∉ pat)
    (h : occurs pat (a ++ c :: b) j) : j + pat.length ≤ a.length ∨ a.length + 1 ≤ j := by
  by_contra hcon
  have h1 : j ≤ a.length := by omega
  have h2 : a.length - j < pat.length := by omega
  have hg := occurs_get pat _ j (a.length - j) h h2
  rw [show j + (a.length - j) = a.length by omega] at hg
  have : (a ++ c :: b)[a.length]? = some c := by
    rw [List.getElem?_append_right (le_refl _)]; simp
  rw [this] at hg
  exact hc (List.getElem?_mem hg.symm)

theorem find_sep (pat a b : List Nat) (c pos : Nat) (hc : c ∉ pat) (hpos : pos ≤ a.length) :
    find (a ++ c :: b) pat pos =
      match find a pat pos with
      | some i => some i
      | none => (find b pat 0).map (· + (a.length + 1)) := by
  cases hf : find a pat pos with
  | some i => exact find_append_of_some _ _ _ _ _ hf
  | none =>
    simp only
    have hnone := (find_eq_none_iff _ _ _).mp hf
    have key : ∀ j, pos ≤ j → occurs pat (a ++ c :: b) j → a.length + 1 ≤ j := by
      intro j hj hjo
      rcases occurs_sep pat a b c j hc hjo with h | h
      · exact absurd (occurs_of_append _ _ _ _ hjo h) (hnone j hj)
      · exact h
    have hshift : ∀ k, occurs pat (a ++ c :: b) (a.length + 1 + k) ↔ occurs pat b k := by
      intro k
      have := occurs_append_right pat (a ++ [c]) b k
      simpa using this
    cases hb : find b pat 0 with
    | none =>
      simp only [Option.map_none']
      rw [find_eq_none_iff] at hb ⊢
      intro j hj hjo
      have hge := key j hj hjo
      have := (hshift (j - (a.length + 1))).mp (by
        rw [show a.length + 1 + (j - (a.length + 1)) = j by omega]; exact hjo)
      exact hb _ (by omega) this
    | some i =>
      simp only [Option.map_some']
      rw [find_eq_some_iff] at hb ⊢
      obtain ⟨h1, h2, h3⟩ := hb
      refine ⟨by omega, ?_, ?_⟩
      · rw [Nat.add_comm]; exact (hshift i).mpr h2
      · intro j hj1 hj2 hjo
        have hge := key j hj1 hjo
        have := (hshift (j - (a.length + 1))).mp (by
          rw [show a.length + 1 + (j - (a.length + 1)) = j by omega]; exact hjo)
        exact h3 _ (by omega) (by omega) this

/-- The first occurrence of `pat` is right behind `a` when the first byte of
`pat` is not in `a`. -/
theorem find_first_byte (a b t : List Nat) (c : Nat) (hc : c ∉ a) :
    find (a ++ (c :: t) ++ b) (c :: t) 0 = some a.length := by
  rw [find_eq_some_iff]
  refine ⟨by omega, ?_, ?_⟩
  · rw [List.append_assoc]
    have := (occurs_append_right (c :: t) a ((c :: t) ++ b) 0).mpr
      ⟨by simp, by simp⟩
    simpa using this
  · intro j _ hj hjo
    have hg := occurs_get (c :: t) _ j 0 hjo (by simp)
    rw [List.append_assoc, Nat.add_zero, List.getElem?_append_left hj] at hg
    simp at hg
    exact hc (List.getElem?_mem hg)

end ImpServer

namespace ImpServer

/-! ## The header loop reads nothing behind the header terminator -/
namespace HttpParser

theorem substr_append (a rest : List Nat) (pos n : Nat) (h : pos + n ≤ a.length) :
    substr (a ++ rest) pos n = substr a pos n := by
  have h1 : pos ≤ a.length := by omega
  have h2 : pos ≤ (a ++ rest).length := by simp; omega
  simp only [substr, h1, h2, if_true]
  rw [List.drop_append_of_le_length h1, List.take_append_of_le_length (by simp; omega)]

theorem occurs_crlf_of_crlfcrlf (s : List Nat) (p : Nat) (h : occurs CRLFCRLF s p) :
    occurs CRLF s p ∧ occurs CRLF s (p + 2) := by
  obtain ⟨r, hr⟩ := h.2
  have hl := occurs_length _ _ _ h
  simp [CRLFCRLF] at hl
  constructor
  · exact ⟨h.1, ⟨[13, 10] ++ r, by rw [← hr]; simp [CRLF, CRLFCRLF]⟩⟩
  · refine ⟨by omega, ⟨r, ?_⟩⟩
    have hd : List.drop (p + 2) s = List.drop 2 (List.drop p s) := by
      rw [List.drop_drop]
    rw [hd, ← hr]
    simp [CRLF, CRLFCRLF]

theorem header_loop_append (a rest : List Nat) (p : Nat) (hp : occurs CRLFCRLF a p) :
    ∀ (m ls : Nat) (hs : HeaderMap) (fuel fuel' : Nat), p + 2 - ls ≤ m → (ls ≤ p ∨ ls = p + 2) →
      m < fuel → m < fuel' →
      header_loop fuel' (a ++ rest) ls hs = header_loop fuel a ls hs := by
  have hcr := occurs_crlf_of_crlfcrlf a p hp
  intro m
  induction m with
  | zero =>
    intro ls hs fuel fuel' hm hls hf hf'
    have hls : ls = p + 2 := by omega
    subst hls
    obtain ⟨f, rfl⟩ : ∃ f, fuel = f + 1 := ⟨fuel - 1, by omega⟩
    obtain ⟨f', rfl⟩ : ∃ f, fuel' = f + 1 := ⟨fuel' - 1, by omega⟩
    have h1 : find a CRLF (p + 2) = some (p + 2) := by
      rw [find_eq_some_iff]
      exact ⟨le_refl _, hcr.2, by intro j h1 h2; omega⟩
    have h2 := find_append_of_some a rest CRLF _ _ h1
    simp [header_loop, h1, h2]
  | succ m ih =>
    intro ls hs fuel fuel' hm hls hf hf'
    obtain ⟨f, rfl⟩ : ∃ f, fuel = f + 1 := ⟨fuel - 1, by omega⟩
    obtain ⟨f', rfl⟩ : ∃ f, fuel' = f + 1 := ⟨fuel' - 1, by omega⟩
    rcases hls with hls | hls
    · obtain ⟨q, hq, hqp⟩ := find_some_of_occurs a CRLF ls p hcr.1 hls
      have hq2 := find_append_of_some a rest CRLF _ _ hq
      have hge := find_some_ge _ _ _ _ hq
      have hocc := find_some_occurs _ _ _ _ hq
      have hb := find_some_bound _ _ _ _ hq
      simp only [header_loop, hq, hq2]
      by_cases hql : q = ls
      · simp [hql]
      · simp only [hql, if_false]
        rw [substr_append a rest ls (q - ls) (by omega)]
        cases hsub : substr a ls (q - ls) with
        | error e => rfl
        | ok header_line =>
          simp only
          cases hpl : parse_header_line hs header_line with
          | error e => rfl
          | ok hs1 =>
            simp only
            apply ih
            · omega
            · by_cases hqp' : q = p
              · right; omega
              · left
                have hlt : q < p := by omega
                by_contra hcon
                have hq1 : q + 1 = p := by omega
                have g1 := occurs_get CRLF a q 1 hocc (by simp [CRLF])
                have g2 := occurs_get CRLFCRLF a p 0 hp (by simp [CRLFCRLF])
                rw [hq1] at g1
                rw [Nat.add_zero, g1] at g2
                simp [CRLF, CRLFCRLF] at g2
            · omega
            · omega
    · subst hls
      have h1 : find a CRLF (p + 2) = some (p + 2) := by
        rw [find_eq_some_iff]
        exact ⟨le_refl _, hcr.2, by intro j h1 h2; omega⟩
      have h2 := find_append_of_some a rest CRLF _ _ h1
      simp [header_loop, h1, h2]

end HttpParser
end ImpServer

namespace ImpServer

/-! ## `parse_headers`: what it changes and what it reads -/
namespace HttpParser

theorem crlf_step (a : List Nat) (p q : Nat) (hp : occurs CRLFCRLF a p) (hq : occurs CRLF a q)
    (hqp : q ≤ p) : q + 2 ≤ p ∨ q = p := by
  by_contra hcon
  have hq1 : q + 1 = p := by omega
  have g1 := occurs_get CRLF a q 1 hq (by simp [CRLF])
  have g2 := occurs_get CRLFCRLF a p 0 hp (by simp [CRLFCRLF])
  rw [hq1] at g1
  rw [Nat.add_zero, g1] at g2
  simp [CRLF, CRLFCRLF] at g2

/-- What `parse_request_line` may change. -/
theorem parse_request_line_frame (p q : HttpParser) (ls : Nat)
    (h : parse_request_line p = .ok (q, ls)) :
    q = { p with _method := q._method, _path := q._path } := by
  unfold parse_request_line at h
  split at h
  · injection h with h; injection h with h1 h2; subst h1; rfl
  · split at h
    · exact absurd h (by simp)
    · split at h
      · injection h with h; injection h with h1 h2; subst h1; rfl
      · split at h
        · exact absurd h (by simp)
        · simp only at h
          split at h
          · injection h with h; injection h with h1 h2; subst h1; rfl
          · split at h
            · exact absurd h (by simp)
            · injection h with h; injection h with h1 h2; subst h1; rfl

theorem parse_request_line_start (p q : HttpParser) (ls pos : Nat)
    (hp : occurs CRLFCRLF p._buffer pos) (h : parse_request_line p = .ok (q, ls)) :
    ls ≤ pos ∨ ls = pos + 2 := by
  have hcr := occurs_crlf_of_crlfcrlf _ _ hp
  obtain ⟨e0, he0, hle⟩ := find_some_of_occurs p._buffer CRLF 0 pos hcr.1 (Nat.zero_le _)
  have hocc := find_some_occurs _ _ _ _ he0
  have hstep := crlf_step _ _ _ hp hocc hle
  have hls : ls = e0 + 2 := by
    unfold parse_request_line at h
    split at h
    · rename_i heq; rw [he0] at heq; exact absurd heq (by simp)
    · rename_i le heq
      rw [he0] at heq
      injection heq with heq
      subst heq
      split at h
      · exact absurd h (by simp)
      · split at h
        · injection h with h; injection h with h1 h2; exact h2.symm
        · split at h
          · exact absurd h (by simp)
          · simp only at h
            split at h
            · injection h with h; injection h with h1 h2; exact h2.symm
            · split at h
              · exact absurd h (by simp)
              · injection h with h; injection h with h1 h2; exact h2.symm
  omega

theorem parse_request_line_append (p : HttpParser) (rest : List Nat) (pos : Nat)
    (hp : occurs CRLFCRLF p._buffer pos) :
    parse_request_line { p with _buffer := p._buffer ++ rest } =
      match parse_request_line p with
      | .error e => .error e
      | .ok (q, ls) => .ok ({ q with _buffer := q._buffer ++ rest }, ls) := by
  have hcr := occurs_crlf_of_crlfcrlf _ _ hp
  obtain ⟨e0, he0, hle⟩ := find_some_of_occurs p._buffer CRLF 0 pos hcr.1 (Nat.zero_le _)
  have he0' := find_append_of_some p._buffer rest CRLF _ _ he0
  have hb := find_some_bound _ _ _ _ he0
  unfold parse_request_line
  simp only [he0, he0']
  rw [substr_append p._buffer rest 0 e0 (by omega)]
  cases substr p._buffer 0 e0 with
  | error e => rfl
  | ok request_line =>
    simp only
    cases find request_line [32] 0 with
    | none => rfl
    | some method_end =>
      simp only
      cases substr request_line 0 method_end with
      | error e => rfl
      | ok m =>
        simp only
        cases find request_line [32] (method_end + 1) with
        | none => rfl
        | some path_end =>
          simp only
          cases substr request_line (method_end + 1) (path_end - (method_end + 1)) with
          | error e => rfl
          | ok pa => rfl

theorem extract_content_length_buffer (p : HttpParser) (b : List Nat) :
    extract_content_length { p with _buffer := b } =
      { extract_content_length p with _buffer := b } := by
  unfold extract_content_length
  simp only
  split
  · split <;> rfl
  · rfl

theorem extract_boundary_buffer (p : HttpParser) (b : List Nat) :
    extract_boundary { p with _buffer := b } =
      match extract_boundary p with
      | .error e => .error e
      | .ok q => .ok { q with _buffer := b } := by
  unfold extract_boundary
  simp only
  split
  · split
    · rfl
    · split <;> rfl
  · rfl

theorem extract_content_length_frame (p : HttpParser) :
    extract_content_length p =
      { p with _content_length := (extract_content_length p)._content_length } := by
  unfold extract_content_length
  split
  · split <;> rfl
  · rfl

theorem extract_boundary_frame (p q : HttpParser) (h : extract_boundary p = .ok q) :
    q = { p with _boundary := q._boundary } := by
  unfold extract_boundary at h
  split at h
  · simp only at h
    split at h
    · injection h with h; subst h; rfl
    · split at h
      · exact absurd h (by simp)
      · injection h with h; subst h; rfl
  · injection h with h; subst h; rfl

/-- What `parse_headers` may change: the method, the path, the header table,
the declared length and the boundary, nothing else. -/
theorem parse_headers_frame (p q : HttpParser) (h : parse_headers p = .ok q) :
    q = { p with _method := q._method, _path := q._path, _headers := q._headers,
                 _content_length := q._content_length, _boundary := q._boundary } := by
  unfold parse_headers at h
  split at h
  · exact absurd h (by simp)
  · rename_i p1 ls h1
    have f1 := parse_request_line_frame p p1 ls h1
    split at h
    · exact absurd h (by simp)
    · rename_i hs h2
      have f3 := extract_boundary_frame _ _ h
      have f2 := extract_content_length_frame { p1 with _headers := hs }
      rw [f2] at f3
      rw [f3, f1]

theorem parse_headers_append (p : HttpParser) (rest : List Nat) (pos : Nat)
    (hp : occurs CRLFCRLF p._buffer pos) :
    parse_headers { p with _buffer := p._buffer ++ rest } =
      match parse_headers p with
      | .error e => .error e
      | .ok q => .ok { q with _buffer := q._buffer ++ rest } := by
  have hlen := occurs_length _ _ _ hp
  simp [CRLFCRLF] at hlen
  unfold parse_headers
  rw [parse_request_line_append p rest pos hp]
  cases h1 : parse_request_line p with
  | error e => rfl
  | ok r =>
    obtain ⟨p1, ls⟩ := r
    have f1 := parse_request_line_frame p p1 ls h1
    have hls := parse_request_line_start p p1 ls pos hp h1
    have hbuf : p1._buffer = p._buffer := by rw [f1]
    simp only
    rw [header_loop_append p._buffer rest pos hp (pos + 2 - ls) ls p1._headers
      (p._buffer.length + 1) ((p._buffer ++ rest).length + 1) (le_refl _) hls (by omega)
      (by simp; omega)]
    cases header_loop (p._buffer.length + 1) p._buffer ls p1._headers with
    | error e => rfl
    | ok hs =>
      simp only
      have := extract_content_length_buffer { p1 with _headers := hs } (p1._buffer ++ rest)
      simp only at this
      rw [this]
      have h2 := extract_boundary_buffer (extract_content_length { p1 with _headers := hs })
        (p1._buffer ++ rest)
      rw [h2]
      cases h3 : extract_boundary (extract_content_length { p1 with _headers := hs }) with
      | error e => rfl
      | ok q =>
        simp only
        have f3 := extract_boundary_frame _ _ h3
        have f2 := extract_content_length_frame { p1 with _headers := hs }
        have : q._buffer = p1._buffer := by rw [f3, f2]
        rw [this]

end HttpParser
end ImpServer

namespace ImpServer

/-! ## The steps of `parse` -/
namespace HttpParser

theorem check_body_complete_state (p q : HttpParser) (h : check_body_complete p = .ok q) :
    q._state = p._state ∨ (p._state = .BODY ∧ q._state = .COMPLETE) := by
  unfold check_body_complete at h
  split at h
  · rename_i hc
    split at h
    · exact absurd h (by simp)
    · injection h with h
      subst h
      exact Or.inr ⟨hc.1, rfl⟩
  · injection h with h
    subst h
    exact Or.inl rfl

theorem after_headers_state (p : HttpParser) (b : List Nat) :
    (after_headers p b)._state = .BODY ∨ (after_headers p b)._state = .COMPLETE := by
  unfold after_headers
  by_cases h : 0 < p._content_length <;> simp [h]

theorem receive_state (p q : HttpParser) (data : List Nat) (h : receive p data = .ok q) :
    q._state = p._state ∨
      (p._state ≠ .BODY ∧ p._state ≠ .COMPLETE ∧ (q._state = .BODY ∨ q._state = .COMPLETE)) := by
  unfold receive at h
  split at h
  · rename_i hc
    simp only at h
    split at h
    · injection h with h
      subst h
      exact Or.inl rfl
    · split at h
      · exact absurd h (by simp)
      · split at h
        · exact absurd h (by simp)
        · injection h with h
          subst h
          exact Or.inr ⟨hc.1, hc.2, after_headers_state _ _⟩
  · split at h <;> injection h with h <;> subst h <;> exact Or.inl rfl

theorem parse_of_complete (p : HttpParser) (data : List Nat) (h : p._state = .COMPLETE) :
    parse p data = .ok p := by
  simp [parse, receive, check_body_complete, h]

theorem resize_of_le (v : List Nat) (n : Nat) (h : n ≤ v.length) : resize v n = v.take n := by
  simp [resize, Nat.sub_eq_zero_of_le h]

theorem check_body_complete_short (p : HttpParser)
    (h : p._state ≠ .BODY ∨ p._content_length = 0 ∨ p._body.length < p._content_length) :
    check_body_complete p = .ok p := by
  unfold check_body_complete
  rw [if_neg]
  rintro ⟨h1, h2, h3⟩
  rcases h with h | h | h
  · exact h h1
  · omega
  · omega

theorem check_body_complete_append (p : HttpParser) (x : List Nat)
    (h3 : p._content_length ≤ p._body.length) :
    check_body_complete { p with _body := p._body ++ x } =
      check_body_complete p ∨ ¬ (p._state = .BODY ∧ 0 < p._content_length) := by
  by_cases hc : p._state = .BODY ∧ 0 < p._content_length
  · left
    unfold check_body_complete
    have h1 : p._state = .BODY ∧ 0 < p._content_length ∧ p._content_length ≤ p._body.length :=
      ⟨hc.1, hc.2, h3⟩
    have h2 : p._state = .BODY ∧ 0 < p._content_length ∧
        p._content_length ≤ (p._body ++ x).length := ⟨hc.1, hc.2, by simp; omega⟩
    simp only [h1, h2, and_self, if_true]
    rw [resize_of_le _ _ h3, resize_of_le _ _ h2.2.2, List.take_append_of_le_length h3]
  · right; exact hc

theorem feed_complete (p : HttpParser) (cs : List (List Nat)) (h : p._state = .COMPLETE) :
    feed p cs = .ok p := by
  induction cs with
  | nil => rfl
  | cons c cs ih => simp only [feed, parse_of_complete p c h, ih]

theorem parse_body (p : HttpParser) (c : List Nat) (h : p._state = .BODY) :
    parse p c = check_body_complete { p with _body := p._body ++ c } := by
  simp [parse, receive, h]

theorem feed_cons (p : HttpParser) (c : List Nat) (cs : List (List Nat)) :
    feed p (c :: cs) = (parse p c).bind (fun p1 => feed p1 cs) := by
  simp only [feed]
  cases parse p c <;> rfl

/-- Feeding chunks to a parser in the body phase is the completion check on
the body with all the chunks appended. -/
theorem feed_body (cs : List (List Nat)) :
    ∀ q : HttpParser, q._state = .BODY → 0 < q._content_length →
      (check_body_complete q).bind (fun q1 => feed q1 cs) =
      check_body_complete { q with _body := q._body ++ cs.flatten } := by
  induction cs with
  | nil =>
    intro q _ _
    simp only [List.flatten_nil, List.append_nil, feed]
    cases check_body_complete q <;> rfl
  | cons c cs ih =>
    intro q hs hl
    by_cases hlen : q._content_length ≤ q._body.length
    · rcases check_body_complete_append q (c :: cs).flatten hlen with h | h
      · rw [h]
        cases hq : check_body_complete q with
        | error e => rfl
        | ok q1 =>
          simp only [Except.bind]
          unfold check_body_complete at hq
          rw [if_pos ⟨hs, hl, hlen⟩] at hq
          split at hq
          · exact absurd hq (by simp)
          · injection hq with hq
            subst hq
            exact feed_complete _ _ rfl
      · exact absurd ⟨hs, hl⟩ h
    · rw [check_body_complete_short q (Or.inr (Or.inr (by omega)))]
      simp only [Except.bind]
      rw [feed_cons, parse_body q c hs]
      have := ih { q with _body := q._body ++ c } hs hl
      simp only [List.append_assoc] at this
      rw [List.flatten_cons]
      exact this

theorem parse_awaiting (b c : List Nat) : parse (awaiting b) c = parse new (b ++ c) := by
  simp [parse, receive, awaiting, new]

theorem after_headers_buffer (q : HttpParser) (b bp : List Nat) :
    after_headers { q with _buffer := b } bp = after_headers q bp := rfl

theorem parse_new_none (s : List Nat) (h : find s CRLFCRLF 0 = none) :
    parse new s = .ok (awaiting s) := by
  simp [parse, receive, new, h, awaiting, check_body_complete]

end HttpParser
end ImpServer

namespace ImpServer

/-! ## Chunked feeding against the single call (C1) -/
namespace HttpParser

theorem parse_new_direct (s : List Nat) (pos : Nat) (h : find s CRLFCRLF 0 = some pos) :
    parse new s =
      (parse_headers (awaiting s)).bind
        (fun q => check_body_complete (after_headers q (s.drop (pos + 4)))) := by
  have hb := find_some_bound _ _ _ _ h
  simp [CRLFCRLF] at hb
  unfold parse receive
  have hst : new._state ≠ .BODY ∧ new._state ≠ .COMPLETE := by simp [new]
  rw [if_pos hst]
  simp only
  have hf : find (new._buffer ++ s) CRLFCRLF 0 = some pos := by simpa [new] using h
  rw [hf]
  simp only
  have hs : ({ new with _buffer := new._buffer ++ s } : HttpParser) = awaiting s := by
    simp [awaiting, new]
  rw [hs]
  cases hq : parse_headers (awaiting s) with
  | error e => rfl
  | ok q =>
    simp only [Except.bind]
    have hfr := parse_headers_frame _ _ hq
    have hbuf : q._buffer = s := by rw [hfr]; rfl
    have : substr_from q._buffer (pos + 4) = .ok (s.drop (pos + 4)) := by
      rw [hbuf]
      simp [substr_from]; omega
    rw [this]

theorem parse_headers_awaiting_append (a rest : List Nat) (pos : Nat)
    (h : find a CRLFCRLF 0 = some pos) :
    parse_headers (awaiting (a ++ rest)) =
      (parse_headers (awaiting a)).map (fun q => { q with _buffer := a ++ rest }) := by
  have hocc : occurs CRLFCRLF (awaiting a)._buffer pos := find_some_occurs _ _ _ _ h
  have := parse_headers_append (awaiting a) rest pos hocc
  have hs : ({ awaiting a with _buffer := (awaiting a)._buffer ++ rest } : HttpParser) =
      awaiting (a ++ rest) := rfl
  rw [hs] at this
  rw [this]
  cases hq : parse_headers (awaiting a) with
  | error e => rfl
  | ok q =>
    simp only [Except.map]
    have hfr := parse_headers_frame _ _ hq
    have hbuf : q._buffer = a := by rw [hfr]; rfl
    rw [hbuf]

theorem after_headers_append (q : HttpParser) (x r : List Nat) (h : q._body = []) :
    after_headers q (x ++ r) =
      { after_headers q x with _body := (after_headers q x)._body ++ r } := by
  unfold after_headers
  by_cases hx : x = []
  · by_cases hr : r = []
    · simp [hx, hr, h]
    · simp [hx, hr, h]
  · simp [hx]

theorem after_headers_body_phase (q : HttpParser) (x : List Nat) (h : 0 < q._content_length) :
    (after_headers q x)._state = .BODY := by
  simp [after_headers, h]

theorem after_headers_complete (q : HttpParser) (x : List Nat) (h : ¬ 0 < q._content_length) :
    (after_headers q x)._state = .COMPLETE := by
  simp [after_headers, h]

theorem after_headers_length (q : HttpParser) (x : List Nat) :
    (after_headers q x)._content_length = q._content_length := rfl

theorem after_headers_body_eq (q : HttpParser) (x : List Nat) (h : q._body = []) :
    (after_headers q x)._body = x := by
  unfold after_headers
  by_cases hx : x = []
  · simp [hx, h]
  · simp [hx]

theorem same_upto_body_refl (r : Except Failure HttpParser) : same_upto_body r r := by
  cases r with
  | error e => rfl
  | ok q => exact ⟨q._body, rfl, fun _ => rfl⟩

theorem feed_awaiting (cs : List (List Nat)) :
    ∀ b : List Nat, find b CRLFCRLF 0 = none →
      same_upto_body (parse new (b ++ cs.flatten)) (feed (awaiting b) cs) := by
  induction cs with
  | nil =>
    intro b hb
    simp only [List.flatten_nil, List.append_nil, parse_new_none b hb, feed]
    exact same_upto_body_refl _
  | cons c cs ih =>
    intro b hb
    cases hf : find (b ++ c) CRLFCRLF 0 with
    | none =>
      have := ih (b ++ c) hf
      rw [List.flatten_cons, ← List.append_assoc]
      rw [feed_cons, parse_awaiting, parse_new_none _ hf]
      exact this
    | some pos =>
      have hfS := find_append_of_some (b ++ c) cs.flatten CRLFCRLF 0 pos hf
      have hbd := find_some_bound _ _ _ _ hf
      simp only [CRLFCRLF, List.length_cons, List.length_nil] at hbd
      rw [List.flatten_cons, ← List.append_assoc]
      rw [feed_cons, parse_awaiting]
      rw [parse_new_direct _ pos hfS, parse_new_direct _ pos hf,
        parse_headers_awaiting_append _ _ pos hf]
      cases hq : parse_headers (awaiting (b ++ c)) with
      | error e => rfl
      | ok q =>
        simp only [Except.bind, Except.map]
        have hfr := parse_headers_frame _ _ hq
        have hbody : q._body = [] := by rw [hfr]; rfl
        rw [after_headers_buffer]
        rw [List.drop_append_of_le_length (by omega)]
        rw [after_headers_append q _ _ hbody]
        by_cases hl : 0 < q._content_length
        · rw [← feed_body cs _ (after_headers_body_phase q _ hl) hl]
          exact same_upto_body_refl _
        · have hc := after_headers_complete q (List.drop (pos + 4) (b ++ c)) hl
          rw [check_body_complete_short _ (Or.inl (by rw [hc]; simp)),
            check_body_complete_short _ (Or.inl (by simp [hc]))]
          simp only [Except.bind]
          rw [feed_complete _ _ hc]
          refine ⟨(after_headers q (List.drop (pos + 4) (b ++ c)))._body, rfl, ?_⟩
          intro h
          rcases h with h | h
          · exact absurd hc h
          · exact absurd h hl

/-- C1: fragmentation invariance. For every byte sequence, cut into chunks in
any way, feeding the chunks in order to a fresh parser gives the same
readiness, method, path, filter type and image data as one `parse` call on
the whole sequence (and fails exactly when that call fails); in particular
for the two chunks of a split at any offset `k`. -/
theorem fragmentation_invariance (cs : List (List Nat)) (s : List Nat) (k : Nat) :
    (feed new cs).map observe = (parse new cs.flatten).map observe ∧
    (feed new [s.take k, s.drop k]).map observe = (parse new s).map observe := by
  have key : ∀ cs : List (List Nat),
      (feed new cs).map observe = (parse new cs.flatten).map observe := by
    intro cs
    have h := feed_awaiting cs [] (by decide)
    simp only [List.nil_append] at h
    have hn : awaiting [] = new := rfl
    rw [hn] at h
    cases hp : parse new cs.flatten with
    | error e => rw [hp] at h; rw [show feed new cs = .error e from h]
    | ok q =>
      rw [hp] at h
      obtain ⟨body, hb, _⟩ := h
      rw [hb]
      rfl
  refine ⟨key cs, ?_⟩
  have := key [s.take k, s.drop k]
  simpa using this

end HttpParser
end ImpServer

namespace ImpServer

/-! ## The extraction: frame and few boundaries -/
namespace HttpParser

theorem extraction_frame_refl (p : HttpParser) : extraction_frame p p := rfl

theorem extraction_frame_trans (p q r : HttpParser) (h1 : extraction_frame p q)
    (h2 : extraction_frame q r) : extraction_frame p r := by
  unfold extraction_frame at *
  rw [h2, h1]

theorem assign_part_frame (p : HttpParser) (hd v : List Nat) :
    extraction_frame p (assign_part p hd v) := by
  unfold assign_part extraction_frame
  split
  · rfl
  · split
    · rfl
    · split
      · rfl
      · split
        · rfl
        · split <;> rfl

theorem process_part_frame (p q : HttpParser) (bs nbs : Nat)
    (h : process_part p bs nbs = .ok q) : extraction_frame p q := by
  unfold process_part at h
  simp only at h
  split at h
  · exact absurd h (by simp)
  · split at h
    · injection h with h; subst h; rfl
    · split at h
      · split at h
        · exact absurd h (by simp)
        · injection h with h; subst h; exact assign_part_frame _ _ _
      · injection h with h; subst h; rfl

theorem multipart_loop_frame (fuel : Nat) :
    ∀ (p q : HttpParser) (cur : Nat), multipart_loop fuel p cur = .ok q →
      extraction_frame p q := by
  induction fuel with
  | zero =>
    intro p q cur h
    simp only [multipart_loop] at h
    injection h with h; subst h; rfl
  | succ fuel ih =>
    intro p q cur h
    simp only [multipart_loop] at h
    split at h
    · split at h
      · injection h with h; subst h; rfl
      · split at h
        · injection h with h; subst h; rfl
        · split at h
          · exact absurd h (by simp)
          · rename_i p1 hp1
            exact extraction_frame_trans _ _ _ (process_part_frame _ _ _ _ hp1) (ih _ _ _ h)
    · injection h with h; subst h; rfl

/-- What `parse_multipart_body` may change: the five extracted fields. -/
theorem parse_multipart_body_frame (p q : HttpParser) (h : parse_multipart_body p = .ok q) :
    extraction_frame p q := by
  unfold parse_multipart_body at h
  split at h
  · injection h with h; subst h; rfl
  · exact multipart_loop_frame _ _ _ _ h

theorem memmem_full (body needle : List Nat) (cur : Nat) (h : cur ≤ body.length) :
    memmem body cur (body.length - cur) needle = find body needle cur := by
  unfold memmem
  rw [show cur + (body.length - cur) = body.length by omega, List.take_length]

/-- With fewer than two occurrences of the boundary the part loop stores
nothing. -/
theorem parse_multipart_body_few (p : HttpParser)
    (h : ∀ i, find p._body p._boundary 0 = some i →
      find p._body p._boundary (i + p._boundary.length) = none) :
    parse_multipart_body p = .ok p := by
  unfold parse_multipart_body
  split
  · rfl
  · rename_i hne
    have hb : p._body ≠ [] := fun hh => hne (Or.inr hh)
    have hpos : 0 < p._body.length := List.length_pos.mpr hb
    simp only [multipart_loop, hpos, if_true]
    rw [show p._body.length - 0 = p._body.length from rfl] 
    have h0 := memmem_full p._body p._boundary 0 (Nat.zero_le _)
    simp only [Nat.sub_zero] at h0
    rw [h0]
    cases hf : find p._body p._boundary 0 with
    | none => rfl
    | some i =>
      simp only
      have hbound := find_some_bound _ _ _ _ hf
      rw [memmem_full _ _ _ hbound, h i hf]

theorem parsed_header_some (s : List Nat) (q : HttpParser) (h : parsed_header s = some q) :
    ∃ pos, find s CRLFCRLF 0 = some pos ∧ parse_headers (awaiting s) = .ok q := by
  unfold parsed_header at h
  split at h
  · exact absurd h (by simp)
  · rename_i pos hf
    split at h
    · injection h with h; subst h; exact ⟨pos, hf, by assumption⟩
    · exact absurd h (by simp)

theorem body_bytes_some (s : List Nat) (pos : Nat) (h : find s CRLFCRLF 0 = some pos) :
    body_bytes s = s.drop (pos + 4) := by
  simp [body_bytes, h]

/-- The single call on a stream with a complete header block. -/
theorem parse_new_parsed (s : List Nat) (q : HttpParser) (h : parsed_header s = some q) :
    parse new s = check_body_complete (after_headers q (body_bytes s)) ∧ q._body = [] := by
  obtain ⟨pos, hf, hq⟩ := parsed_header_some s q h
  rw [parse_new_direct s pos hf, hq, body_bytes_some s pos hf]
  refine ⟨rfl, ?_⟩
  have hfr := parse_headers_frame _ _ hq
  rw [hfr]; rfl

/-- The header block of a prefix that already holds the terminator is the
header block of the whole stream. -/
theorem parsed_header_prefix (a rest : List Nat) (pos : Nat) (q : HttpParser)
    (hf : find a CRLFCRLF 0 = some pos) (h : parsed_header (a ++ rest) = some q) :
    parsed_header a = some { q with _buffer := a } ∧
      body_bytes (a ++ rest) = body_bytes a ++ rest := by
  obtain ⟨pos', hf', hq⟩ := parsed_header_some _ q h
  have hfS := find_append_of_some a rest CRLFCRLF 0 pos hf
  have hb := find_some_bound _ _ _ _ hf
  simp only [CRLFCRLF, List.length_cons, List.length_nil] at hb
  rw [parse_headers_awaiting_append a rest pos hf] at hq
  constructor
  · unfold parsed_header
    rw [hf]
    simp only
    cases hqa : parse_headers (awaiting a) with
    | error e => rw [hqa] at hq; exact absurd hq (by simp [Except.map])
    | ok qa =>
      rw [hqa] at hq
      simp only [Except.map] at hq
      injection hq with hq
      subst hq
      simp only
      have hfr := parse_headers_frame _ _ hqa
      have hbuf : qa._buffer = a := by rw [hfr]; rfl
      congr 1
      conv => lhs; rw [← show ({ qa with _buffer := qa._buffer } : HttpParser) = qa from rfl]
      rw [hbuf]
  · rw [body_bytes_some _ pos hfS, body_bytes_some _ pos hf,
      List.drop_append_of_le_length (by omega)]

end HttpParser
end ImpServer

namespace ImpServer

/-! ## Length discipline (C3, C4) and malformed bodies (C8) -/
namespace HttpParser

theorem declared_length_some (s : List Nat) (L : Nat) (h : declared_length s = some L) :
    ∃ q, parsed_header s = some q ∧ q._content_length = L := by
  unfold declared_length at h
  cases hq : parsed_header s with
  | none => rw [hq] at h; exact absurd h (by simp)
  | some q => rw [hq] at h; simp at h; exact ⟨q, rfl, h⟩

theorem same_upto_body_ok (q : HttpParser) (r : Except Failure HttpParser)
    (h : same_upto_body (.ok q) r) :
    ∃ body, r = .ok { q with _body := body } ∧
      ((q._state ≠ .COMPLETE ∨ 0 < q._content_length) → body = q._body) := h

/-- The single call on a stream whose header block declares more body bytes
than the stream holds leaves the parser in the body phase. -/
theorem parse_new_short (s : List Nat) (q0 : HttpParser) (h : parsed_header s = some q0)
    (hL : 0 < q0._content_length) (hshort : (body_bytes s).length < q0._content_length) :
    parse new s = .ok (after_headers q0 (body_bytes s)) ∧
      (after_headers q0 (body_bytes s))._state = .BODY := by
  obtain ⟨hp, hb⟩ := parse_new_parsed s q0 h
  rw [hp]
  refine ⟨check_body_complete_short _ (Or.inr (Or.inr ?_)), after_headers_body_phase _ _ hL⟩
  rw [after_headers_body_eq _ _ hb, after_headers_length]
  exact hshort

/-- C3: length discipline, under-length. When the header block of the stream
declares a body length `L > 0` and fewer than `L` body bytes are supplied over
all the `parse` calls, every one of these calls returns and the request is
not ready after it (`k` counts the calls made so far). -/
theorem under_length_never_ready (cs : List (List Nat)) (L k : Nat)
    (hd : declared_length cs.flatten = some L) (hL : 0 < L)
    (hshort : (body_bytes cs.flatten).length < L) :
    ∃ q, feed new (cs.take k) = .ok q ∧ q.is_request_ready = false := by
  obtain ⟨q0, hq0, hlen⟩ := declared_length_some _ _ hd
  have hsplit : cs.flatten = (cs.take k).flatten ++ (cs.drop k).flatten := by
    rw [← List.flatten_append, List.take_append_drop]
  have hfa := feed_awaiting (cs.take k) [] (by decide)
  simp only [List.nil_append] at hfa
  have hn : awaiting [] = new := rfl
  rw [hn] at hfa
  cases hf : find (cs.take k).flatten CRLFCRLF 0 with
  | none =>
    rw [parse_new_none _ hf] at hfa
    obtain ⟨body, hb, _⟩ := same_upto_body_ok _ _ hfa
    exact ⟨_, hb, rfl⟩
  | some pos =>
    rw [hsplit] at hq0 hshort
    obtain ⟨hp, hbb⟩ := parsed_header_prefix _ _ pos q0 hf hq0
    rw [hbb] at hshort
    have hs := parse_new_short (cs.take k).flatten _ hp (by simpa [hlen] using hL)
      (by simp only [hlen]; simp at hshort; omega)
    rw [hs.1] at hfa
    obtain ⟨body, hb, _⟩ := same_upto_body_ok _ _ hfa
    refine ⟨_, hb, ?_⟩
    have := hs.2
    simp only [is_request_ready]
    rw [this]
    rfl

theorem check_body_complete_long (p : HttpParser) (hs : p._state = .BODY)
    (hl : 0 < p._content_length) (hlen : p._content_length ≤ p._body.length) :
    check_body_complete p =
      (parse_multipart_body { p with _body := p._body.take p._content_length }).map
        (fun p1 => { p1 with _state := .COMPLETE }) := by
  unfold check_body_complete
  rw [if_pos ⟨hs, hl, hlen⟩, resize_of_le _ _ hlen]
  generalize parse_multipart_body { p with _body := p._body.take p._content_length } = r
  cases r <;> rfl

/-- The single call on a stream that holds at least the declared number of
body bytes runs the extraction on the first `L` of them. -/
theorem parse_new_long (s : List Nat) (q0 : HttpParser) (h : parsed_header s = some q0)
    (hL : 0 < q0._content_length) (hlong : q0._content_length ≤ (body_bytes s).length) :
    parse new s =
      (parse_multipart_body
        { after_headers q0 (body_bytes s) with
          _body := (after_headers q0 (body_bytes s))._body.take
            (after_headers q0 (body_bytes s))._content_length }).map
        (fun p1 => { p1 with _state := .COMPLETE }) := by
  obtain ⟨hp, hb⟩ := parse_new_parsed s q0 h
  rw [hp]
  have hbe := after_headers_body_eq q0 (body_bytes s) hb
  exact check_body_complete_long _ (after_headers_body_phase _ _ hL) hL (by rw [hbe]; exact hlong)

/-- Length discipline, over-length, for the calls that return: when a body
length `L > 0` is declared and at least `L` body bytes have been supplied, a
sequence of `parse` calls that returns leaves the parser complete with exactly
the first `L` body bytes retained. -/
theorem over_length_truncates (cs : List (List Nat)) (L : Nat) (q : HttpParser)
    (hd : declared_length cs.flatten = some L) (hL : 0 < L)
    (hlong : L ≤ (body_bytes cs.flatten).length) (hq : feed new cs = .ok q) :
    q._state = .COMPLETE ∧ q._body = (body_bytes cs.flatten).take L := by
  obtain ⟨q0, hq0, hlen⟩ := declared_length_some _ _ hd
  subst hlen
  have hfa := feed_awaiting cs [] (by decide)
  simp only [List.nil_append] at hfa
  have hn : awaiting [] = new := rfl
  rw [hn, parse_new_long _ q0 hq0 hL hlong] at hfa
  obtain ⟨_, hb0⟩ := parse_new_parsed _ q0 hq0
  have hbe := after_headers_body_eq q0 (body_bytes cs.flatten) hb0
  generalize hm : parse_multipart_body
      { after_headers q0 (body_bytes cs.flatten) with
        _body := (after_headers q0 (body_bytes cs.flatten))._body.take
          (after_headers q0 (body_bytes cs.flatten))._content_length } = r at hfa
  cases r with
  | error e =>
    have : feed new cs = .error e := hfa
    rw [this] at hq
    exact absurd hq (by simp)
  | ok p1 =>
    obtain ⟨body, hb, hbody⟩ := same_upto_body_ok _ _ hfa
    rw [hb] at hq
    injection hq with hq
    have hfr := parse_multipart_body_frame _ _ hm
    have hl1 : p1._content_length = q0._content_length := by rw [hfr]; rfl
    have hb1 : p1._body = (body_bytes cs.flatten).take q0._content_length := by
      rw [hfr]
      show (after_headers q0 (body_bytes cs.flatten))._body.take _ = _
      rw [hbe]; rfl
    have := hbody (Or.inr (by show 0 < p1._content_length; rw [hl1]; exact hL))
    subst hq
    exact ⟨rfl, by show body = _; rw [this]; exact hb1⟩

/-- C8 as amended: completion is decided by the declared length alone. When
`L > 0` body bytes are declared and supplied and the boundary occurs fewer
than two times in the first `L` body bytes (none at all, or no second one),
the parser becomes complete and the five extracted fields stay empty. -/
theorem malformed_multipart_completes (cs : List (List Nat)) (L : Nat) (bnd : List Nat)
    (hd : declared_length cs.flatten = some L) (hL : 0 < L)
    (hlong : L ≤ (body_bytes cs.flatten).length)
    (hb : declared_boundary cs.flatten = some bnd)
    (hfew : ∀ i, find ((body_bytes cs.flatten).take L) bnd 0 = some i →
      find ((body_bytes cs.flatten).take L) bnd (i + bnd.length) = none) :
    ∃ q, feed new cs = .ok q ∧ q.is_request_ready = true ∧ q.get_image_data = [] ∧
      q.get_filter_type = [] ∧ q.get_image_uuid = [] ∧ q.get_blur_intensity = [] ∧
      q.get_sharpen_intensity = [] := by
  obtain ⟨q0, hq0, hlen⟩ := declared_length_some _ _ hd
  subst hlen
  have hbnd : q0._boundary = bnd := by
    unfold declared_boundary at hb
    rw [hq0] at hb
    simpa using hb
  have hfa := feed_awaiting cs [] (by decide)
  simp only [List.nil_append] at hfa
  have hn : awaiting [] = new := rfl
  rw [hn, parse_new_long _ q0 hq0 hL hlong] at hfa
  obtain ⟨_, hb0⟩ := parse_new_parsed _ q0 hq0
  have hbe := after_headers_body_eq q0 (body_bytes cs.flatten) hb0
  have hm := parse_multipart_body_few
    { after_headers q0 (body_bytes cs.flatten) with
      _body := (after_headers q0 (body_bytes cs.flatten))._body.take
        (after_headers q0 (body_bytes cs.flatten))._content_length } (by
        show ∀ i, find ((after_headers q0 (body_bytes cs.flatten))._body.take
            q0._content_length) q0._boundary 0 = some i →
          find ((after_headers q0 (body_bytes cs.flatten))._body.take q0._content_length)
            q0._boundary (i + q0._boundary.length) = none
        rw [hbnd, hbe]; exact hfew)
  rw [hm] at hfa
  obtain ⟨body, hbq, _⟩ := same_upto_body_ok _ _ hfa
  obtain ⟨pos, _, hph⟩ := parsed_header_some _ _ hq0
  have hfr := parse_headers_frame _ _ hph
  refine ⟨_, hbq, rfl, ?_, ?_, ?_, ?_, ?_⟩
  · show q0._image_data = []; rw [hfr]; rfl
  · show q0._filter_type = []; rw [hfr]; rfl
  · show q0._image_uuid = []; rw [hfr]; rfl
  · show q0._blur_intensity = []; rw [hfr]; rfl
  · show q0._sharpen_intensity = []; rw [hfr]; rfl

end HttpParser
end ImpServer

namespace ImpServer

/-! ## State order, absorption and the failing inputs (C5, C6, C7, C4, C8) -/
namespace HttpParser

/-- C5: monotonic parser state. A `parse` call that returns never moves the
state backward in the order of the enum (header phase `METHOD`..`HEADERS`,
then `BODY`, then `COMPLETE`); `reset` is what returns it to `METHOD`. -/
theorem parse_state_monotone (p q : HttpParser) (data : List Nat) (h : parse p data = .ok q) :
    p._state.rank ≤ q._state.rank ∧ (reset q)._state = .METHOD := by
  refine ⟨?_, rfl⟩
  unfold parse at h
  split at h
  · exact absurd h (by simp)
  · rename_i p1 h1
    have hr := receive_state p p1 data h1
    have hc := check_body_complete_state p1 q h
    rcases hr with hr | ⟨hb, hcm, hr⟩
    · rcases hc with hc | ⟨hc1, hc2⟩
      · rw [hc, hr]
      · rw [hc2]; cases hp : p._state <;> simp [ParseState.rank]
    · rcases hc with hc | ⟨hc1, hc2⟩
      · rw [hc]
        cases hp : p._state <;> rcases hr with hr | hr <;> simp_all [ParseState.rank]
      · rw [hc2]; cases hp : p._state <;> simp [ParseState.rank]

/-- The monotonicity theorem at the call that completes `request_no_boundary`. -/
theorem parse_state_monotone_witness :
    parse new request_no_boundary = .ok parsed_no_boundary ∧
      new._state.rank ≤ parsed_no_boundary._state.rank ∧
      (reset parsed_no_boundary)._state = .METHOD :=
  ⟨by decide, parse_state_monotone new parsed_no_boundary request_no_boundary (by decide)⟩

/-- C6: complete is absorbing. Once `is_request_ready` holds, a further
`parse` call with any bytes returns the parser unchanged, in every field. -/
theorem complete_is_absorbing (p : HttpParser) (data : List Nat)
    (h : p.is_request_ready = true) : parse p data = .ok p := by
  apply parse_of_complete
  simpa [is_request_ready] using h

/-- The absorption theorem at a complete parser fed a header terminator. -/
theorem complete_is_absorbing_witness :
    ({ new with _state := .COMPLETE, _body := [1, 2] } : HttpParser).is_request_ready = true ∧
      parse { new with _state := .COMPLETE, _body := [1, 2] } [13, 10, 13, 10] =
        .ok { new with _state := .COMPLETE, _body := [1, 2] } :=
  ⟨by decide, complete_is_absorbing _ _ (by decide)⟩

/-- C7, at the failing input: a header line that ends right behind its colon
makes `parse` throw `std::out_of_range` (from `substr(colon_pos + 2)`). -/
theorem header_line_without_value_throws :
    parse new request_colon_only = .error .out_of_range := by decide

/-- C4, at the failing input: twenty-seven body bytes are declared and
supplied, and `parse` throws `std::length_error` from the extraction instead
of completing. -/
theorem over_length_extraction_throws :
    declared_length request_empty_part = some 27 ∧
      (body_bytes request_empty_part).length = 27 ∧
      parse new request_empty_part = .error .length_error := by decide

/-- C8 is false as stated: the three declared body bytes hold no occurrence
of the boundary `--X`, and the request is ready after the call. -/
theorem malformed_multipart_is_ready :
    declared_boundary request_no_boundary = some (bytes "--X") ∧
      find (body_bytes request_no_boundary) (bytes "--X") 0 = none ∧
      (parse new request_no_boundary).map is_request_ready = .ok true := by decide

end HttpParser
end ImpServer

namespace ImpServer

/-! ## The upload task and the dispatch (C9, C10) -/

theorem safe_send_effects (fd : Int) (data : List Nat) (ok : Bool) :
    ∀ e ∈ (safe_send fd data ok).2, e = Effect.send fd data ok := by
  intro e he
  unfold safe_send at he
  split at he
  · simp at he
  · simpa using he

theorem upload_task_body_sends (t : UploadTask) (r : ProcessOutcome) (os_send : Nat → Bool) :
    ∀ e ∈ upload_task_body t r os_send, ∃ d ok, e = Effect.send t.client_fd d ok := by
  intro e he
  unfold upload_task_body at he
  split at he
  · simp at he
  · simp only at he
    split at he
    · split at he
      · exact ⟨_, _, safe_send_effects _ _ _ e he⟩
      · rw [List.mem_append] at he
        rcases he with he | he
        · exact ⟨_, _, safe_send_effects _ _ _ e he⟩
        · exact ⟨_, _, safe_send_effects _ _ _ e he⟩
    · exact ⟨_, _, safe_send_effects _ _ _ e he⟩

theorem close_connection_pool (s : Server) (fd : Int) :
    (Server.close_connection s fd)._thread_pool = s._thread_pool := rfl

/-- C9: exactly-once close of a dispatched connection. On every way out of the
upload task (Image Service success, failure or exception, a failed header
send, a failed payload send) the trace of the task holds exactly one close of
the connection handle and that close is its last effect; and a call of
`handle_client_data` that submits a task issues, besides the submission, only
the deregistration of the handle, no close. -/
theorem dispatched_connection_closed_once :
    (∀ (t : UploadTask) (r : ProcessOutcome) (os_send : Nat → Bool), 0 ≤ t.client_fd →
      (upload_task t r os_send).count (Effect.close t.client_fd) = 1 ∧
      (upload_task t r os_send).getLast? = some (Effect.close t.client_fd)) ∧
    (∀ (s s1 : Server) (fd : Int) (reads : List RecvResult) (html : List Nat) (send_ok : Bool),
      Server.handle_client_data s fd reads html send_ok = .ok s1 →
      s1._thread_pool ≠ s._thread_pool →
      ∃ t : UploadTask, t.client_fd = fd ∧
        s1.trace = s.trace ++ [Effect.enqueue t, Effect.epoll_del fd] ∧
        Effect.close fd ∉ [Effect.enqueue t, Effect.epoll_del fd]) := by
  constructor
  · intro t r os_send hfd
    have hb := upload_task_body_sends t r os_send
    have hcount : (upload_task_body t r os_send).count (Effect.close t.client_fd) = 0 := by
      rw [List.count_eq_zero]
      intro hmem
      obtain ⟨d, ok, he⟩ := hb _ hmem
      exact absurd he (by simp)
    unfold upload_task SocketGuard_dtor
    rw [if_pos hfd]
    constructor
    · rw [List.count_append, hcount]; simp
    · simp
  · intro s s1 fd reads html send_ok h hne
    unfold Server.handle_client_data at h
    split at h
    · exact absurd h (by simp)
    · injection h with h; subst h; exact absurd rfl hne
    · exact absurd h (by simp)
    · rename_i parser _
      simp only at h
      split at h
      · unfold Server.route at h
        simp only at h
        split at h
        · split at h <;> (injection h with h; subst h; exact absurd rfl hne)
        · split at h
          · split at h
            · exact absurd h (by simp)
            · rename_i tp htp
              injection h with h
              subst h
              refine ⟨{ client_fd := fd, image_data := parser.get_image_data,
                        filter := parser.get_filter_type,
                        blur_intensity := parser.get_blur_intensity,
                        sharpen_intensity := parser.get_sharpen_intensity }, rfl, ?_, by simp⟩
              simp [Server.parsers_erase, Server.parsers_store]
          · injection h with h; subst h; exact absurd rfl hne
      · injection h with h; subst h; exact absurd rfl hne

set_option maxRecDepth 100000 in
/-- The close-once theorem at the failing Image Service path and at the
dispatch of `request_upload` on handle 5. -/
theorem dispatched_connection_closed_once_witness :
    ((0 : Int) ≤ task_upload.client_fd ∧
      (upload_task task_upload (.returned false [] []) (fun _ => true)).count
        (Effect.close task_upload.client_fd) = 1 ∧
      (upload_task task_upload (.returned false [] []) (fun _ => true)).getLast? =
        some (Effect.close task_upload.client_fd)) ∧
    ((Server.handle_client_data server_one 5 [.data HttpParser.request_upload] [] true).map
        (fun s => s._thread_pool) = .ok { tasks := [task_upload], stop := false } ∧
      ∃ t : UploadTask, t.client_fd = 5 ∧
        [Effect.enqueue task_upload, Effect.epoll_del 5] =
          server_one.trace ++ [Effect.enqueue t, Effect.epoll_del 5] ∧
        Effect.close 5 ∉ [Effect.enqueue t, Effect.epoll_del 5]) :=
  ⟨⟨by decide, dispatched_connection_closed_once.1 task_upload (.returned false [] [])
      (fun _ => true) (by decide)⟩,
    by decide,
    dispatched_connection_closed_once.2 server_one
      { _thread_pool := { tasks := [task_upload], stop := false }, _client_parsers := [],
        _current_connections := 1,
        trace := [Effect.enqueue task_upload, Effect.epoll_del 5] }
      5 [.data HttpParser.request_upload] [] true (by decide) (by decide)⟩

set_option maxRecDepth 100000 in
/-- C10, at the failing input: on the upload path `handle_client_data` first
submits the task to the pool and only then deregisters the handle. -/
theorem dispatch_submits_before_deregistering :
    (Server.handle_client_data server_one 5 [.data HttpParser.request_upload, .would_block]
        [] true).map (fun s => s.trace) =
      .ok [Effect.enqueue task_upload, Effect.epoll_del 5] := by decide

end ImpServer

namespace ImpServer

/-! ### Decimal numerals -/

theorem to_string_aux_append (fuel : Nat) :
    ∀ (n : Nat) (acc : List Nat), to_string_aux fuel n acc = to_string_aux fuel n [] ++ acc := by
  induction fuel with
  | zero => intro n acc; simp [to_string_aux]
  | succ f ih =>
    intro n acc
    by_cases h : n < 10
    · simp [to_string_aux, h]
    · simp only [to_string_aux, h, if_false]
      rw [ih (n / 10) ((n % 10 + 48) :: acc), ih (n / 10) [n % 10 + 48]]
      simp

theorem to_string_aux_digits (fuel : Nat) :
    ∀ (n : Nat), ∀ d ∈ to_string_aux fuel n [], 48 ≤ d ∧ d ≤ 57 := by
  induction fuel with
  | zero => intro n d hd; simp [to_string_aux] at hd
  | succ f ih =>
    intro n d hd
    by_cases h : n < 10
    · simp [to_string_aux, h] at hd
      omega
    · simp only [to_string_aux, h, if_false] at hd
      rw [to_string_aux_append] at hd
      rw [List.mem_append] at hd
      rcases hd with hd | hd
      · exact ih _ d hd
      · simp at hd
        omega

theorem to_string_aux_ne_nil (f n : Nat) : to_string_aux (f + 1) n [] ≠ [] := by
  by_cases h : n < 10
  · simp [to_string_aux, h]
  · simp only [to_string_aux, h, if_false]
    rw [to_string_aux_append]
    simp

theorem to_string_aux_value (fuel : Nat) :
    ∀ (n : Nat), n < fuel →
      (to_string_aux fuel n []).foldl (fun acc d => acc * 10 + (d - 48)) 0 = n := by
  induction fuel with
  | zero => intro n h; omega
  | succ f ih =>
    intro n hn
    by_cases h : n < 10
    · simp [to_string_aux, h]
    · simp only [to_string_aux, h, if_false]
      rw [to_string_aux_append, List.foldl_append, ih (n / 10) (by omega)]
      simp
      omega

theorem to_string_digits (n : Nat) : ∀ d ∈ to_string n, 48 ≤ d ∧ d ≤ 57 :=
  to_string_aux_digits _ n

theorem to_string_ne_nil (n : Nat) : to_string n ≠ [] := to_string_aux_ne_nil n n

theorem to_string_not_mem (n c : Nat) (h : c < 48 ∨ 57 < c) : c ∉ to_string n := by
  intro hc
  have := to_string_digits n c hc
  omega

theorem takeWhile_isdigit (l : List Nat) (h : ∀ d ∈ l, 48 ≤ d ∧ d ≤ 57) :
    l.takeWhile isdigit = l := by
  rw [List.takeWhile_eq_self_iff]
  intro d hd
  have := h d hd
  simp [isdigit, this.1, this.2]

/-- `std::stoul` reads back what `std::to_string` printed. -/
theorem stoul_to_string (n : Nat) (h : n < 2 ^ 64) : stoul (to_string n) = .ok n := by
  have hd := to_string_digits n
  have hne := to_string_ne_nil n
  have hv : (to_string n).foldl (fun acc d => acc * 10 + (d - 48)) 0 = n :=
    to_string_aux_value (n + 1) n (by omega)
  obtain ⟨d0, rest, hD⟩ := List.exists_cons_of_ne_nil hne
  have hd0 := hd d0 (by rw [hD]; simp)
  have h1 : (to_string n).dropWhile isspace = to_string n := by
    rw [hD, List.dropWhile_cons_of_neg]
    simp [isspace]
    omega
  have h43 : ((to_string n).head? == some 43) = false := by
    rw [hD]; simp; omega
  have h45 : ((to_string n).head? == some 45) = false := by
    rw [hD]; simp; omega
  unfold stoul
  simp only [h1, h43, h45, Bool.or_self, Bool.false_eq_true, if_false, takeWhile_isdigit _ hd, hv, hne]
  rw [if_neg (by omega)]

end ImpServer

namespace ImpServer

/-! ## The header loop line by line -/

theorem find_skip_block (a rest pat : List Nat) (c : Nat) (hc : c ∉ pat)
    (ha : find a pat 0 = none) :
    find (a ++ c :: rest) pat 0 = (find rest pat 0).map (· + (a.length + 1)) := by
  rw [find_sep pat a rest c 0 hc (Nat.zero_le _), ha]

theorem find_nil_none (pat : List Nat) (h : pat ≠ []) : find [] pat 0 = none := by
  simp [find, findAux, h]

theorem find_skip_byte (rest pat : List Nat) (c : Nat) (hc : c ∉ pat) (hne : pat ≠ []) :
    find (c :: rest) pat 0 = (find rest pat 0).map (· + 1) := by
  have := find_skip_block [] rest pat c hc (find_nil_none pat hne)
  simpa using this

theorem find_self_append (pat post : List Nat) : find (pat ++ post) pat 0 = some 0 := by
  rw [find_eq_some_iff]
  exact ⟨le_refl _, ⟨Nat.zero_le _, by simp⟩, by intro j _ h; omega⟩

theorem find_at_append (pre pat post : List Nat) :
    find (pre ++ (pat ++ post)) pat pre.length = some pre.length := by
  have := find_append_right pre (pat ++ post) pat 0
  rw [Nat.add_zero, find_self_append] at this
  simpa using this

namespace HttpParser

/-- The header loop does not depend on its fuel, as soon as the fuel exceeds
the number of bytes behind `line_start`. -/
theorem header_loop_fuel (buf : List Nat) :
    ∀ (m ls : Nat) (hs : HeaderMap) (f g : Nat), buf.length - ls ≤ m → m < f → m < g →
      header_loop f buf ls hs = header_loop g buf ls hs := by
  intro m
  induction m with
  | zero =>
    intro ls hs f g hm hf hg
    obtain ⟨f, rfl⟩ : ∃ k, f = k + 1 := ⟨f - 1, by omega⟩
    obtain ⟨g, rfl⟩ : ∃ k, g = k + 1 := ⟨g - 1, by omega⟩
    cases hq : find buf CRLF ls with
    | none => simp [header_loop, hq]
    | some q =>
      have h1 := find_some_ge _ _ _ _ hq
      have h2 := find_some_bound _ _ _ _ hq
      simp [CRLF] at h2
      omega
  | succ m ih =>
    intro ls hs f g hm hf hg
    obtain ⟨f, rfl⟩ : ∃ k, f = k + 1 := ⟨f - 1, by omega⟩
    obtain ⟨g, rfl⟩ : ∃ k, g = k + 1 := ⟨g - 1, by omega⟩
    cases hq : find buf CRLF ls with
    | none => simp [header_loop, hq]
    | some q =>
      have h1 := find_some_ge _ _ _ _ hq
      have h2 := find_some_bound _ _ _ _ hq
      simp only [CRLF, List.length_cons, List.length_nil] at h2
      simp only [header_loop, hq]
      by_cases hql : q = ls
      · simp [hql]
      · simp only [hql, if_false]
        cases substr buf ls (q - ls) with
        | error e => rfl
        | ok line =>
          simp only
          cases parse_header_line hs line with
          | error e => rfl
          | ok hs1 =>
            simp only
            exact ih _ _ _ _ (by omega) (by omega) (by omega)

/-- One round of the header loop on a line without a carriage return. -/
theorem header_loop_step (pre line post : List Nat) (hs : HeaderMap) (fuel : Nat)
    (h13 : 13 ∉ line) (hne : line ≠ [])
    (hfuel : (pre ++ (line ++ (CRLF ++ post))).length - pre.length < fuel) :
    header_loop fuel (pre ++ (line ++ (CRLF ++ post))) pre.length hs =
      (parse_header_line hs line).bind
        (fun hs1 => header_loop fuel (pre ++ (line ++ (CRLF ++ post)))
          (pre.length + line.length + 2) hs1) := by
  obtain ⟨f, rfl⟩ : ∃ k, fuel = k + 1 := ⟨fuel - 1, by omega⟩
  have hfind : find (pre ++ (line ++ (CRLF ++ post))) CRLF pre.length =
      some (pre.length + line.length) := by
    have h1 := find_append_right pre (line ++ (CRLF ++ post)) CRLF 0
    have h2 : find (line ++ (CRLF ++ post)) CRLF 0 = some line.length := by
      have := find_first_byte line post [10] 13 h13
      simpa [CRLF] using this
    rw [Nat.add_zero, h2] at h1
    rw [h1]; simp; omega
  have hlen : 0 < line.length := List.length_pos.mpr hne
  have hsub : substr (pre ++ (line ++ (CRLF ++ post))) pre.length
      (pre.length + line.length - pre.length) = .ok line := by
    simp [substr]
  conv_lhs => simp only [header_loop, hfind]
  rw [if_neg (by omega), hsub]
  simp only
  cases parse_header_line hs line with
  | error e => rfl
  | ok hs1 =>
    simp only [Except.bind]
    apply header_loop_fuel _ ((pre ++ (line ++ (CRLF ++ post))).length - (pre.length + line.length + 2))
    · exact le_refl _
    · simp at hfuel ⊢; omega
    · simp at hfuel ⊢; omega

/-- The header loop stops at the empty line. -/
theorem header_loop_end (pre post : List Nat) (hs : HeaderMap) (fuel : Nat) (hfuel : 0 < fuel) :
    header_loop fuel (pre ++ (CRLF ++ post)) pre.length hs = .ok hs := by
  obtain ⟨f, rfl⟩ : ∃ k, fuel = k + 1 := ⟨fuel - 1, by omega⟩
  simp [header_loop, find_at_append]

/-- The request line part on a first line without a carriage return. -/
theorem parse_request_line_first (p : HttpParser) (line post : List Nat) (h13 : 13 ∉ line)
    (hbuf : p._buffer = line ++ (CRLF ++ post)) :
    parse_request_line p =
      match find line [32] 0 with
      | none => .ok (p, line.length + 2)
      | some method_end =>
        match find line [32] (method_end + 1) with
        | none => .ok ({ p with _method := line.take method_end }, line.length + 2)
        | some path_end =>
          .ok ({ p with _method := line.take method_end,
                        _path := (line.drop (method_end + 1)).take
                          (path_end - (method_end + 1)) }, line.length + 2) := by
  have hfind : find p._buffer CRLF 0 = some line.length := by
    rw [hbuf]
    have := find_first_byte line post [10] 13 h13
    simpa [CRLF] using this
  have hsub : substr p._buffer 0 line.length = .ok line := by
    rw [hbuf]; simp [substr]
  unfold parse_request_line
  rw [hfind]
  simp only
  rw [hsub]
  simp only
  cases h1 : find line [32] 0 with
  | none => rfl
  | some method_end =>
    simp only
    have hb := find_some_bound _ _ _ _ h1
    simp only [List.length_cons, List.length_nil] at hb
    have hs1 : substr line 0 method_end = .ok (line.take method_end) := by
      simp [substr]
    rw [hs1]
    simp only
    cases h2 : find line [32] (method_end + 1) with
    | none => rfl
    | some path_end =>
      simp only
      have hs2 : substr line (method_end + 1) (path_end - (method_end + 1)) =
          .ok ((line.drop (method_end + 1)).take (path_end - (method_end + 1))) := by
        simp [substr]; omega
      rw [hs2]

end HttpParser
end ImpServer

namespace ImpServer

/-! ## Header blocks -/

theorem find_from_eq (s pat : List Nat) (k : Nat) (hk : k ≤ s.length) :
    find s pat k = (find (s.drop k) pat 0).map (· + k) := by
  have := find_append_right (s.take k) (s.drop k) pat 0
  rw [List.take_append_drop, List.length_take, Nat.min_eq_left hk, Nat.add_zero] at this
  exact this

theorem find_zero_eq_from (s pat : List Nat) (k : Nat) (h : ∀ j, j < k → ¬ occurs pat s j) :
    find s pat 0 = find s pat k := by
  cases hf : find s pat k with
  | none =>
    rw [find_eq_none_iff] at hf ⊢
    intro j _ hj
    by_cases hjk : j < k
    · exact h j hjk hj
    · exact hf j (by omega) hj
  | some i =>
    rw [find_eq_some_iff] at hf ⊢
    obtain ⟨h1, h2, h3⟩ := hf
    refine ⟨Nat.zero_le _, h2, ?_⟩
    intro j _ hji hj
    by_cases hjk : j < k
    · exact h j hjk hj
    · exact h3 j (by omega) hji hj

namespace HttpParser

theorem header_lines_cons (l : List Nat) (ls : List (List Nat)) :
    header_lines (l :: ls) = l ++ (CRLF ++ header_lines ls) := rfl

/-- The header loop on a block of well-formed lines is the fold of
`parse_header_line` over the lines. -/
theorem header_loop_lines (lines : List (List Nat)) :
    ∀ (pre post : List Nat) (hs : HeaderMap) (fuel : Nat),
      (∀ l ∈ lines, 13 ∉ l ∧ l ≠ []) →
      (pre ++ (header_lines lines ++ (CRLF ++ post))).length - pre.length < fuel →
      header_loop fuel (pre ++ (header_lines lines ++ (CRLF ++ post))) pre.length hs =
        fold_header_lines hs lines := by
  induction lines with
  | nil =>
    intro pre post hs fuel _ hfuel
    simp only [header_lines, List.nil_append, fold_header_lines]
    exact header_loop_end pre post hs fuel (by omega)
  | cons l ls ih =>
    intro pre post hs fuel hl hfuel
    have hl0 := hl l (by simp)
    have hbuf : pre ++ (header_lines (l :: ls) ++ (CRLF ++ post)) =
        pre ++ (l ++ (CRLF ++ (header_lines ls ++ (CRLF ++ post)))) := by
      simp [header_lines_cons, List.append_assoc]
    rw [hbuf] at hfuel ⊢
    rw [header_loop_step pre l _ hs fuel hl0.1 hl0.2 hfuel]
    simp only [fold_header_lines]
    congr 1
    funext hs1
    have hbuf2 : pre ++ (l ++ (CRLF ++ (header_lines ls ++ (CRLF ++ post)))) =
        (pre ++ (l ++ CRLF)) ++ (header_lines ls ++ (CRLF ++ post)) := by
      simp [List.append_assoc]
    have hlen : pre.length + l.length + 2 = (pre ++ (l ++ CRLF)).length := by
      simp [CRLF]; omega
    rw [hbuf2, hlen]
    apply ih
    · intro l' hl'; exact hl l' (by simp [hl'])
    · rw [hbuf2] at hfuel
      simp at hfuel ⊢
      omega

/-- The header terminator of a header block is the end of its last line
together with the empty line. -/
theorem find_header_end (lines : List (List Nat)) (post : List Nat) :
    ∀ first : List Nat, 13 ∉ first → (∀ l ∈ lines, 13 ∉ l ∧ l ≠ []) →
      ∃ pos, find (header_block first lines post) CRLFCRLF 0 = some pos ∧
        (header_block first lines post).drop (pos + 4) = post := by
  induction lines with
  | nil =>
    intro first h13 _
    refine ⟨first.length, ?_, ?_⟩
    · have := find_first_byte first post [10, 13, 10] 13 h13
      simpa [header_block, header_lines, CRLF, CRLFCRLF] using this
    · simp [header_block, header_lines, CRLF]
  | cons l ls ih =>
    intro first h13 hl
    have hl0 := hl l (by simp)
    obtain ⟨pos, hpos, hdrop⟩ := ih l hl0.1 (fun l' hl' => hl l' (by simp [hl']))
    obtain ⟨c, l', hc⟩ := List.exists_cons_of_ne_nil hl0.2
    have hc13 : c ≠ 13 := by
      intro h; apply hl0.1; rw [hc, h]; simp
    have hshape : header_block first (l :: ls) post =
        (first ++ CRLF) ++ header_block l ls post := by
      simp [header_block, header_lines_cons, List.append_assoc]
    have hnone : ∀ j, j < (first ++ CRLF).length →
        ¬ occurs CRLFCRLF (header_block first (l :: ls) post) j := by
      intro j hj hocc
      have g0 := occurs_get _ _ j 0 hocc (by simp [CRLFCRLF])
      have g2 := occurs_get _ _ j 2 hocc (by simp [CRLFCRLF])
      simp only [CRLFCRLF, Nat.add_zero, List.getElem?_cons_zero, List.getElem?_cons_succ] at g0 g2
      have hjl : first.length ≤ j := by
        by_contra hlt
        have : (header_block first (l :: ls) post)[j]? = first[j]? := by
          simp only [header_block]
          rw [List.getElem?_append_left (by omega)]
        rw [this] at g0
        exact h13 (List.getElem?_mem g0)
      simp only [List.length_append, CRLF, List.length_cons, List.length_nil] at hj
      have hj2 : j = first.length ∨ j = first.length + 1 := by omega
      rcases hj2 with hj2 | hj2
      · subst hj2
        have : (header_block first (l :: ls) post)[first.length + 2]? = some c := by
          rw [hshape, List.getElem?_append_right (by simp [CRLF])]
          simp [CRLF, header_block, hc]
        rw [this] at g2
        injection g2 with g2
        exact hc13 g2
      · subst hj2
        have : (header_block first (l :: ls) post)[first.length + 1]? = some 10 := by
          rw [hshape, List.getElem?_append_left (by simp [CRLF])]
          rw [List.getElem?_append_right (by omega)]
          simp [CRLF]
        rw [this] at g0
        exact absurd g0 (by simp)
    refine ⟨pos + (first ++ CRLF).length, ?_, ?_⟩
    · rw [find_zero_eq_from _ _ (first ++ CRLF).length hnone, hshape]
      have := find_append_right (first ++ CRLF) (header_block l ls post) CRLFCRLF 0
      rw [Nat.add_zero] at this
      rw [this, hpos]
      rfl
    · rw [hshape]
      rw [show pos + (first ++ CRLF).length + 4 = (first ++ CRLF).length + (pos + 4) by omega]
      rw [List.drop_append]
      exact hdrop

/-- `parse_headers` on a header block of well-formed lines. -/
theorem parse_headers_block (p p1 : HttpParser) (first post : List Nat)
    (lines : List (List Nat)) (ls : Nat)
    (hbuf : p._buffer = header_block first lines post) (h13 : 13 ∉ first)
    (hl : ∀ l ∈ lines, 13 ∉ l ∧ l ≠ [])
    (h1 : parse_request_line p = .ok (p1, ls)) :
    parse_headers p =
      (fold_header_lines p1._headers lines).bind
        (fun hs => extract_boundary (extract_content_length { p1 with _headers := hs })) := by
  have hls : ls = first.length + 2 := by
    have := parse_request_line_first p first _ h13 hbuf
    rw [h1] at this
    split at this
    · injection this with this; injection this
    · split at this
      · injection this with this; injection this
      · injection this with this; injection this
  subst hls
  unfold parse_headers
  rw [h1]
  simp only
  have hb2 : p._buffer = (first ++ CRLF) ++ (header_lines lines ++ (CRLF ++ post)) := by
    rw [hbuf]; simp [header_block, List.append_assoc]
  have hlen : first.length + 2 = (first ++ CRLF).length := by simp [CRLF]
  have := header_loop_lines lines (first ++ CRLF) post p1._headers (p._buffer.length + 1) hl
    (by rw [← hb2]; omega)
  rw [← hb2, ← hlen] at this
  rw [this]
  cases fold_header_lines p1._headers lines <;> rfl

end HttpParser
end ImpServer

namespace ImpServer

/-! ## One well-formed part -/

theorem size_sub_eq (a b : Nat) (hab : b ≤ a) (ha : a < 2 ^ 64) : size_sub a b = a - b := by
  unfold size_sub
  have hb : b % 2 ^ 64 = b := Nat.mod_eq_of_lt (by omega)
  rw [hb]
  have : a + 2 ^ 64 - b = (a - b) + 2 ^ 64 := by omega
  rw [this, Nat.add_mod_right]
  exact Nat.mod_eq_of_lt (by omega)

/-- The next boundary behind a part: neither the part header nor the value
holds the boundary, and no occurrence can span a `"\r"` or a `"\n"`. -/
theorem find_next_boundary (bnd hdr value post : List Nat) (hne : bnd ≠ [])
    (h13 : 13 ∉ bnd) (h10 : 10 ∉ bnd) (hh : find hdr bnd 0 = none)
    (hv : find value bnd 0 = none) :
    find (CRLF ++ (hdr ++ (CRLFCRLF ++ (value ++ (CRLF ++ (bnd ++ post)))))) bnd 0 =
      some (2 + hdr.length + 4 + value.length + 2) := by
  have e1 : CRLF ++ (hdr ++ (CRLFCRLF ++ (value ++ (CRLF ++ (bnd ++ post))))) =
      13 :: 10 :: (hdr ++ 13 :: 10 :: 13 :: 10 :: (value ++ 13 :: 10 :: (bnd ++ post))) := by
    simp [CRLF, CRLFCRLF]
  rw [e1, find_skip_byte _ _ 13 h13 hne, find_skip_byte _ _ 10 h10 hne,
    find_skip_block hdr _ bnd 13 h13 hh, find_skip_byte _ _ 10 h10 hne,
    find_skip_byte _ _ 13 h13 hne, find_skip_byte _ _ 10 h10 hne,
    find_skip_block value _ bnd 13 h13 hv, find_skip_byte _ _ 10 h10 hne,
    find_self_append]
  simp
  omega

namespace HttpParser

theorem part_length (bnd hdr value : List Nat) :
    (part bnd hdr value).length = bnd.length + 2 + hdr.length + 4 + value.length + 2 := by
  simp [part, CRLF, CRLFCRLF]; omega

/-- One round of the part loop on a well-formed part: the part is routed by
its header and the scan goes on at the next boundary. -/
theorem multipart_part_step (p : HttpParser) (pre hdr value post bnd : List Nat) (fuel : Nat)
    (hbody : p._body = pre ++ (part bnd hdr value ++ (bnd ++ post)))
    (hbnd : p._boundary = bnd) (hne : bnd ≠ []) (h13 : 13 ∉ bnd) (h10 : 10 ∉ bnd)
    (hh : find hdr bnd 0 = none) (hv : find value bnd 0 = none)
    (hsep : find (hdr ++ CRLFCRLF) CRLFCRLF 0 = some hdr.length)
    (hsize : p._body.length < 2 ^ 64) :
    multipart_loop (fuel + 1) p pre.length =
      multipart_loop fuel (if recognised hdr then assign_part p hdr value else p)
        (pre.length + (part bnd hdr value).length) := by
  have hbl : 0 < bnd.length := List.length_pos.mpr hne
  -- the shapes of the body
  have hB0 : p._body =
      pre ++ (bnd ++ (CRLF ++ (hdr ++ (CRLFCRLF ++ (value ++ (CRLF ++ (bnd ++ post))))))) := by
    rw [hbody]; simp [part, List.append_assoc]
  have hB1 : p._body =
      (pre ++ bnd) ++ (CRLF ++ (hdr ++ (CRLFCRLF ++ (value ++ (CRLF ++ (bnd ++ post)))))) := by
    rw [hB0]; simp [List.append_assoc]
  have hB2 : p._body =
      (pre ++ (bnd ++ CRLF)) ++ (hdr ++ (CRLFCRLF ++ (value ++ (CRLF ++ (bnd ++ post))))) := by
    rw [hB0]; simp [List.append_assoc]
  have hB3 : p._body =
      (pre ++ (bnd ++ (CRLF ++ (hdr ++ CRLFCRLF)))) ++ (value ++ (CRLF ++ (bnd ++ post))) := by
    rw [hB0]; simp [List.append_assoc]
  have hB4 : p._body =
      (pre ++ (bnd ++ (CRLF ++ (hdr ++ (CRLFCRLF ++ (value ++ CRLF)))))) ++ (bnd ++ post) := by
    rw [hB0]; simp [List.append_assoc]
  have hlen : p._body.length =
      pre.length + bnd.length + 2 + hdr.length + 4 + value.length + 2 + bnd.length +
        post.length := by
    rw [hB0]; simp [CRLF, CRLFCRLF]; omega
  have hpl := part_length bnd hdr value
  -- the first boundary
  have hm1 : memmem p._body pre.length (p._body.length - pre.length) p._boundary =
      some pre.length := by
    rw [memmem_full _ _ _ (by omega), hbnd, hB0]
    exact find_at_append pre bnd _
  -- the next boundary
  have hm2 : memmem p._body (pre.length + bnd.length)
      (p._body.length - (pre.length + bnd.length)) p._boundary =
      some (pre.length + (part bnd hdr value).length) := by
    rw [memmem_full _ _ _ (by omega), hbnd]
    have h1 := find_append_right (pre ++ bnd)
      (CRLF ++ (hdr ++ (CRLFCRLF ++ (value ++ (CRLF ++ (bnd ++ post)))))) bnd 0
    rw [← hB1, find_next_boundary bnd hdr value post hne h13 h10 hh hv] at h1
    simp only [List.length_append, Nat.add_zero, Option.map_some'] at h1
    rw [h1, hpl]
    congr 1
    omega
  -- the start of the part
  have hskip : skip_crlf p._body (pre.length + bnd.length) = pre.length + bnd.length + 2 := by
    unfold skip_crlf
    have g0 : p._body[pre.length + bnd.length]? = some 13 := by
      rw [hB1, List.getElem?_append_right (by simp)]
      simp [CRLF]
    have g1 : p._body[pre.length + bnd.length + 1]? = some 10 := by
      rw [hB1, List.getElem?_append_right (by simp)]
      simp [CRLF]
    rw [if_pos ⟨by omega, g0, g1⟩]
  -- the separator of the part
  have hsub1 : size_sub (pre.length + (part bnd hdr value).length)
      (pre.length + bnd.length + 2) = hdr.length + 4 + value.length + 2 := by
    rw [size_sub_eq _ _ (by omega) (by omega)]; omega
  have htake : p._body.take (pre.length + bnd.length + 2 +
      (hdr.length + 4 + value.length + 2)) =
      (pre ++ (bnd ++ CRLF)) ++ ((hdr ++ CRLFCRLF) ++ (value ++ CRLF)) := by
    rw [hB4]
    rw [List.take_append_of_le_length (by simp [CRLF, CRLFCRLF]; omega)]
    rw [List.take_of_length_le (by simp [CRLF, CRLFCRLF]; omega)]
    simp [List.append_assoc]
  have hm3 : memmem p._body (pre.length + bnd.length + 2)
      (hdr.length + 4 + value.length + 2) CRLFCRLF =
      some (pre.length + bnd.length + 2 + hdr.length) := by
    unfold memmem
    rw [htake]
    have h1 := find_append_right (pre ++ (bnd ++ CRLF)) ((hdr ++ CRLFCRLF) ++ (value ++ CRLF))
      CRLFCRLF 0
    have hl2 : (pre ++ (bnd ++ CRLF)).length = pre.length + bnd.length + 2 := by
      simp [CRLF]; omega
    rw [Nat.add_zero, find_append_of_some _ _ _ _ _ hsep, hl2] at h1
    rw [h1]
    simp
    omega
  have hhdr : (p._body.drop (pre.length + bnd.length + 2)).take
      (pre.length + bnd.length + 2 + hdr.length - (pre.length + bnd.length + 2)) = hdr := by
    rw [hB2]
    rw [show pre.length + bnd.length + 2 = (pre ++ (bnd ++ CRLF)).length by simp [CRLF]; omega]
    rw [List.drop_left]
    simp
  have hsub2 : size_sub (size_sub (pre.length + (part bnd hdr value).length)
      (pre.length + bnd.length + 2 + hdr.length + 4)) 2 = value.length := by
    have hin : size_sub (pre.length + (part bnd hdr value).length)
        (pre.length + bnd.length + 2 + hdr.length + 4) = value.length + 2 := by
      rw [size_sub_eq _ _ (by omega) (by omega)]; omega
    rw [hin, size_sub_eq _ _ (by omega) (by omega)]; omega
  have hval : (p._body.drop (pre.length + bnd.length + 2 + hdr.length + 4)).take value.length =
      value := by
    rw [hB3]
    rw [show pre.length + bnd.length + 2 + hdr.length + 4 =
      (pre ++ (bnd ++ (CRLF ++ (hdr ++ CRLFCRLF)))).length by simp [CRLF, CRLFCRLF]; omega]
    rw [List.drop_left]
    simp
  have hpp : process_part p pre.length (pre.length + (part bnd hdr value).length) =
      .ok (if recognised hdr then assign_part p hdr value else p) := by
    unfold process_part
    simp only [hbnd, hskip, hsub1]
    rw [if_neg (by omega), hm3]
    simp only [hhdr, hsub2, hval]
    by_cases hr : recognised hdr = true
    · simp only [hr, if_true]
      rw [if_neg (by omega)]
    · simp only [hr]
      rfl
  conv_lhs => rw [multipart_loop]
  rw [if_pos (by omega), hm1]
  simp only
  have hbl2 : p._boundary.length = bnd.length := by rw [hbnd]
  rw [hbl2, hm2]
  simp only
  rw [hpp]

end HttpParser
end ImpServer

namespace ImpServer

/-! ## The header block of the scenario upload -/
namespace HttpParser

theorem content_length_line (hs : HeaderMap) (n : Nat) :
    parse_header_line hs (bytes "Content-Length: " ++ to_string n) =
      .ok (map_set hs (bytes "Content-Length") (to_string n)) := by
  have hf : find (bytes "Content-Length: " ++ to_string n) [58] 0 = some 14 :=
    find_append_of_some _ _ _ _ _ (by decide)
  have hk : substr (bytes "Content-Length: " ++ to_string n) 0 14 =
      .ok (bytes "Content-Length") := by
    have := substr_append (bytes "Content-Length: ") (to_string n) 0 14 (by decide)
    rw [this]
    decide
  have hl : (bytes "Content-Length: ").length = 16 := by decide
  have hv : substr_from (bytes "Content-Length: " ++ to_string n) (14 + 2) =
      .ok (to_string n) := by
    unfold substr_from
    rw [if_pos (by simp [hl])]
    rw [show 14 + 2 = (bytes "Content-Length: ").length by rw [hl], List.drop_left]
  unfold parse_header_line
  rw [hf]
  simp only
  rw [hk]
  simp only
  rw [hv]

theorem upload_lines_ok (n : Nat) :
    ∀ l ∈ [bytes "Content-Type: multipart/form-data; boundary=X",
      bytes "Content-Length: " ++ to_string n], 13 ∉ l ∧ l ≠ [] := by
  intro l hl
  simp only [List.mem_cons, List.mem_singleton, List.not_mem_nil, or_false] at hl
  rcases hl with hl | hl
  · subst hl; decide
  · subst hl
    constructor
    · rw [List.mem_append]
      rintro (h | h)
      · revert h; decide
      · exact to_string_not_mem n 13 (Or.inl (by omega)) h
    · intro h
      have := congrArg List.length h
      simp at this
      exact absurd this.1 (by decide)

/-- The header block of the upload request: method, path, declared length and
boundary. -/
theorem upload_parsed_header (body : List Nat) (n : Nat) (hn : n < 2 ^ 64) :
    parsed_header (header_block (bytes "POST /upload HTTP/1.1")
        [bytes "Content-Type: multipart/form-data; boundary=X",
         bytes "Content-Length: " ++ to_string n] body) =
      some (upload_parsed (header_block (bytes "POST /upload HTTP/1.1")
        [bytes "Content-Type: multipart/form-data; boundary=X",
         bytes "Content-Length: " ++ to_string n] body) n) ∧
    body_bytes (header_block (bytes "POST /upload HTTP/1.1")
        [bytes "Content-Type: multipart/form-data; boundary=X",
         bytes "Content-Length: " ++ to_string n] body) = body := by
  generalize hR : header_block (bytes "POST /upload HTTP/1.1")
        [bytes "Content-Type: multipart/form-data; boundary=X",
         bytes "Content-Length: " ++ to_string n] body = R
  have h13 : 13 ∉ bytes "POST /upload HTTP/1.1" := by decide
  obtain ⟨pos, hpos, hdrop⟩ := find_header_end _ body _ h13 (upload_lines_ok n)
  rw [hR] at hpos hdrop
  have hreq := parse_request_line_first (awaiting R) (bytes "POST /upload HTTP/1.1") _ h13
    (by rw [← hR]; rfl)
  have hf1 : find (bytes "POST /upload HTTP/1.1") [32] 0 = some 4 := by decide
  have hf2 : find (bytes "POST /upload HTTP/1.1") [32] (4 + 1) = some 12 := by decide
  rw [hf1] at hreq
  simp only at hreq
  rw [hf2] at hreq
  simp only at hreq
  have hblock := parse_headers_block (awaiting R) _ (bytes "POST /upload HTTP/1.1") body _ _
    (by rw [← hR]; rfl) h13 (upload_lines_ok n) hreq
  have hline1 : parse_header_line [] (bytes "Content-Type: multipart/form-data; boundary=X") =
      .ok [(bytes "Content-Type", bytes "multipart/form-data; boundary=X")] := by decide
  have hfold : fold_header_lines []
      [bytes "Content-Type: multipart/form-data; boundary=X",
       bytes "Content-Length: " ++ to_string n] =
      .ok [(bytes "Content-Length", to_string n),
        (bytes "Content-Type", bytes "multipart/form-data; boundary=X")] := by
    simp only [fold_header_lines, hline1, Except.bind, content_length_line]
    rfl
  have hhs : (awaiting R)._headers = [] := rfl
  simp only [hhs, hfold, Except.bind] at hblock
  have hcl : ∀ q : HttpParser, q._headers = [(bytes "Content-Length", to_string n),
      (bytes "Content-Type", bytes "multipart/form-data; boundary=X")] →
      extract_content_length q = { q with _content_length := n } := by
    intro q hq
    unfold extract_content_length
    have h1 : map_count q._headers (bytes "Content-Length") = true := by
      rw [hq]; simp [map_count]
    have h2 : map_get q._headers (bytes "Content-Length") = to_string n := by
      rw [hq]; simp [map_get]
    rw [h1, h2, stoul_to_string n hn]
    rfl
  have hbd : ∀ q : HttpParser, q._headers = [(bytes "Content-Length", to_string n),
      (bytes "Content-Type", bytes "multipart/form-data; boundary=X")] →
      extract_boundary q = .ok { q with _boundary := bytes "--X" } := by
    intro q hq
    unfold extract_boundary
    have h1 : map_count q._headers (bytes "Content-Type") = true := by
      rw [hq]; simp [map_count]
    have h2 : map_get q._headers (bytes "Content-Type") =
        bytes "multipart/form-data; boundary=X" := by
      rw [hq]
      have : (bytes "Content-Length" == bytes "Content-Type") = false := by decide
      simp [map_get, List.find?, this]
    rw [h1, h2]
    simp only [if_true]
    have h3 : find (bytes "multipart/form-data; boundary=X") (bytes "boundary=") 0 = some 21 := by
      decide
    rw [h3]
    simp only
    have h4 : substr_from (bytes "multipart/form-data; boundary=X") (21 + 9) = .ok (bytes "X") := by
      decide
    rw [h4]
    rfl
  rw [hcl _ rfl, hbd _ rfl] at hblock
  constructor
  · unfold parsed_header
    rw [hpos]
    simp only
    rw [hblock]
    rfl
  · unfold body_bytes
    rw [hpos]
    exact hdrop

end HttpParser
end ImpServer

namespace ImpServer

/-! ## The extraction on the scenario body -/
namespace HttpParser

/-- The extraction on the body of the scenario: the `filter` part and the
`image` part are stored, the closing boundary ends the loop. -/
theorem upload_extraction (p : HttpParser) (hF hI img : List Nat)
    (hbody : p._body = upload_body hF hI img) (hbnd : p._boundary = bytes "--X")
    (hFok : part_header_ok hF) (hIok : part_header_ok hI)
    (hFname : (find hF (bytes "name=\"filter\"") 0).isSome = true)
    (hFimg : find hF (bytes "name=\"image\"") 0 = none)
    (hIname : (find hI (bytes "name=\"image\"") 0).isSome = true)
    (himg : find img (bytes "--X") 0 = none)
    (hsize : (upload_body hF hI img).length < 2 ^ 64) :
    parse_multipart_body p =
      .ok { p with _filter_type := bytes "grayscale", _image_data := img } := by
  have hne : bytes "--X" ≠ [] := by decide
  have h13 : 13 ∉ bytes "--X" := by decide
  have h10 : 10 ∉ bytes "--X" := by decide
  have hgray : find (bytes "grayscale") (bytes "--X") 0 = none := by decide
  have hl1 := part_length (bytes "--X") hF (bytes "grayscale")
  have hl2 := part_length (bytes "--X") hI img
  have hx : (bytes "--X").length = 3 := by decide
  have hd : (bytes "--").length = 2 := by decide
  have hlen : p._body.length =
      (part (bytes "--X") hF (bytes "grayscale")).length +
        (part (bytes "--X") hI img).length + 5 := by
    rw [hbody]; simp [upload_body]
    have : (bytes "--X--").length = 5 := by decide
    omega
  have hbne : p._body ≠ [] := by
    intro h; rw [h] at hlen; simp at hlen
  have hpne : p._boundary ≠ [] := by rw [hbnd]; exact hne
  have hX : bytes "--X--" = bytes "--X" ++ bytes "--" := by decide
  -- the first part
  have hb1 : p._body = [] ++ (part (bytes "--X") hF (bytes "grayscale") ++
      (bytes "--X" ++ (CRLF ++ (hI ++ (CRLFCRLF ++ (img ++ CRLF))) ++ bytes "--X--"))) := by
    rw [hbody]; simp [upload_body, part, List.append_assoc]
  have hr1 : recognised hF = true := by
    simp [recognised, hFname]
  have ha1 : assign_part p hF (bytes "grayscale") =
      { p with _filter_type := bytes "grayscale" } := by
    unfold assign_part
    rw [hFimg]
    simp [hFname]
  have s1 := multipart_part_step p [] hF (bytes "grayscale") _ (bytes "--X") (p._body.length - 1 + 1)
    hb1 hbnd hne h13 h10 hFok.1 hgray hFok.2 (by rw [hbody]; exact hsize)
  rw [hr1, if_pos rfl, ha1] at s1
  -- the second part
  have hb2 : ({ p with _filter_type := bytes "grayscale" } : HttpParser)._body =
      part (bytes "--X") hF (bytes "grayscale") ++
        (part (bytes "--X") hI img ++ (bytes "--X" ++ bytes "--")) := by
    show p._body = _
    rw [hbody]; unfold upload_body; rw [hX]
  have hr2 : recognised hI = true := by
    simp [recognised, hIname]
  have ha2 : assign_part { p with _filter_type := bytes "grayscale" } hI img =
      { p with _filter_type := bytes "grayscale", _image_data := img } := by
    unfold assign_part
    simp [hIname]
  have s2 := multipart_part_step { p with _filter_type := bytes "grayscale" }
    (part (bytes "--X") hF (bytes "grayscale")) hI img (bytes "--") (bytes "--X")
    (p._body.length - 1) hb2 hbnd hne h13 h10 hIok.1 himg hIok.2
    (by show p._body.length < _; rw [hbody]; exact hsize)
  rw [hr2, if_pos rfl, ha2] at s2
  -- the closing boundary
  have hb3 : p._body = (part (bytes "--X") hF (bytes "grayscale") ++ part (bytes "--X") hI img) ++
      (bytes "--X" ++ bytes "--") := by
    rw [hbody]; unfold upload_body; rw [hX]; simp only [List.append_assoc]
  have s3 : multipart_loop (p._body.length - 1)
      { p with _filter_type := bytes "grayscale", _image_data := img }
      ((part (bytes "--X") hF (bytes "grayscale")).length + (part (bytes "--X") hI img).length) =
      .ok { p with _filter_type := bytes "grayscale", _image_data := img } := by
    obtain ⟨f, hf⟩ : ∃ f, p._body.length - 1 = f + 1 := ⟨p._body.length - 2, by omega⟩
    rw [hf, multipart_loop]
    simp only
    rw [if_pos (by omega), memmem_full _ _ _ (by omega), hbnd]
    have hm1 : find p._body (bytes "--X")
        ((part (bytes "--X") hF (bytes "grayscale")).length + (part (bytes "--X") hI img).length) =
        some ((part (bytes "--X") hF (bytes "grayscale")).length +
          (part (bytes "--X") hI img).length) := by
      rw [hb3]
      have := find_at_append (part (bytes "--X") hF (bytes "grayscale") ++ part (bytes "--X") hI img)
        (bytes "--X") (bytes "--")
      simpa using this
    rw [hm1]
    simp only
    rw [memmem_full _ _ _ (by rw [hx]; omega)]
    have hm2 : find p._body (bytes "--X")
        ((part (bytes "--X") hF (bytes "grayscale")).length + (part (bytes "--X") hI img).length +
          (bytes "--X").length) = none := by
      rw [hb3]
      have h1 := find_append_right
        ((part (bytes "--X") hF (bytes "grayscale") ++ part (bytes "--X") hI img) ++ bytes "--X")
        (bytes "--") (bytes "--X") 0
      have h2 : find (bytes "--") (bytes "--X") 0 = none := by decide
      rw [h2] at h1
      simp only [List.length_append, Nat.add_zero, Option.map_none', List.append_assoc] at h1
      simpa [List.append_assoc] using h1
    rw [hm2]
  unfold parse_multipart_body
  rw [if_neg (by rintro (h | h); exact hpne h; exact hbne h)]
  rw [show p._body.length + 1 = p._body.length - 1 + 1 + 1 by omega]
  simp only [List.length_nil, Nat.zero_add] at s1
  rw [s1, s2, s3]

end HttpParser
end ImpServer

namespace ImpServer

/-! ## The end-to-end scenario (C2) and the witnesses of C3 and C8 -/
namespace HttpParser

/-- The end-to-end extraction where the code delivers it. For the request
`POST /upload HTTP/1.1` with `Content-Type: multipart/form-data; boundary=X`,
a `Content-Length` equal to the body length, and the body made of the parts
`filter` (value `grayscale`) and `image`, each framed as `--X` CRLF
part-header CRLF CRLF value CRLF, and closed by `--X--`: when the part headers
hold no boundary and no empty line, the `filter` header carries
`name="filter"` and nowhere the text `name="image"`, the `image` header
carries `name="image"`, and the image bytes, otherwise arbitrary, do not
contain `--X`, then after the `parse` calls of any chunking the request is
ready, the method is `POST`, the path is `/upload`, the filter type is
`grayscale` and the image data is exactly the image bytes. -/
theorem upload_end_to_end (hF hI img : List Nat) (cs : List (List Nat))
    (hcs : cs.flatten = upload_request hF hI img)
    (hFok : part_header_ok hF) (hIok : part_header_ok hI)
    (hFname : (find hF (bytes "name=\"filter\"") 0).isSome = true)
    (hFimg : find hF (bytes "name=\"image\"") 0 = none)
    (hIname : (find hI (bytes "name=\"image\"") 0).isSome = true)
    (himg : find img (bytes "--X") 0 = none)
    (hsize : (upload_body hF hI img).length < 2 ^ 64) :
    (feed new cs).map observe =
      .ok (true, bytes "POST", bytes "/upload", bytes "grayscale", img) := by
  obtain ⟨hph, hbb⟩ := upload_parsed_header (upload_body hF hI img)
    (upload_body hF hI img).length hsize
  have hR : header_block (bytes "POST /upload HTTP/1.1")
      [bytes "Content-Type: multipart/form-data; boundary=X",
       bytes "Content-Length: " ++ to_string (upload_body hF hI img).length]
      (upload_body hF hI img) = upload_request hF hI img := rfl
  rw [hR] at hph hbb
  have hL : 0 < (upload_body hF hI img).length := by
    simp [upload_body, part_length]
  have hlong := parse_new_long (upload_request hF hI img) _ hph hL (by rw [hbb]; exact le_refl _)
  have hab := after_headers_body_eq
    (upload_parsed (upload_request hF hI img) (upload_body hF hI img).length)
    (body_bytes (upload_request hF hI img)) rfl
  have hex := upload_extraction
    { after_headers (upload_parsed (upload_request hF hI img) (upload_body hF hI img).length)
        (body_bytes (upload_request hF hI img)) with
      _body := (after_headers (upload_parsed (upload_request hF hI img)
          (upload_body hF hI img).length) (body_bytes (upload_request hF hI img)))._body.take
        (after_headers (upload_parsed (upload_request hF hI img)
          (upload_body hF hI img).length) (body_bytes (upload_request hF hI img)))._content_length }
    hF hI img
    (by
      show (after_headers _ _)._body.take (upload_body hF hI img).length = _
      rw [hab, hbb, List.take_length])
    rfl hFok hIok hFname hFimg hIname himg hsize
  rw [hex] at hlong
  have hfa := feed_awaiting cs [] (by decide)
  simp only [List.nil_append] at hfa
  have hn : awaiting [] = new := rfl
  rw [hn, hcs, hlong] at hfa
  obtain ⟨body, hb, _⟩ := same_upto_body_ok _ _ hfa
  rw [hb]
  rfl

/-- The end-to-end extraction at `image_sample`, fed in two chunks. -/
theorem upload_end_to_end_witness :
    (part_header_ok (bytes "name=\"filter\"") ∧ part_header_ok (bytes "name=\"image\"") ∧
      find image_sample (bytes "--X") 0 = none ∧
      find image_sample CRLFCRLF 0 = some 5) ∧
    (feed new upload_chunks).map observe =
      .ok (true, bytes "POST", bytes "/upload", bytes "grayscale", image_sample) :=
  ⟨⟨⟨by decide, by decide⟩, ⟨by decide, by decide⟩, by decide, by decide⟩,
    upload_end_to_end (bytes "name=\"filter\"") (bytes "name=\"image\"") image_sample
      upload_chunks (by simp [upload_chunks])
      ⟨by decide, by decide⟩ ⟨by decide, by decide⟩ (by decide) (by decide) (by decide)
      (by decide) (by decide)⟩

set_option maxRecDepth 100000 in
/-- C2 (the code misses the claim): the filter of the scenario is lost when
its part header names a file `image`. The request is the upload of the
scenario, with the part headers
`Content-Disposition: form-data; name="filter"; filename="image"` and
`Content-Disposition: form-data; name="image"; filename="a.png"`, the values
`grayscale` and `PNG`, and the `Content-Length` of its body: the headers hold
no boundary and no empty line, they carry `name="filter"` and `name="image"`,
and no value holds `--X`. After `parse`, in one call or in two, the request
is ready with method `POST`, path `/upload` and the image bytes `PNG`, and the
filter type is empty, not `grayscale`. -/
theorem upload_filter_lost_by_file_name :
    (part_header_ok
        (bytes "Content-Disposition: form-data; name=\"filter\"; filename=\"image\"") ∧
      part_header_ok
        (bytes "Content-Disposition: form-data; name=\"image\"; filename=\"a.png\"") ∧
      (find (bytes "Content-Disposition: form-data; name=\"filter\"; filename=\"image\"")
        (bytes "name=\"filter\"") 0).isSome = true ∧
      (find (bytes "Content-Disposition: form-data; name=\"image\"; filename=\"a.png\"")
        (bytes "name=\"image\"") 0).isSome = true ∧
      find (bytes "grayscale") (bytes "--X") 0 = none ∧
      find (bytes "PNG") (bytes "--X") 0 = none) ∧
    (feed new [upload_request
        (bytes "Content-Disposition: form-data; name=\"filter\"; filename=\"image\"")
        (bytes "Content-Disposition: form-data; name=\"image\"; filename=\"a.png\"")
        (bytes "PNG")]).map observe =
      .ok (true, bytes "POST", bytes "/upload", [], bytes "PNG") ∧
    (feed new [(upload_request
        (bytes "Content-Disposition: form-data; name=\"filter\"; filename=\"image\"")
        (bytes "Content-Disposition: form-data; name=\"image\"; filename=\"a.png\"")
        (bytes "PNG")).take 150,
      (upload_request
        (bytes "Content-Disposition: form-data; name=\"filter\"; filename=\"image\"")
        (bytes "Content-Disposition: form-data; name=\"image\"; filename=\"a.png\"")
        (bytes "PNG")).drop 150]).map observe =
      .ok (true, bytes "POST", bytes "/upload", [], bytes "PNG") := by
  refine ⟨⟨⟨by decide, by decide⟩, ⟨by decide, by decide⟩, by decide, by decide, by decide,
    by decide⟩, by decide, by decide⟩

/-- The under-length theorem at three body bytes of ten declared. -/
theorem under_length_never_ready_witness :
    (declared_length chunks_short.flatten = some 10 ∧ 0 < 10 ∧
      (body_bytes chunks_short.flatten).length < 10) ∧
    ∃ q, feed new (chunks_short.take 2) = .ok q ∧ q.is_request_ready = false :=
  ⟨⟨by decide, by decide, by decide⟩,
    under_length_never_ready chunks_short 10 2 (by decide) (by decide) (by decide)⟩

/-- The amended theorem at `request_no_boundary`. -/
theorem malformed_multipart_completes_witness :
    (declared_length [request_no_boundary].flatten = some 3 ∧
      declared_boundary [request_no_boundary].flatten = some (bytes "--X") ∧
      find ((body_bytes [request_no_boundary].flatten).take 3) (bytes "--X") 0 = none) ∧
    ∃ q, feed new [request_no_boundary] = .ok q ∧ q.is_request_ready = true ∧
      q.get_image_data = [] ∧ q.get_filter_type = [] ∧ q.get_image_uuid = [] ∧
      q.get_blur_intensity = [] ∧ q.get_sharpen_intensity = [] :=
  ⟨⟨by decide, by decide, by decide⟩,
    malformed_multipart_completes [request_no_boundary] 3 (bytes "--X") (by decide)
      (by decide) (by decide) (by decide) (by decide)⟩

end HttpParser
end ImpServer

namespace ImpServer

/-! ## The fuel of the part loop -/
namespace HttpParser

theorem extraction_frame_body (p q : HttpParser) (h : extraction_frame p q) :
    q._body = p._body ∧ q._boundary = p._boundary := by
  unfold extraction_frame at h
  rw [h]
  exact ⟨rfl, rfl⟩

/-- The part loop does not depend on its fuel, as soon as the fuel exceeds the
number of body bytes behind the scan position (the boundary is not empty, so
every round moves the position forward). -/
theorem multipart_loop_fuel :
    ∀ (m : Nat) (p : HttpParser) (cur f g : Nat), p._boundary ≠ [] →
      p._body.length - cur ≤ m → m < f → m < g →
      multipart_loop f p cur = multipart_loop g p cur := by
  intro m
  induction m with
  | zero =>
    intro p cur f g _ hm hf hg
    obtain ⟨f, rfl⟩ : ∃ k, f = k + 1 := ⟨f - 1, by omega⟩
    obtain ⟨g, rfl⟩ : ∃ k, g = k + 1 := ⟨g - 1, by omega⟩
    simp only [multipart_loop]
    rw [if_neg (by omega), if_neg (by omega)]
  | succ m ih =>
    intro p cur f g hne hm hf hg
    obtain ⟨f, rfl⟩ : ∃ k, f = k + 1 := ⟨f - 1, by omega⟩
    obtain ⟨g, rfl⟩ : ∃ k, g = k + 1 := ⟨g - 1, by omega⟩
    have hbl : 0 < p._boundary.length := List.length_pos.mpr hne
    simp only [multipart_loop]
    by_cases hc : cur < p._body.length
    · rw [if_pos hc, if_pos hc, memmem_full _ _ _ (by omega)]
      cases h1 : find p._body p._boundary cur with
      | none => rfl
      | some bs =>
        simp only
        have hb1 := find_some_bound _ _ _ _ h1
        have hg1 := find_some_ge _ _ _ _ h1
        rw [memmem_full _ _ _ hb1]
        cases h2 : find p._body p._boundary (bs + p._boundary.length) with
        | none => rfl
        | some nbs =>
          simp only
          have hg2 := find_some_ge _ _ _ _ h2
          cases h3 : process_part p bs nbs with
          | error e => rfl
          | ok p1 =>
            simp only
            have hfr := extraction_frame_body _ _ (process_part_frame _ _ _ _ h3)
            apply ih
            · rw [hfr.2]; exact hne
            · rw [hfr.1]; omega
            · omega
            · omega
    · rw [if_neg hc, if_neg hc]

end HttpParser
end ImpServer

namespace ImpServer

/-! ## Header tables -/

theorem filter_pred_eq (k k2 : List Nat) (h : ¬ k = k2) :
    (fun kv : List Nat × List Nat => (!(kv.1 == k)) && (kv.1 == k2)) =
      (fun kv => kv.1 == k2) := by
  funext kv
  by_cases h1 : kv.1 = k2
  · have : ¬ kv.1 = k := fun hh => h (hh.symm.trans h1)
    simp [h1, this]
    intro hh; exact h hh.symm
  · simp [h1]

theorem map_count_set (hs : HeaderMap) (k v k2 : List Nat) :
    map_count (map_set hs k v) k2 = (k == k2 || map_count hs k2) := by
  unfold map_count map_set
  rw [List.any_cons]
  by_cases h : k = k2
  · subst h; simp
  · have hne : (k == k2) = false := by simpa using h
    simp only [hne, Bool.false_or]
    rw [List.any_filter, filter_pred_eq k k2 h]

theorem map_get_set (hs : HeaderMap) (k v k2 : List Nat) :
    map_get (map_set hs k v) k2 = if k = k2 then v else map_get hs k2 := by
  unfold map_get map_set
  by_cases h : k = k2
  · subst h; simp
  · have hne : (k == k2) = false := by simpa using h
    rw [List.find?_cons]
    simp only [hne, h, if_false]
    rw [List.find?_filter]
    have hp : (fun a : List Nat × List Nat =>
        decide ((!(a.1 == k)) = true ∧ (a.1 == k2) = true)) = (fun kv => kv.1 == k2) := by
      funext a
      by_cases h1 : a.1 = k2
      · have h2 : ¬ a.1 = k := fun hh => h (hh.symm.trans h1)
        simp [h1]
        intro hh; exact h hh.symm
      · simp [h1]
    rw [hp]

end ImpServer

namespace ImpServer

/-! ## Recorded header lines -/

theorem last_value_cons (kv : List Nat × List Nat) (kvs : List (List Nat × List Nat))
    (k : List Nat) :
    last_value (kv :: kvs) k =
      (last_value kvs k).or (if kv.1 = k then some kv.2 else none) := by
  unfold last_value
  rw [List.reverse_cons, List.find?_append]
  cases h : List.find? (fun kv => kv.1 == k) kvs.reverse with
  | some x => simp
  | none =>
    by_cases hk : kv.1 = k
    · simp [hk]
    · simp [hk]

theorem record_headers_lookup (kvs : List (List Nat × List Nat)) :
    ∀ (hs : HeaderMap) (k : List Nat),
      map_count (record_headers hs kvs) k = ((last_value kvs k).isSome || map_count hs k) ∧
      map_get (record_headers hs kvs) k = (last_value kvs k).getD (map_get hs k) := by
  induction kvs with
  | nil => intro hs k; simp [record_headers, last_value]
  | cons kv kvs ih =>
    intro hs k
    have h := ih (map_set hs kv.1 kv.2) k
    have hr : record_headers hs (kv :: kvs) = record_headers (map_set hs kv.1 kv.2) kvs := rfl
    rw [hr, h.1, h.2, map_count_set, map_get_set, last_value_cons]
    cases hl : last_value kvs k with
    | some x => simp
    | none =>
      by_cases hk : kv.1 = k
      · simp [hk]
      · simp [hk]

namespace HttpParser

theorem parse_header_line_of (hs : HeaderMap) (kv : List Nat × List Nat) (h58 : 58 ∉ kv.1) :
    parse_header_line hs (header_line_of kv) = .ok (map_set hs kv.1 kv.2) := by
  have hshape : header_line_of kv = kv.1 ++ [58] ++ (32 :: kv.2) := by
    simp [header_line_of]
  have hf : find (header_line_of kv) [58] 0 = some kv.1.length := by
    rw [hshape]; exact find_first_byte kv.1 (32 :: kv.2) [] 58 h58
  have hk : substr (header_line_of kv) 0 kv.1.length = .ok kv.1 := by
    simp [substr, header_line_of]
  have hv : substr_from (header_line_of kv) (kv.1.length + 2) = .ok kv.2 := by
    unfold substr_from
    rw [if_pos (by simp [header_line_of])]
    have : header_line_of kv = (kv.1 ++ [58, 32]) ++ kv.2 := by simp [header_line_of]
    rw [this, show kv.1.length + 2 = (kv.1 ++ [58, 32]).length by simp, List.drop_left]
  unfold parse_header_line
  rw [hf]
  simp only
  rw [hk]
  simp only
  rw [hv]

theorem fold_header_lines_of (kvs : List (List Nat × List Nat)) :
    ∀ hs : HeaderMap, (∀ kv ∈ kvs, 58 ∉ kv.1) →
      fold_header_lines hs (kvs.map header_line_of) = .ok (record_headers hs kvs) := by
  induction kvs with
  | nil => intro hs _; rfl
  | cons kv kvs ih =>
    intro hs h
    simp only [List.map_cons, fold_header_lines]
    rw [parse_header_line_of hs kv (h kv (by simp))]
    simp only [Except.bind]
    exact ih _ (fun kv2 h2 => h kv2 (by simp [h2]))

theorem header_lines_of_ok (kvs : List (List Nat × List Nat))
    (h : ∀ kv ∈ kvs, 13 ∉ kv.1 ∧ 13 ∉ kv.2) :
    ∀ l ∈ kvs.map header_line_of, 13 ∉ l ∧ l ≠ [] := by
  intro l hl
  rw [List.mem_map] at hl
  obtain ⟨kv, hkv, rfl⟩ := hl
  have := h kv hkv
  constructor
  · simp only [header_line_of, List.mem_append, List.mem_cons, not_or]
    refine ⟨this.1, by decide, by decide, this.2⟩
  · simp [header_line_of]

theorem extract_content_length_fresh (p : HttpParser) (h : p._content_length = 0) :
    extract_content_length p = { p with _content_length := length_of_headers p._headers } := by
  unfold extract_content_length length_of_headers
  by_cases hc : map_count p._headers (bytes "Content-Length") = true
  · rw [if_pos hc, if_pos hc]
    cases stoul (map_get p._headers (bytes "Content-Length")) <;> rfl
  · rw [if_neg hc, if_neg hc]
    conv_lhs => rw [← show ({ p with _content_length := p._content_length } : HttpParser) = p from rfl]
    rw [h]

theorem extract_boundary_fresh (p : HttpParser) (h : p._boundary = []) :
    extract_boundary p = .ok { p with _boundary := boundary_of_headers p._headers } := by
  unfold extract_boundary boundary_of_headers
  by_cases hc : map_count p._headers (bytes "Content-Type") = true
  · rw [if_pos hc, if_pos hc]
    simp only
    cases hf : find (map_get p._headers (bytes "Content-Type")) (bytes "boundary=") 0 with
    | none =>
      simp only
      conv_lhs => rw [← show ({ p with _boundary := p._boundary } : HttpParser) = p from rfl]
      rw [h]
    | some i =>
      simp only
      have hb := find_some_bound _ _ _ _ hf
      have h9 : (bytes "boundary=").length = 9 := by decide
      rw [h9] at hb
      simp only [substr_from, hb, if_true]
  · rw [if_neg hc, if_neg hc]
    conv_lhs => rw [← show ({ p with _boundary := p._boundary } : HttpParser) = p from rfl]
    rw [h]

/-- The declared length and the boundary that `parse_headers` leaves in a
parser that had none are the ones that belong to its header table. -/
theorem parse_headers_values (p q : HttpParser) (hl : p._content_length = 0)
    (hb : p._boundary = []) (h : parse_headers p = .ok q) :
    q._content_length = length_of_headers q._headers ∧
      q._boundary = boundary_of_headers q._headers := by
  unfold parse_headers at h
  split at h
  · exact absurd h (by simp)
  · rename_i p1 ls h1
    have f1 := parse_request_line_frame p p1 ls h1
    split at h
    · exact absurd h (by simp)
    · rename_i hs h2
      have hl1 : ({ p1 with _headers := hs } : HttpParser)._content_length = 0 := by
        show p1._content_length = 0
        rw [f1]; exact hl
      rw [extract_content_length_fresh _ hl1] at h
      have hb1 : ({ p1 with _headers := hs, _content_length := length_of_headers hs } :
          HttpParser)._boundary = [] := by
        show p1._boundary = []
        rw [f1]; exact hb
      rw [extract_boundary_fresh _ hb1] at h
      injection h with h
      subst h
      exact ⟨rfl, rfl⟩

end HttpParser
end ImpServer

namespace ImpServer
namespace HttpParser

/-! ## The header phase (C18, C19, C20) -/

/-- C18: awaiting the header terminator. For every byte sequence without
`"\r\n\r\n"`, fed in any chunking, the calls return a parser that is the fresh
parser with exactly the bytes fed so far in its header buffer: it is not
ready, and method, path, declared length and the five extracted fields are
still empty or zero. -/
theorem awaiting_header_terminator (cs : List (List Nat))
    (h : find cs.flatten CRLFCRLF 0 = none) :
    feed new cs = .ok (awaiting cs.flatten) ∧
      (awaiting cs.flatten)._buffer = cs.flatten ∧
      (awaiting cs.flatten).is_request_ready = false ∧
      (awaiting cs.flatten).get_method = [] ∧ (awaiting cs.flatten).get_path = [] ∧
      (awaiting cs.flatten)._content_length = 0 ∧
      (awaiting cs.flatten).get_image_data = [] ∧ (awaiting cs.flatten).get_filter_type = [] ∧
      (awaiting cs.flatten).get_image_uuid = [] ∧
      (awaiting cs.flatten).get_blur_intensity = [] ∧
      (awaiting cs.flatten).get_sharpen_intensity = [] := by
  refine ⟨?_, rfl, rfl, rfl, rfl, rfl, rfl, rfl, rfl, rfl, rfl⟩
  have hfa := feed_awaiting cs [] (by decide)
  simp only [List.nil_append] at hfa
  have hn : awaiting [] = new := rfl
  rw [hn, parse_new_none _ h] at hfa
  obtain ⟨body, hb, hbody⟩ := same_upto_body_ok _ _ hfa
  rw [hb, hbody (Or.inl (by simp [awaiting, new]))]

/-- The awaiting theorem at a header block cut into three chunks before its
terminator. -/
theorem awaiting_header_terminator_witness :
    find chunks_no_terminator.flatten CRLFCRLF 0 = none ∧
      feed new chunks_no_terminator = .ok (awaiting chunks_no_terminator.flatten) :=
  ⟨by decide, (awaiting_header_terminator chunks_no_terminator (by decide)).1⟩

theorem length_of_headers_zero (hs : HeaderMap) :
    (map_count hs (bytes "Content-Length") = false → length_of_headers hs = 0) ∧
    (∀ e, stoul (map_get hs (bytes "Content-Length")) = .error e → length_of_headers hs = 0) ∧
    (stoul (map_get hs (bytes "Content-Length")) = .ok 0 → length_of_headers hs = 0) := by
  unfold length_of_headers
  refine ⟨?_, ?_, ?_⟩
  · intro h; simp [h]
  · intro e h; rw [h]; simp
  · intro h; rw [h]; simp

theorem parsed_header_fresh (s : List Nat) (q0 : HttpParser) (h : parsed_header s = some q0) :
    q0._content_length = length_of_headers q0._headers ∧
      q0._boundary = boundary_of_headers q0._headers ∧
      q0._image_data = [] ∧ q0._filter_type = [] ∧ q0._image_uuid = [] ∧
      q0._blur_intensity = [] ∧ q0._sharpen_intensity = [] ∧ q0._body = [] := by
  obtain ⟨pos, _, hph⟩ := parsed_header_some _ _ h
  have hv := parse_headers_values (awaiting s) q0 rfl rfl hph
  have hfr := parse_headers_frame _ _ hph
  refine ⟨hv.1, hv.2, ?_, ?_, ?_, ?_, ?_, ?_⟩ <;> (rw [hfr]; rfl)

/-- C19: zero declared length completes at once. Let the header block of the
stream be complete with header table `q0._headers`. The declared length is
`0` when the table has no `Content-Length`, when `std::stoul` throws on its
value, and when the value reads as `0`. With declared length `0` the calls of
any chunking that has delivered the terminator leave the parser complete,
with declared length `0` and the five extracted fields empty. With a positive
declared length and fewer body bytes than declared the state is `BODY`. The
declared length is the number that `std::stoul` reads from the
`Content-Length` value: when that number `L` is positive and fewer than `L`
body bytes have come, the calls leave the parser in state `BODY`, not ready,
with declared length `L`. -/
theorem zero_length_completes_at_once (cs : List (List Nat)) (q0 : HttpParser)
    (h : parsed_header cs.flatten = some q0) :
    ((map_count q0._headers (bytes "Content-Length") = false ∨
        (∃ e, stoul (map_get q0._headers (bytes "Content-Length")) = .error e) ∨
        stoul (map_get q0._headers (bytes "Content-Length")) = .ok 0) →
      q0._content_length = 0) ∧
    (q0._content_length = 0 →
      ∃ q, feed new cs = .ok q ∧ q.is_request_ready = true ∧ q._content_length = 0 ∧
        q.get_image_data = [] ∧ q.get_filter_type = [] ∧ q.get_image_uuid = [] ∧
        q.get_blur_intensity = [] ∧ q.get_sharpen_intensity = []) ∧
    (0 < q0._content_length → (body_bytes cs.flatten).length < q0._content_length →
      ∃ q, feed new cs = .ok q ∧ q._state = .BODY) ∧
    (∀ L, map_count q0._headers (bytes "Content-Length") = true →
      stoul (map_get q0._headers (bytes "Content-Length")) = .ok L →
      q0._content_length = L) ∧
    (∀ L, 0 < L → map_count q0._headers (bytes "Content-Length") = true →
      stoul (map_get q0._headers (bytes "Content-Length")) = .ok L →
      (body_bytes cs.flatten).length < L →
      ∃ q, feed new cs = .ok q ∧ q._state = .BODY ∧ q.is_request_ready = false ∧
        q._content_length = L) := by
  have hfresh := parsed_header_fresh _ _ h
  have hdecl : ∀ L, map_count q0._headers (bytes "Content-Length") = true →
      stoul (map_get q0._headers (bytes "Content-Length")) = .ok L →
      q0._content_length = L := by
    intro L hc hs
    rw [hfresh.1]
    unfold length_of_headers
    rw [hc, hs]
    rfl
  have hfa := feed_awaiting cs [] (by decide)
  simp only [List.nil_append] at hfa
  have hn : awaiting [] = new := rfl
  rw [hn] at hfa
  refine ⟨?_, ?_, ?_, hdecl, ?_⟩
  · intro hc
    rw [hfresh.1]
    have hz := length_of_headers_zero q0._headers
    rcases hc with hc | ⟨e, hc⟩ | hc
    · exact hz.1 hc
    · exact hz.2.1 e hc
    · exact hz.2.2 hc
  · intro hz
    obtain ⟨hp, _⟩ := parse_new_parsed _ q0 h
    have hc := after_headers_complete q0 (body_bytes cs.flatten) (by omega)
    rw [hp, check_body_complete_short _ (Or.inl (by rw [hc]; simp))] at hfa
    obtain ⟨body, hb, _⟩ := same_upto_body_ok _ _ hfa
    refine ⟨_, hb, ?_, hz, hfresh.2.2.1, hfresh.2.2.2.1, hfresh.2.2.2.2.1,
      hfresh.2.2.2.2.2.1, hfresh.2.2.2.2.2.2.1⟩
    show ((after_headers q0 (body_bytes cs.flatten))._state == ParseState.COMPLETE) = true
    rw [hc]; rfl
  · intro hpos hshort
    have hs := parse_new_short _ q0 h hpos hshort
    rw [hs.1] at hfa
    obtain ⟨body, hb, _⟩ := same_upto_body_ok _ _ hfa
    exact ⟨_, hb, hs.2⟩
  · intro L hpos hc hst hshort
    have hL := hdecl L hc hst
    have hs := parse_new_short _ q0 h (by omega) (by omega)
    rw [hs.1] at hfa
    obtain ⟨body, hb, _⟩ := same_upto_body_ok _ _ hfa
    refine ⟨_, hb, hs.2, ?_, ?_⟩
    · show ((after_headers q0 (body_bytes cs.flatten))._state == ParseState.COMPLETE) = false
      rw [hs.2]; rfl
    · show (after_headers q0 (body_bytes cs.flatten))._content_length = L
      rw [after_headers_length]; exact hL

/-- The zero-length theorem at a `GET` request without `Content-Length`, fed
in two chunks, and at an upload with `Content-Length: 10` that has supplied
three body bytes. -/
theorem zero_length_completes_at_once_witness :
    (parsed_header [request_get.take 9, request_get.drop 9].flatten = some parsed_get ∧
      map_count parsed_get._headers (bytes "Content-Length") = false ∧
      parsed_get._content_length = 0 ∧
      ∃ q, feed new [request_get.take 9, request_get.drop 9] = .ok q ∧
        q.is_request_ready = true ∧ q._content_length = 0 ∧
        q.get_image_data = [] ∧ q.get_filter_type = [] ∧ q.get_image_uuid = [] ∧
        q.get_blur_intensity = [] ∧ q.get_sharpen_intensity = []) ∧
    (parsed_header chunks_short.flatten = some (upload_parsed chunks_short.flatten 10) ∧
      map_count (upload_parsed chunks_short.flatten 10)._headers (bytes "Content-Length")
        = true ∧
      stoul (map_get (upload_parsed chunks_short.flatten 10)._headers (bytes "Content-Length"))
        = .ok 10 ∧
      (body_bytes chunks_short.flatten).length < 10 ∧
      (upload_parsed chunks_short.flatten 10)._content_length = 10 ∧
      ∃ q, feed new chunks_short = .ok q ∧ q._state = .BODY ∧ q.is_request_ready = false ∧
        q._content_length = 10) :=
  ⟨⟨by decide, by decide,
    (zero_length_completes_at_once [request_get.take 9, request_get.drop 9] parsed_get
      (by decide)).1 (Or.inl (by decide)),
    (zero_length_completes_at_once [request_get.take 9, request_get.drop 9] parsed_get
      (by decide)).2.1 (by decide)⟩,
   ⟨by decide, by decide, by decide, by decide,
    (zero_length_completes_at_once chunks_short (upload_parsed chunks_short.flatten 10)
      (by decide)).2.2.2.1 10 (by decide) (by decide),
    (zero_length_completes_at_once chunks_short (upload_parsed chunks_short.flatten 10)
      (by decide)).2.2.2.2 10 (by decide) (by decide) (by decide) (by decide)⟩⟩

end HttpParser
end ImpServer

namespace ImpServer
namespace HttpParser

theorem check_body_complete_frame (p q : HttpParser) (h : check_body_complete p = .ok q) :
    q._method = p._method ∧ q._path = p._path ∧ q._headers = p._headers ∧
      q._boundary = p._boundary ∧ q._content_length = p._content_length := by
  unfold check_body_complete at h
  split at h
  · split at h
    · exact absurd h (by simp)
    · rename_i p1 h1
      injection h with h
      subst h
      have hf := parse_multipart_body_frame _ _ h1
      unfold extraction_frame at hf
      rw [hf]
      exact ⟨rfl, rfl, rfl, rfl, rfl⟩
  · injection h with h
    subst h
    exact ⟨rfl, rfl, rfl, rfl, rfl⟩

theorem find_request_line (m p v : List Nat) (hm : 32 ∉ m) (hp : 32 ∉ p) :
    find (request_line m p v) [32] 0 = some m.length ∧
      find (request_line m p v) [32] (m.length + 1) = some (m.length + 1 + p.length) := by
  constructor
  · have h2 := find_first_byte m (p ++ (32 :: v)) [] 32 hm
    simpa [request_line] using h2
  · have h1 := find_first_byte p v [] 32 hp
    have h2 := find_append_right (m ++ [32]) (p ++ (32 :: v)) [32] 0
    have e : (m ++ [32]) ++ (p ++ (32 :: v)) = request_line m p v := by
      simp [request_line]
    have e2 : p ++ [32] ++ v = p ++ (32 :: v) := by simp
    rw [e, ← e2, h1] at h2
    simp only [List.length_append, List.length_singleton, Nat.add_zero, Option.map_some'] at h2
    rw [h2]
    congr 1
    omega

theorem request_line_cr (m p v : List Nat) (hm : 13 ∉ m) (hp : 13 ∉ p) (hv : 13 ∉ v) :
    13 ∉ request_line m p v := by
  simp [request_line, hm, hp, hv]

theorem parse_request_line_of (m p v rest : List Nat) (hm : 32 ∉ m ∧ 13 ∉ m)
    (hp : 32 ∉ p ∧ 13 ∉ p) (hv : 13 ∉ v) (q : HttpParser)
    (hbuf : q._buffer = request_line m p v ++ (CRLF ++ rest)) :
    parse_request_line q =
      .ok ({ q with _method := m, _path := p }, (request_line m p v).length + 2) := by
  have h := parse_request_line_first q (request_line m p v) rest
    (request_line_cr m p v hm.2 hp.2 hv) hbuf
  obtain ⟨h1, h2⟩ := find_request_line m p v hm.1 hp.1
  rw [h]
  simp only [h1, h2]
  have e1 : (request_line m p v).take m.length = m := by
    simp [request_line]
  have e2 : ((request_line m p v).drop (m.length + 1)).take (m.length + 1 + p.length - (m.length + 1))
      = p := by
    have : m.length + 1 + p.length - (m.length + 1) = p.length := by omega
    rw [this]
    have e : request_line m p v = (m ++ [32]) ++ (p ++ (32 :: v)) := by simp [request_line]
    have hl : m.length + 1 = (m ++ [32]).length := by simp
    rw [e, hl, List.drop_left, List.take_left]
  rw [e1, e2]

/-- The parser that `parse_headers` leaves on a well-formed header block. -/
theorem parsed_header_block (m p v post : List Nat) (kvs : List (List Nat × List Nat))
    (hm : 32 ∉ m ∧ 13 ∉ m) (hp : 32 ∉ p ∧ 13 ∉ p) (hv : 13 ∉ v)
    (hk : ∀ kv ∈ kvs, 58 ∉ kv.1 ∧ 13 ∉ kv.1 ∧ 13 ∉ kv.2) :
    parsed_header (header_block (request_line m p v) (kvs.map header_line_of) post) =
      some { awaiting (header_block (request_line m p v) (kvs.map header_line_of) post) with
             _method := m, _path := p, _headers := record_headers [] kvs,
             _content_length := length_of_headers (record_headers [] kvs),
             _boundary := boundary_of_headers (record_headers [] kvs) } ∧
    body_bytes (header_block (request_line m p v) (kvs.map header_line_of) post) = post := by
  generalize hR : header_block (request_line m p v) (kvs.map header_line_of) post = R
  have h13 := request_line_cr m p v hm.2 hp.2 hv
  have hl := header_lines_of_ok kvs (fun kv hkv => ⟨(hk kv hkv).2.1, (hk kv hkv).2.2⟩)
  obtain ⟨pos, hpos, hdrop⟩ := find_header_end (kvs.map header_line_of) post _ h13 hl
  rw [hR] at hpos hdrop
  have hrl := parse_request_line_of m p v _ hm hp hv (awaiting R)
    (by rw [← hR]; rfl)
  have hph := parse_headers_block (awaiting R) _ (request_line m p v) post
    (kvs.map header_line_of) _ (by rw [← hR]; rfl) h13 hl hrl
  have hf := fold_header_lines_of kvs [] (fun kv hkv => (hk kv hkv).1)
  have hh : ({ awaiting R with _method := m, _path := p } : HttpParser)._headers = [] := rfl
  rw [hh, hf] at hph
  simp only [Except.bind] at hph
  rw [extract_content_length_fresh _ rfl, extract_boundary_fresh _ rfl] at hph
  constructor
  · unfold parsed_header
    rw [hpos]
    simp only [hph]
  · rw [body_bytes_some R pos hpos, hdrop]

end HttpParser
end ImpServer

namespace ImpServer
namespace HttpParser

/-- C20: request line and header parsing. For a stream made of the first line
`M SP P SP V` (no space in `M` and `P`, no carriage return in the line), the
lines `Key: Value` (no colon in a key, no carriage return in a line), the
blank line and any bytes `post`: `parse_headers` returns at the terminator,
with `get_method = M`, `get_path = P`, the header table holding for each key
the value of its last line (and nothing for other keys, whatever `post`
holds), and the boundary token `--` followed by the text after `boundary=`
in the `Content-Type` value; `post` is the body. Whenever the calls of a
chunking of the stream return, the parser holds this method, path, header
table and boundary. -/
theorem request_line_and_headers (m p v post : List Nat) (kvs : List (List Nat × List Nat))
    (hm : 32 ∉ m ∧ 13 ∉ m) (hp : 32 ∉ p ∧ 13 ∉ p) (hv : 13 ∉ v)
    (hk : ∀ kv ∈ kvs, 58 ∉ kv.1 ∧ 13 ∉ kv.1 ∧ 13 ∉ kv.2) :
    (∃ q0, parsed_header (header_block (request_line m p v) (kvs.map header_line_of) post)
          = some q0 ∧
        q0.get_method = m ∧ q0.get_path = p ∧ q0._headers = record_headers [] kvs ∧
        q0._boundary = boundary_of_headers q0._headers) ∧
    body_bytes (header_block (request_line m p v) (kvs.map header_line_of) post) = post ∧
    (∀ k, map_count (record_headers [] kvs) k = (last_value kvs k).isSome ∧
        map_get (record_headers [] kvs) k = (last_value kvs k).getD []) ∧
    (∀ ct, last_value kvs (bytes "Content-Type") = some ct →
      (∀ i, find ct (bytes "boundary=") 0 = some i →
        boundary_of_headers (record_headers [] kvs) = bytes "--" ++ ct.drop (i + 9)) ∧
      (find ct (bytes "boundary=") 0 = none → boundary_of_headers (record_headers [] kvs) = [])) ∧
    (∀ cs q, cs.flatten = header_block (request_line m p v) (kvs.map header_line_of) post →
      feed new cs = .ok q →
        q.get_method = m ∧ q.get_path = p ∧ q._headers = record_headers [] kvs ∧
          q._boundary = boundary_of_headers (record_headers [] kvs)) := by
  obtain ⟨hph, hbb⟩ := parsed_header_block m p v post kvs hm hp hv hk
  have hlook : ∀ k, map_count (record_headers [] kvs) k = (last_value kvs k).isSome ∧
      map_get (record_headers [] kvs) k = (last_value kvs k).getD [] := by
    intro k
    have h := record_headers_lookup kvs [] k
    constructor
    · rw [h.1]; simp [map_count]
    · rw [h.2]; rfl
  refine ⟨⟨_, hph, rfl, rfl, rfl, rfl⟩, hbb, hlook, ?_, ?_⟩
  · intro ct hct
    have hc := (hlook (bytes "Content-Type")).1
    have hg := (hlook (bytes "Content-Type")).2
    rw [hct] at hc hg
    simp only [Option.isSome_some, Option.getD_some] at hc hg
    unfold boundary_of_headers
    rw [hc, hg]
    constructor
    · intro i hi
      rw [hi]; rfl
    · intro hn
      rw [hn]; rfl
  · intro cs q hcs hfeed
    have hfa := feed_awaiting cs [] (by decide)
    simp only [List.nil_append] at hfa
    have hn : awaiting [] = new := rfl
    rw [hn, hcs, (parse_new_parsed _ _ hph).1, hfeed] at hfa
    cases hcb : check_body_complete (after_headers _ post) with
    | error e =>
      rw [hbb, hcb] at hfa
      exact absurd hfa (by simp [same_upto_body])
    | ok q1 =>
      rw [hbb, hcb] at hfa
      obtain ⟨body, hb, _⟩ := same_upto_body_ok _ _ hfa
      injection hb with hb
      have hfr := check_body_complete_frame _ _ hcb
      subst hb
      exact ⟨hfr.1, hfr.2.1, hfr.2.2.1, hfr.2.2.2.1⟩

/-- The request-line theorem at an upload header block with a repeated key
and a line that looks like a header behind the blank line. -/
theorem request_line_and_headers_witness :
    (∃ q0, parsed_header (header_block (request_line (bytes "POST") (bytes "/upload")
          (bytes "HTTP/1.1"))
          ([(bytes "Content-Type", bytes "multipart/form-data; boundary=X"),
            (bytes "A", bytes "1"), (bytes "A", bytes "2")].map header_line_of)
          (bytes "B: 3\r\n")) = some q0 ∧
        q0.get_method = bytes "POST" ∧ q0.get_path = bytes "/upload" ∧
        q0._headers = record_headers []
          [(bytes "Content-Type", bytes "multipart/form-data; boundary=X"),
            (bytes "A", bytes "1"), (bytes "A", bytes "2")] ∧
        q0._boundary = boundary_of_headers q0._headers) ∧
    map_get (record_headers []
          [(bytes "Content-Type", bytes "multipart/form-data; boundary=X"),
            (bytes "A", bytes "1"), (bytes "A", bytes "2")]) (bytes "A") = bytes "2" ∧
    map_count (record_headers []
          [(bytes "Content-Type", bytes "multipart/form-data; boundary=X"),
            (bytes "A", bytes "1"), (bytes "A", bytes "2")]) (bytes "B") = false ∧
    boundary_of_headers (record_headers []
          [(bytes "Content-Type", bytes "multipart/form-data; boundary=X"),
            (bytes "A", bytes "1"), (bytes "A", bytes "2")]) = bytes "--X" :=
  ⟨(request_line_and_headers (bytes "POST") (bytes "/upload") (bytes "HTTP/1.1")
      (bytes "B: 3\r\n")
      [(bytes "Content-Type", bytes "multipart/form-data; boundary=X"),
        (bytes "A", bytes "1"), (bytes "A", bytes "2")]
      (by decide) (by decide) (by decide) (by decide)).1,
    by decide, by decide, by decide⟩

end HttpParser
end ImpServer

namespace ImpServer
namespace PoolSystem

/-! ## The worker pool as a transition system (C13, C14, C15) -/

theorem in_flight_append (a b : List WorkerStatus) :
    in_flight (a ++ b) = in_flight a ++ in_flight b := by
  induction a with
  | nil => rfl
  | cons w a ih => cases w <;> simp [in_flight, ih]

theorem set_split {α : Type} (ws : List α) :
    ∀ (i : Nat) (w v : α), ws[i]? = some w →
      ∃ a b, ws = a ++ w :: b ∧ ws.set i v = a ++ v :: b := by
  induction ws with
  | nil => intro i w v h; simp at h
  | cons x xs ih =>
    intro i w v h
    cases i with
    | zero =>
      simp at h
      subst h
      exact ⟨[], xs, rfl, rfl⟩
    | succ i =>
      simp at h
      obtain ⟨a, b, h1, h2⟩ := ih i w v h
      exact ⟨x :: a, b, by simp [h1], by simp [h2]⟩

theorem in_flight_set_running (ws : List WorkerStatus) (i : Nat) (t : UploadTask)
    (h : ws[i]? = some .waiting) :
    (in_flight (ws.set i (.running t))).Perm (t :: in_flight ws) := by
  obtain ⟨a, b, h1, h2⟩ := set_split ws i .waiting (.running t) h
  rw [h2, h1]
  simp only [in_flight_append, in_flight]
  exact List.perm_middle

theorem in_flight_set_exited (ws : List WorkerStatus) (i : Nat)
    (h : ws[i]? = some .waiting) :
    in_flight (ws.set i .exited) = in_flight ws := by
  obtain ⟨a, b, h1, h2⟩ := set_split ws i .waiting .exited h
  rw [h2, h1]
  simp only [in_flight_append, in_flight]

theorem in_flight_set_waiting (ws : List WorkerStatus) (i : Nat) (t : UploadTask)
    (h : ws[i]? = some (.running t)) :
    (in_flight ws).Perm (t :: in_flight (ws.set i .waiting)) := by
  obtain ⟨a, b, h1, h2⟩ := set_split ws i (.running t) .waiting h
  rw [h2]
  nth_rewrite 1 [h1]
  simp only [in_flight_append, in_flight]
  exact List.perm_middle

/-- The step of a worker that wakes up, by the state of the pool. -/
theorem step_wake (s : PoolSystem) (i : Nat) (h : s.workers[i]? = some .waiting) :
    (s.pool.stop = false → s.pool.tasks = [] → s.step (.wake i) = s) ∧
    (s.pool.stop = true → s.pool.tasks = [] →
      s.step (.wake i) = { s with workers := s.workers.set i .exited }) ∧
    (∀ t rest, s.pool.tasks = t :: rest →
      s.step (.wake i) = { s with pool := { s.pool with tasks := rest },
                                  workers := s.workers.set i (.running t),
                                  dequeued := s.dequeued ++ [t] }) := by
  refine ⟨?_, ?_, ?_⟩
  · intro h1 h2
    simp [step, h, worker_wake, h1, h2]
  · intro h1 h2
    simp [step, h, worker_wake, h1, h2]
  · intro t rest h2
    simp [step, h, worker_wake, h2]

theorem step_finish (s : PoolSystem) (i : Nat) (t : UploadTask) (o : TaskOutcome)
    (h : s.workers[i]? = some (.running t)) :
    s.step (.finish i o) = { s with workers := s.workers.set i .waiting,
                                    executed := s.executed ++ [t] } := by
  simp [step, h, worker_after_task, packaged_task_call]

theorem step_idle (s : PoolSystem) (i : Nat) (o : TaskOutcome) :
    ((∀ t, s.workers[i]? ≠ some (.running t)) → s.step (.finish i o) = s) ∧
    (s.workers[i]? ≠ some .waiting → s.step (.wake i) = s) := by
  constructor
  · intro h
    simp only [step]
  · intro h
    simp only [step]

end PoolSystem
end ImpServer

namespace ImpServer
namespace PoolSystem

/-- The invariant of the pool: the queue is what was submitted and not yet
dequeued, a worker has exited only with the stop flag set and the queue
empty, the dequeued tasks are the executed ones and those in execution, and
no worker thread was terminated. -/
theorem step_invariant (s : PoolSystem) (e : PoolEvent)
    (h1 : s.submitted = s.dequeued ++ s.pool.tasks)
    (h2 : ∀ i : Nat, s.workers[i]? = some WorkerStatus.exited → s.pool.stop = true ∧ s.pool.tasks = [])
    (h3 : s.dequeued.Perm (s.executed ++ in_flight s.workers))
    (h4 : ∀ i : Nat, s.workers[i]? ≠ some WorkerStatus.terminated) :
    (s.step e).submitted = (s.step e).dequeued ++ (s.step e).pool.tasks ∧
    (∀ i : Nat, (s.step e).workers[i]? = some WorkerStatus.exited →
      (s.step e).pool.stop = true ∧ (s.step e).pool.tasks = []) ∧
    (s.step e).dequeued.Perm ((s.step e).executed ++ in_flight (s.step e).workers) ∧
    (∀ i : Nat, (s.step e).workers[i]? ≠ some WorkerStatus.terminated) := by
  cases e with
  | enqueue t =>
    cases hs : s.pool.stop with
    | true =>
      have : s.step (.enqueue t) = s := by simp [step, ThreadPool.enqueue, hs]
      rw [this]
      exact ⟨h1, h2, h3, h4⟩
    | false =>
      have : s.step (.enqueue t) =
          { s with pool := { s.pool with tasks := s.pool.tasks ++ [t] },
                   submitted := s.submitted ++ [t] } := by
        simp [step, ThreadPool.enqueue, hs]
      rw [this]
      refine ⟨?_, ?_, h3, h4⟩
      · simp [h1]
      · intro i hi
        have := (h2 i hi).1
        rw [hs] at this
        exact absurd this (by simp)
  | shutdown =>
    refine ⟨h1, ?_, h3, h4⟩
    intro i hi
    exact ⟨rfl, (h2 i hi).2⟩
  | wake i =>
    by_cases hw : s.workers[i]? = some .waiting
    · obtain ⟨w1, w2, w3⟩ := step_wake s i hw
      cases ht : s.pool.tasks with
      | nil =>
        cases hs : s.pool.stop with
        | false =>
          rw [w1 hs ht]
          exact ⟨h1, h2, h3, h4⟩
        | true =>
          rw [w2 hs ht]
          refine ⟨h1, ?_, ?_, ?_⟩
          · intro j _
            exact ⟨hs, ht⟩
          · show s.dequeued.Perm (s.executed ++ in_flight (s.workers.set i .exited))
            rw [in_flight_set_exited _ _ hw]
            exact h3
          · intro j hj
            simp only [List.getElem?_set] at hj
            split at hj
            · split at hj <;> simp at hj
            · exact h4 j hj
      | cons t rest =>
        rw [w3 t rest ht]
        refine ⟨?_, ?_, ?_, ?_⟩
        · simp [h1, ht]
        · intro j hj
          simp only [List.getElem?_set] at hj
          split at hj
          · split at hj <;> simp at hj
          · have := (h2 j hj).2
            rw [ht] at this
            exact absurd this (by simp)
        · show (s.dequeued ++ [t]).Perm
            (s.executed ++ in_flight (s.workers.set i (.running t)))
          have hp := in_flight_set_running s.workers i t hw
          have h5 : (s.executed ++ in_flight (s.workers.set i (.running t))).Perm
              (s.executed ++ (t :: in_flight s.workers)) := List.Perm.append_left _ hp
          refine List.Perm.trans ?_ h5.symm
          refine List.Perm.trans ?_ List.perm_middle.symm
          refine List.Perm.trans (List.perm_append_singleton t s.dequeued) ?_
          exact List.Perm.cons t h3
        · intro j hj
          simp only [List.getElem?_set] at hj
          split at hj
          · split at hj <;> simp at hj
          · exact h4 j hj
    · rw [(step_idle s i .returned).2 hw]
      exact ⟨h1, h2, h3, h4⟩
  | finish i o =>
    by_cases hw : ∃ t, s.workers[i]? = some (.running t)
    · obtain ⟨t, ht⟩ := hw
      rw [step_finish s i t o ht]
      refine ⟨h1, ?_, ?_, ?_⟩
      · intro j hj
        simp only [List.getElem?_set] at hj
        split at hj
        · split at hj <;> simp at hj
        · exact h2 j hj
      · show s.dequeued.Perm ((s.executed ++ [t]) ++ in_flight (s.workers.set i .waiting))
        have hp := in_flight_set_waiting s.workers i t ht
        refine List.Perm.trans h3 ?_
        refine List.Perm.trans (List.Perm.append_left _ hp) ?_
        rw [List.append_assoc]
        rfl
      · intro j hj
        simp only [List.getElem?_set] at hj
        split at hj
        · split at hj <;> simp at hj
        · exact h4 j hj
    · rw [(step_idle s i o).1 (fun t ht => hw ⟨t, ht⟩)]
      exact ⟨h1, h2, h3, h4⟩

end PoolSystem
end ImpServer

namespace ImpServer
namespace PoolSystem

theorem step_workers_length (s : PoolSystem) (e : PoolEvent) :
    (s.step e).workers.length = s.workers.length := by
  cases e with
  | enqueue t =>
    simp only [step]
    split <;> rfl
  | shutdown => rfl
  | wake i =>
    by_cases hw : s.workers[i]? = some .waiting
    · obtain ⟨w1, w2, w3⟩ := step_wake s i hw
      cases ht : s.pool.tasks with
      | nil =>
        cases hs : s.pool.stop with
        | false => rw [w1 hs ht]
        | true => rw [w2 hs ht]; simp
      | cons t rest => rw [w3 t rest ht]; simp
    · rw [(step_idle s i .returned).2 hw]
  | finish i o =>
    by_cases hw : ∃ t, s.workers[i]? = some (.running t)
    · obtain ⟨t, ht⟩ := hw
      rw [step_finish s i t o ht]; simp
    · rw [(step_idle s i o).1 (fun t ht => hw ⟨t, ht⟩)]

theorem run_invariant (evs : List PoolEvent) :
    ∀ s : PoolSystem,
      s.submitted = s.dequeued ++ s.pool.tasks →
      (∀ i : Nat, s.workers[i]? = some WorkerStatus.exited →
        s.pool.stop = true ∧ s.pool.tasks = []) →
      s.dequeued.Perm (s.executed ++ in_flight s.workers) →
      (∀ i : Nat, s.workers[i]? ≠ some WorkerStatus.terminated) →
      (s.run evs).submitted = (s.run evs).dequeued ++ (s.run evs).pool.tasks ∧
      (∀ i : Nat, (s.run evs).workers[i]? = some WorkerStatus.exited →
        (s.run evs).pool.stop = true ∧ (s.run evs).pool.tasks = []) ∧
      (s.run evs).dequeued.Perm ((s.run evs).executed ++ in_flight (s.run evs).workers) ∧
      (∀ i : Nat, (s.run evs).workers[i]? ≠ some WorkerStatus.terminated) ∧
      (s.run evs).workers.length = s.workers.length := by
  induction evs with
  | nil => intro s h1 h2 h3 h4; exact ⟨h1, h2, h3, h4, rfl⟩
  | cons e es ih =>
    intro s h1 h2 h3 h4
    obtain ⟨k1, k2, k3, k4⟩ := step_invariant s e h1 h2 h3 h4
    have := ih (s.step e) k1 k2 k3 k4
    rw [step_workers_length] at this
    exact this

theorem in_flight_exited (ws : List WorkerStatus) (h : ∀ w ∈ ws, w = WorkerStatus.exited) :
    in_flight ws = [] := by
  induction ws with
  | nil => rfl
  | cons w ws ih =>
    have hw := h w (by simp)
    subst hw
    simp only [in_flight]
    exact ih (fun w hw => h w (by simp [hw]))

theorem init_invariant (threads : Nat) :
    (init threads).submitted = (init threads).dequeued ++ (init threads).pool.tasks ∧
    (∀ i : Nat, (init threads).workers[i]? = some WorkerStatus.exited →
      (init threads).pool.stop = true ∧ (init threads).pool.tasks = []) ∧
    (init threads).dequeued.Perm ((init threads).executed ++ in_flight (init threads).workers) ∧
    (∀ i : Nat, (init threads).workers[i]? ≠ some WorkerStatus.terminated) ∧
    (init threads).workers.length = threads := by
  have hrep : ∀ i : Nat, ∀ w, (List.replicate threads WorkerStatus.waiting)[i]? = some w →
      w = WorkerStatus.waiting := by
    intro i w h
    have := List.mem_iff_getElem?.mpr ⟨i, h⟩
    exact (List.mem_replicate.mp this).2
  have hfl : ∀ n : Nat, in_flight (List.replicate n WorkerStatus.waiting) = [] := by
    intro n
    induction n with
    | zero => rfl
    | succ n ih => simp [List.replicate_succ, in_flight, ih]
  refine ⟨rfl, ?_, ?_, ?_, by simp [init]⟩
  · intro i h
    exact absurd (hrep i _ h) (by simp)
  · show List.Perm [] ([] ++ in_flight (List.replicate threads WorkerStatus.waiting))
    rw [hfl]; rfl
  · intro i h
    exact absurd (hrep i _ h) (by simp)

/-- C13: submission to a stopped pool is reported. With the stop flag set,
`ThreadPool::enqueue` throws `std::runtime_error` and leaves the queue and the
flag as they were; the task reaches no worker (the pool system does not
move), and in `handle_client_data` the exception leaves the routing of an
upload, so the caller of the reactor sees it. -/
theorem enqueue_on_stopped_pool (tp : ThreadPool) (t : UploadTask) (h : tp.stop = true) :
    tp.enqueue t = .error .runtime_error ∧
    tp.enqueue_outcome t = (tp, some .runtime_error) ∧
    (∀ s : PoolSystem, s.pool = tp → s.step (.enqueue t) = s) ∧
    (∀ (s : Server) (fd : Int) (parser : HttpParser) (html : List Nat) (ok : Bool),
      s._thread_pool = tp → parser.get_path = bytes "/upload" →
      parser.get_method = bytes "POST" →
      s.route fd parser html ok = .error .runtime_error) := by
  refine ⟨by simp [ThreadPool.enqueue, h], by simp [ThreadPool.enqueue_outcome, h], ?_, ?_⟩
  · intro s hs
    subst hs
    simp [step, ThreadPool.enqueue, h]
  · intro s fd parser html ok hs hp hm
    subst hs
    have hne : ¬ (bytes "/upload" = bytes "/" ∧ bytes "POST" = bytes "GET") := by decide
    simp only [Server.route, hp, hm]
    rw [if_neg hne]
    simp [ThreadPool.enqueue, h]

/-- The stopped-pool theorem at a stopped pool that still holds one task. -/
theorem enqueue_on_stopped_pool_witness :
    ({ tasks := [task_upload], stop := true } : ThreadPool).enqueue task_upload =
        .error .runtime_error ∧
      ({ tasks := [task_upload], stop := true } : ThreadPool).enqueue_outcome task_upload =
        ({ tasks := [task_upload], stop := true }, some .runtime_error) :=
  ⟨(enqueue_on_stopped_pool { tasks := [task_upload], stop := true } task_upload rfl).1,
   (enqueue_on_stopped_pool { tasks := [task_upload], stop := true } task_upload rfl).2.1⟩

end PoolSystem
end ImpServer

namespace ImpServer
namespace PoolSystem

/-- C14: the pool drains on shutdown. In every state `s` that a pool of
`threads` workers reaches by any interleaving of submissions, the shutdown
and worker steps: the dequeued tasks followed by the queue are the submitted
tasks in submission order, and a waking worker takes the head of the queue
(FIFO); a waiting worker that wakes exits only with the stop flag set and the
queue empty; once a worker has exited the flag is set, the queue is empty and
every submitted task was dequeued; and when all workers of a non-empty pool
have exited, the executed tasks are exactly the submitted ones. -/
theorem pool_drains_on_shutdown (threads : Nat) (evs : List PoolEvent) (s : PoolSystem)
    (hs : (init threads).run evs = s) :
    s.submitted = s.dequeued ++ s.pool.tasks ∧
    (∀ (i : Nat) (t : UploadTask) (rest : List UploadTask),
      s.workers[i]? = some WorkerStatus.waiting → s.pool.tasks = t :: rest →
      (s.step (.wake i)).dequeued = s.dequeued ++ [t] ∧ (s.step (.wake i)).pool.tasks = rest ∧
        (s.step (.wake i)).workers[i]? = some (WorkerStatus.running t)) ∧
    (∀ i : Nat, s.workers[i]? = some WorkerStatus.waiting →
      ((s.step (.wake i)).workers[i]? = some WorkerStatus.exited ↔
        (s.pool.stop = true ∧ s.pool.tasks = []))) ∧
    (∀ i : Nat, s.workers[i]? = some WorkerStatus.exited →
      s.pool.stop = true ∧ s.pool.tasks = [] ∧ s.dequeued = s.submitted) ∧
    (0 < threads → (∀ w ∈ s.workers, w = WorkerStatus.exited) →
      s.pool.tasks = [] ∧ s.executed.Perm s.submitted) := by
  obtain ⟨i1, i2, i3, i4, i5⟩ := init_invariant threads
  obtain ⟨h1, h2, h3, _, h5⟩ := run_invariant evs (init threads) i1 i2 i3 i4
  rw [hs] at h1 h2 h3 h5
  rw [i5] at h5
  have hlt : ∀ i : Nat, s.workers[i]? = some WorkerStatus.waiting → i < s.workers.length := by
    intro i hi
    by_contra hn
    rw [List.getElem?_eq_none (by omega)] at hi
    exact absurd hi (by simp)
  refine ⟨h1, ?_, ?_, ?_, ?_⟩
  · intro i t rest hw ht
    rw [(step_wake s i hw).2.2 t rest ht]
    refine ⟨rfl, rfl, ?_⟩
    show (s.workers.set i (WorkerStatus.running t))[i]? = _
    simp [List.getElem?_set, hlt i hw]
  · intro i hw
    obtain ⟨w1, w2, w3⟩ := step_wake s i hw
    constructor
    · intro hex
      cases ht : s.pool.tasks with
      | nil =>
        cases hst : s.pool.stop with
        | false =>
          rw [w1 hst ht, hw] at hex
          exact absurd hex (by simp)
        | true => exact ⟨rfl, rfl⟩
      | cons t rest =>
        rw [w3 t rest ht] at hex
        have : (s.workers.set i (WorkerStatus.running t))[i]? = some WorkerStatus.exited := hex
        simp [List.getElem?_set, hlt i hw] at this
    · rintro ⟨hst, ht⟩
      rw [w2 hst ht]
      show (s.workers.set i WorkerStatus.exited)[i]? = _
      simp [List.getElem?_set, hlt i hw]
  · intro i hi
    obtain ⟨a, b⟩ := h2 i hi
    refine ⟨a, b, ?_⟩
    rw [h1, b, List.append_nil]
  · intro hpos hall
    have h0 : s.workers[0]? = some WorkerStatus.exited := by
      have hl : 0 < s.workers.length := by omega
      rw [List.getElem?_eq_getElem hl]
      exact congrArg some (hall _ (List.getElem_mem hl))
    obtain ⟨_, b⟩ := h2 0 h0
    refine ⟨b, ?_⟩
    rw [in_flight_exited _ hall, List.append_nil] at h3
    rw [h1, b, List.append_nil]
    exact h3.symm

/-- The drain theorem at a pool of two workers: two uploads are submitted, the
shutdown begins while both wait in the queue, a third submission is refused,
and the workers run the two tasks before they exit. -/
theorem pool_drains_on_shutdown_witness :
    (0 < 2 ∧ ∀ w ∈ ((init 2).run
        [.enqueue task_upload, .enqueue { task_upload with client_fd := 6 }, .shutdown,
         .enqueue { task_upload with client_fd := 7 },
         .wake 1, .wake 0, .finish 0 .returned, .wake 0, .finish 1 (.threw true),
         .wake 1]).workers, w = WorkerStatus.exited) ∧
      ((init 2).run
        [.enqueue task_upload, .enqueue { task_upload with client_fd := 6 }, .shutdown,
         .enqueue { task_upload with client_fd := 7 },
         .wake 1, .wake 0, .finish 0 .returned, .wake 0, .finish 1 (.threw true),
         .wake 1]).pool.tasks = [] ∧
      ((init 2).run
        [.enqueue task_upload, .enqueue { task_upload with client_fd := 6 }, .shutdown,
         .enqueue { task_upload with client_fd := 7 },
         .wake 1, .wake 0, .finish 0 .returned, .wake 0, .finish 1 (.threw true),
         .wake 1]).executed.Perm
      ((init 2).run
        [.enqueue task_upload, .enqueue { task_upload with client_fd := 6 }, .shutdown,
         .enqueue { task_upload with client_fd := 7 },
         .wake 1, .wake 0, .finish 0 .returned, .wake 0, .finish 1 (.threw true),
         .wake 1]).submitted :=
  ⟨⟨by decide, by decide⟩,
    (pool_drains_on_shutdown 2 _ _ rfl).2.2.2.2 (by decide) (by decide)⟩

/-- C15: per-task failure isolation. Whatever the task `t` of worker `i` did
(returned, threw a `std::exception`, threw anything else), the packaged task
keeps the failure and the call in the worker loop returns: the worker waits
again and is neither exited nor terminated, the queue, the other workers and
the submitted and dequeued tasks are untouched, `t` counts as executed, and
on its next wake-up the worker takes the head of the queue. -/
theorem task_failure_isolated (s : PoolSystem) (i : Nat) (t : UploadTask) (o : TaskOutcome)
    (h : s.workers[i]? = some (WorkerStatus.running t)) :
    (s.step (.finish i o)).workers[i]? = some WorkerStatus.waiting ∧
    (s.step (.finish i o)).pool = s.pool ∧
    (∀ j : Nat, j ≠ i → (s.step (.finish i o)).workers[j]? = s.workers[j]?) ∧
    (s.step (.finish i o)).executed = s.executed ++ [t] ∧
    (s.step (.finish i o)).dequeued = s.dequeued ∧
    (s.step (.finish i o)).submitted = s.submitted ∧
    (∀ (t2 : UploadTask) (rest : List UploadTask), s.pool.tasks = t2 :: rest →
      ((s.step (.finish i o)).step (.wake i)).workers[i]? = some (WorkerStatus.running t2) ∧
      ((s.step (.finish i o)).step (.wake i)).pool.tasks = rest ∧
      ((s.step (.finish i o)).step (.wake i)).dequeued = s.dequeued ++ [t2]) := by
  have hlt : i < s.workers.length := by
    by_contra hn
    rw [List.getElem?_eq_none (by omega)] at h
    exact absurd h (by simp)
  have hst := step_finish s i t o h
  have hwi : (s.step (.finish i o)).workers[i]? = some WorkerStatus.waiting := by
    rw [hst]
    show (s.workers.set i WorkerStatus.waiting)[i]? = _
    simp [List.getElem?_set, hlt]
  refine ⟨hwi, by rw [hst], ?_, by rw [hst], by rw [hst], by rw [hst], ?_⟩
  · intro j hj
    rw [hst]
    show (s.workers.set i WorkerStatus.waiting)[j]? = _
    simp [List.getElem?_set, Ne.symm hj]
  · intro t2 rest ht
    have ht1 : (s.step (.finish i o)).pool.tasks = t2 :: rest := by rw [hst]; exact ht
    rw [(step_wake _ i hwi).2.2 t2 rest ht1]
    refine ⟨?_, rfl, by rw [hst]⟩
    show ((s.step (.finish i o)).workers.set i (WorkerStatus.running t2))[i]? = _
    have : i < (s.step (.finish i o)).workers.length := by
      rw [step_workers_length]; exact hlt
    simp [List.getElem?_set, this]

/-- The isolation theorem at a worker whose task throws something that is not
a `std::exception`, with one more task in the queue. -/
theorem task_failure_isolated_witness :
    ((init 1).run [.enqueue task_upload, .enqueue { task_upload with client_fd := 6 },
        .wake 0]).workers[0]? = some (WorkerStatus.running task_upload) ∧
      (((init 1).run [.enqueue task_upload, .enqueue { task_upload with client_fd := 6 },
        .wake 0]).step (.finish 0 (.threw false))).workers[0]? = some WorkerStatus.waiting ∧
      (((init 1).run [.enqueue task_upload, .enqueue { task_upload with client_fd := 6 },
        .wake 0]).step (.finish 0 (.threw false))).pool =
        { tasks := [{ task_upload with client_fd := 6 }], stop := false } :=
  ⟨by decide,
    (task_failure_isolated _ 0 task_upload (.threw false) (by decide)).1,
    (task_failure_isolated ((init 1).run [.enqueue task_upload,
       .enqueue { task_upload with client_fd := 6 }, .wake 0]) 0 task_upload (.threw false)
       (by decide)).2.1⟩

end PoolSystem
end ImpServer

namespace ImpServer

/-! ## Admission (C11, C12) -/

set_option maxRecDepth 100000 in
/-- C11 (the code misses the claim): the counter does not follow the
worker-side close. On the run of one upload from the initial server, after the
accept and the dispatch the counter is `1` and handle 5 is the one live
connection; after the worker has run the task and closed handle 5 no accepted
connection is left unclosed, and the counter is still `1`. -/
theorem counter_misses_worker_close :
    (Server.run Server.init (run_one_upload.take 2)).map
        (fun s => (s._current_connections, live_handles s.trace)) = .ok (1, [5]) ∧
    (Server.run Server.init run_one_upload).map
        (fun s => (s._current_connections, live_handles s.trace)) = .ok (1, []) := by
  constructor <;> decide

namespace Server

theorem route_counter (s s1 : Server) (fd : Int) (p : HttpParser) (html : List Nat) (ok : Bool)
    (h : route s fd p html ok = .ok s1) :
    ∃ ext, s1.trace = s.trace ++ ext ∧
      (s1._current_connections = s._current_connections ∨
        (s1._current_connections = s._current_connections - 1 ∧ Effect.close fd ∈ ext)) := by
  unfold route at h
  simp only at h
  split at h
  · split at h
    · injection h with h
      subst h
      exact ⟨_, (List.append_assoc _ _ _ :
          (s.trace ++ _) ++ [Effect.epoll_del fd, Effect.close fd] = _),
        Or.inr ⟨rfl, by simp⟩⟩
    · injection h with h
      subst h
      exact ⟨_, (List.append_assoc _ _ _ :
          (s.trace ++ _) ++ [Effect.epoll_del fd, Effect.close fd] = _),
        Or.inr ⟨rfl, by simp⟩⟩
  · split at h
    · split at h
      · exact absurd h (by simp)
      · injection h with h
        subst h
        exact ⟨_, (List.append_assoc _ _ _ :
            (s.trace ++ [Effect.enqueue _]) ++ [Effect.epoll_del fd] = _), Or.inl rfl⟩
    · injection h with h
      subst h
      exact ⟨_, (List.append_assoc _ _ _ :
          (s.trace ++ _) ++ [Effect.epoll_del fd, Effect.close fd] = _),
        Or.inr ⟨rfl, by simp⟩⟩

theorem handle_client_data_counter (s s1 : Server) (fd : Int) (reads : List RecvResult)
    (html : List Nat) (ok : Bool) (h : handle_client_data s fd reads html ok = .ok s1) :
    ∃ ext, s1.trace = s.trace ++ ext ∧
      (s1._current_connections = s._current_connections ∨
        (s1._current_connections = s._current_connections - 1 ∧ Effect.close fd ∈ ext)) := by
  unfold handle_client_data at h
  split at h
  · exact absurd h (by simp)
  · injection h with h
    subst h
    exact ⟨[Effect.epoll_del fd, Effect.close fd], rfl, Or.inr ⟨rfl, by simp⟩⟩
  · exact absurd h (by simp)
  · simp only at h
    split at h
    · rename_i parser _ _
      exact route_counter (parsers_store s fd parser) s1 fd parser html ok h
    · injection h with h
      subst h
      exact ⟨[], by simp [parsers_store], Or.inl rfl⟩

theorem handle_new_connection_counter (s : Server) (fd : Int) (ok : Bool) :
    ∃ ext, (handle_new_connection s fd ok).trace = s.trace ++ ext ∧
      s._current_connections ≤ (handle_new_connection s fd ok)._current_connections ∧
      (Effect.accept fd ∈ ext ↔ (s._current_connections < MAX_CONNECTIONS ∧ 0 ≤ fd)) := by
  unfold handle_new_connection
  split
  · exact ⟨[], by simp, le_refl _, by simp; omega⟩
  · split
    · exact ⟨[], by simp, le_refl _, by simp; omega⟩
    · simp only
      split
      · exact ⟨[Effect.accept fd, Effect.epoll_add fd], by simp [parsers_insert],
          by simp [parsers_insert], by simp; omega⟩
      · exact ⟨[Effect.accept fd, Effect.close fd], by simp, by simp, by simp; omega⟩

theorem step_counter (s s1 : Server) (e : ServerEvent) (h : s.step e = .ok s1) :
    ∃ ext, s1.trace = s.trace ++ ext ∧
      (s1._current_connections < s._current_connections → ∃ fd, Effect.close fd ∈ ext) := by
  cases e with
  | new_connection fd ok =>
    simp only [step] at h
    injection h with h
    subst h
    obtain ⟨ext, h1, h2, _⟩ := handle_new_connection_counter s fd ok
    exact ⟨ext, h1, fun hlt => absurd hlt (by omega)⟩
  | client_data fd reads html ok =>
    obtain ⟨ext, h1, h2⟩ := handle_client_data_counter s s1 fd reads html ok h
    refine ⟨ext, h1, fun hlt => ?_⟩
    rcases h2 with h2 | h2
    · omega
    · exact ⟨fd, h2.2⟩
  | worker_task r os_send =>
    simp only [step] at h
    injection h with h
    subst h
    unfold worker_task
    split
    · exact ⟨[], by simp, fun hlt => absurd hlt (by omega)⟩
    · exact ⟨_, rfl, fun hlt => absurd hlt (by simp)⟩

theorem run_counter (evs : List ServerEvent) :
    ∀ s s2 : Server, Server.run s evs = .ok s2 →
      ∃ ext, s2.trace = s.trace ++ ext ∧
        (s2._current_connections < s._current_connections → ∃ fd, Effect.close fd ∈ ext) := by
  induction evs with
  | nil =>
    intro s s2 h
    simp only [Server.run] at h
    injection h with h
    subst h
    exact ⟨[], by simp, fun hlt => absurd hlt (by omega)⟩
  | cons e es ih =>
    intro s s2 h
    simp only [Server.run] at h
    cases hst : s.step e with
    | error x =>
      rw [hst] at h
      exact absurd h (by simp [Except.bind])
    | ok s1 =>
      rw [hst] at h
      simp only [Except.bind] at h
      obtain ⟨e1, t1, c1⟩ := step_counter s s1 e hst
      obtain ⟨e2, t2, c2⟩ := ih s1 s2 h
      refine ⟨e1 ++ e2, by rw [t2, t1, List.append_assoc], fun hlt => ?_⟩
      by_cases hc : s1._current_connections < s._current_connections
      · obtain ⟨fd, hfd⟩ := c1 hc
        exact ⟨fd, by simp [hfd]⟩
      · obtain ⟨fd, hfd⟩ := c2 (by omega)
        exact ⟨fd, by simp [hfd]⟩

end Server
end ImpServer

namespace ImpServer

/-- C12: the admission ceiling. With the counter at or above the ceiling
`handle_new_connection` returns the server as it was: nothing accepted,
nothing registered, no parser inserted, the counter unchanged. Below the
ceiling an accept that yields a handle is completed. And when the counter
stood at or above the ceiling in `s`, an accept completed after any further
events finds the counter below the ceiling, and the trace since `s` holds a
close: only `close_connection` lowers the counter. -/
theorem admission_ceiling (s : Server) (fd : Int) (ok : Bool) :
    (MAX_CONNECTIONS ≤ s._current_connections → s.handle_new_connection fd ok = s) ∧
    (s._current_connections < MAX_CONNECTIONS → 0 ≤ fd →
      ∃ ext, (s.handle_new_connection fd ok).trace = s.trace ++ ext ∧ Effect.accept fd ∈ ext) ∧
    (∀ (evs : List ServerEvent) (s2 : Server), MAX_CONNECTIONS ≤ s._current_connections →
      Server.run s evs = .ok s2 → s2.handle_new_connection fd ok ≠ s2 →
        s2._current_connections < MAX_CONNECTIONS ∧
          ∃ ext cfd, s2.trace = s.trace ++ ext ∧ Effect.close cfd ∈ ext) := by
  have hfull : ∀ s0 : Server, MAX_CONNECTIONS ≤ s0._current_connections →
      s0.handle_new_connection fd ok = s0 := by
    intro s0 h
    unfold Server.handle_new_connection
    rw [if_pos h]
  refine ⟨hfull s, ?_, ?_⟩
  · intro hlt hfd
    obtain ⟨ext, h1, _, h3⟩ := Server.handle_new_connection_counter s fd ok
    exact ⟨ext, h1, h3.mpr ⟨hlt, hfd⟩⟩
  · intro evs s2 hge hrun hne
    have hlt : s2._current_connections < MAX_CONNECTIONS := by
      by_contra hn
      exact hne (hfull s2 (by omega))
    obtain ⟨ext, h1, h2⟩ := Server.run_counter evs s s2 hrun
    obtain ⟨cfd, hc⟩ := h2 (by omega)
    exact ⟨hlt, ext, cfd, h1, hc⟩

set_option maxRecDepth 100000 in
/-- The ceiling theorem at a server whose counter stands at the ceiling: the
accept of handle 7 changes nothing, and after connection 5 was closed the
accept is completed. -/
theorem admission_ceiling_witness :
    MAX_CONNECTIONS ≤ ({ server_one with _current_connections := MAX_CONNECTIONS } : Server)._current_connections ∧
      ({ server_one with _current_connections := MAX_CONNECTIONS } : Server).handle_new_connection 7 true =
        { server_one with _current_connections := MAX_CONNECTIONS } ∧
      ∃ ext cfd, (Server.close_connection
          { server_one with _current_connections := MAX_CONNECTIONS } 5).trace =
        ({ server_one with _current_connections := MAX_CONNECTIONS } : Server).trace ++ ext ∧
        Effect.close cfd ∈ ext :=
  ⟨by decide,
    (admission_ceiling { server_one with _current_connections := MAX_CONNECTIONS } 7 true).1
      (by decide),
    ((admission_ceiling { server_one with _current_connections := MAX_CONNECTIONS } 7 true).2.2
      [.client_data 5 [.closed] [] true]
      (Server.close_connection { server_one with _current_connections := MAX_CONNECTIONS } 5)
      (by decide) (by decide) (by decide)).2⟩

end ImpServer

namespace ImpServer

/-! ## Routing and responses (C16, C17) -/

theorem safe_send_ok (fd : Int) (data : List Nat) (ok : Bool) (hfd : 0 ≤ fd) (hd : data ≠ []) :
    safe_send fd data ok = (ok, [Effect.send fd data ok]) := by
  unfold safe_send
  rw [if_neg]
  rintro (h | h)
  · omega
  · exact hd (List.length_eq_zero.mp h)

theorem handle_client_data_ready (s : Server) (fd : Int) (reads : List RecvResult)
    (html : List Nat) (ok : Bool) (parser : HttpParser)
    (hd : Server.drain (s.parser_of fd) reads = .ok (.drained (some parser)))
    (hr : parser.is_request_ready = true) :
    s.handle_client_data fd reads html ok =
      (s.parsers_store fd parser).route fd parser html ok := by
  unfold Server.handle_client_data
  rw [hd]
  simp only [hr, if_true]

/-- C16: routing of a completed request by method and path. When the read
loop of `handle_client_data` on connection `fd` leaves a ready parser:
`GET /` sends the 200 page (the 404 response when the page content is empty),
deregisters and closes the connection; `POST /upload` on a running pool
submits the task and deregisters the handle, with no send and no close, and
leaves the counter; every other pair sends exactly
`HTTP/1.1 404 Not Found\r\nContent-Length: 0\r\n\r\n`, deregisters and
closes. Nothing else of the parser enters but the five fields of the task. -/
theorem routing_by_method_and_path (s : Server) (fd : Int) (reads : List RecvResult)
    (html : List Nat) (ok : Bool) (parser : HttpParser) (hfd : 0 ≤ fd)
    (hd : Server.drain (s.parser_of fd) reads = .ok (.drained (some parser)))
    (hr : parser.is_request_ready = true) :
    (parser.get_method = bytes "GET" → parser.get_path = bytes "/" →
      ∃ s1, s.handle_client_data fd reads html ok = .ok s1 ∧
        s1.trace = s.trace ++
          [Effect.send fd (if html ≠ [] then
              bytes "HTTP/1.1 200 OK\r\nContent-Type: text/html\r\nContent-Length: " ++
                to_string html.length ++ CRLFCRLF ++ html
            else bytes "HTTP/1.1 404 Not Found\r\nContent-Length: 0\r\n\r\n") ok,
           Effect.epoll_del fd, Effect.close fd] ∧
        s1._current_connections = s._current_connections - 1 ∧
        s1._thread_pool = s._thread_pool) ∧
    (parser.get_method = bytes "POST" → parser.get_path = bytes "/upload" →
      s._thread_pool.stop = false →
      ∃ s1, s.handle_client_data fd reads html ok = .ok s1 ∧
        s1.trace = s.trace ++
          [Effect.enqueue { client_fd := fd, image_data := parser.get_image_data,
                            filter := parser.get_filter_type,
                            blur_intensity := parser.get_blur_intensity,
                            sharpen_intensity := parser.get_sharpen_intensity },
           Effect.epoll_del fd] ∧
        s1._current_connections = s._current_connections ∧
        s1._thread_pool.tasks = s._thread_pool.tasks ++
          [{ client_fd := fd, image_data := parser.get_image_data,
             filter := parser.get_filter_type,
             blur_intensity := parser.get_blur_intensity,
             sharpen_intensity := parser.get_sharpen_intensity }]) ∧
    (¬ (parser.get_method = bytes "GET" ∧ parser.get_path = bytes "/") →
      ¬ (parser.get_method = bytes "POST" ∧ parser.get_path = bytes "/upload") →
      ∃ s1, s.handle_client_data fd reads html ok = .ok s1 ∧
        s1.trace = s.trace ++
          [Effect.send fd (bytes "HTTP/1.1 404 Not Found\r\nContent-Length: 0\r\n\r\n") ok,
           Effect.epoll_del fd, Effect.close fd] ∧
        s1._current_connections = s._current_connections - 1 ∧
        s1._thread_pool = s._thread_pool) := by
  rw [handle_client_data_ready s fd reads html ok parser hd hr]
  refine ⟨?_, ?_, ?_⟩
  · intro hm hp
    unfold Server.route
    simp only [hm, hp, and_self, if_true]
    by_cases hh : html ≠ []
    · rw [if_pos hh, if_pos hh, safe_send_ok fd _ ok hfd (by simp [bytes])]
      exact ⟨_, rfl, by simp [Server.close_connection, Server.parsers_erase, Server.parsers_store],
        rfl, rfl⟩
    · rw [if_neg hh, if_neg hh, safe_send_ok fd _ ok hfd (by decide)]
      exact ⟨_, rfl, by simp [Server.close_connection, Server.parsers_erase,
        Server.parsers_store, Server.response_404], rfl, rfl⟩
  · intro hm hp hstop
    have hne : ¬ (bytes "/upload" = bytes "/" ∧ bytes "POST" = bytes "GET") := by decide
    unfold Server.route
    simp only [hm, hp]
    rw [if_neg hne]
    simp only [and_self, if_true]
    have he : ∀ t, (s.parsers_store fd parser)._thread_pool.enqueue t =
        .ok { s._thread_pool with tasks := s._thread_pool.tasks ++ [t] } := by
      intro t
      show s._thread_pool.enqueue t = _
      simp [ThreadPool.enqueue, hstop]
    rw [he]
    exact ⟨_, rfl, by simp [Server.parsers_erase, Server.parsers_store], rfl, rfl⟩
  · intro h1 h2
    unfold Server.route
    simp only
    rw [if_neg (fun h => h1 ⟨h.2, h.1⟩), if_neg (fun h => h2 ⟨h.2, h.1⟩)]
    exact ⟨_, rfl, by simp [Server.close_connection, Server.parsers_erase,
      Server.parsers_store, Server.response_404], rfl, rfl⟩

end ImpServer

namespace ImpServer

set_option maxRecDepth 100000 in
/-- The routing theorem at `GET /missing` on connection 5 of a server with
that one connection: the 404 response, the deregistration and the close. -/
theorem routing_by_method_and_path_witness :
    Server.drain (server_one.parser_of 5)
        [.data (bytes "GET /missing HTTP/1.1\r\n\r\n"), .would_block] =
      .ok (.drained (some { HttpParser.new with _state := .COMPLETE, _method := bytes "GET",
                                                _path := bytes "/missing" })) ∧
    ∃ s1, server_one.handle_client_data 5
        [.data (bytes "GET /missing HTTP/1.1\r\n\r\n"), .would_block] (bytes "<p>") true =
          .ok s1 ∧
      s1.trace = server_one.trace ++
        [Effect.send 5 (bytes "HTTP/1.1 404 Not Found\r\nContent-Length: 0\r\n\r\n") true,
         Effect.epoll_del 5, Effect.close 5] ∧
      s1._current_connections = server_one._current_connections - 1 ∧
      s1._thread_pool = server_one._thread_pool :=
  ⟨by decide,
    (routing_by_method_and_path server_one 5
      [.data (bytes "GET /missing HTTP/1.1\r\n\r\n"), .would_block] (bytes "<p>") true
      { HttpParser.new with _state := .COMPLETE, _method := bytes "GET",
                            _path := bytes "/missing" }
      (by decide) (by decide) (by decide)).2.2 (by decide) (by decide)⟩

end ImpServer

namespace ImpServer

theorem http_response_two (st k1 v1 k2 v2 body : List Nat) :
    http_response st [(k1, v1), (k2, v2)] body =
      bytes "HTTP/1.1 " ++ st ++ CRLF ++ k1 ++ [58, 32] ++ v1 ++ CRLF ++ k2 ++ [58, 32] ++ v2 ++
        CRLFCRLF ++ body := by
  simp [http_response, HttpParser.header_block, HttpParser.header_lines, header_line_of, CRLF,
    CRLFCRLF]

theorem response_content_length_last (hs : List (List Nat × List Nat)) (n : Nat)
    (h : n < 2 ^ 64) :
    response_content_length (hs ++ [(bytes "Content-Length", to_string n)]) = n := by
  unfold response_content_length length_of_headers
  have hr : record_headers [] (hs ++ [(bytes "Content-Length", to_string n)]) =
      map_set (record_headers [] hs) (bytes "Content-Length") (to_string n) := by
    simp [record_headers, List.foldl_append]
  rw [hr, map_count_set, map_get_set]
  simp [stoul_to_string n h]

/-- C17: response framing. Each response is `HTTP/1.1 <status>`, the header
lines, the empty line and the body, and its `Content-Length` line reads back
as the number of body bytes: the 200 page response of `GET /`, the 404
response, the 200 upload response (the head with the content type of the
Image Service in a first send and the image in a second one, which is left
out when the first send fails or the image is empty) and the 500 response
with the diagnostic text as `text/plain`. -/
theorem response_framing (s : Server) (parser : HttpParser) (t : UploadTask)
    (html img ct : List Nat) (ok : Bool) (os_send : Nat → Bool)
    (hfd : 0 ≤ t.client_fd) (hh : html.length < 2 ^ 64) (hi : img.length < 2 ^ 64) :
    (parser.get_method = bytes "GET" → parser.get_path = bytes "/" → html ≠ [] →
      s.route t.client_fd parser html ok = .ok (Server.close_connection
        { s with trace := s.trace ++ [Effect.send t.client_fd
            (http_response (bytes "200 OK")
              [(bytes "Content-Type", bytes "text/html"),
               (bytes "Content-Length", to_string html.length)] html) ok] } t.client_fd)) ∧
    response_content_length [(bytes "Content-Type", bytes "text/html"),
      (bytes "Content-Length", to_string html.length)] = html.length ∧
    Server.response_404 =
      http_response (bytes "404 Not Found") [(bytes "Content-Length", to_string 0)] [] ∧
    response_content_length [(bytes "Content-Length", to_string 0)] = 0 ∧
    upload_task_body t (.returned true img ct) os_send =
      Effect.send t.client_fd (http_response (bytes "200 OK")
          [(bytes "Content-Type", ct), (bytes "Content-Length", to_string img.length)] [])
          (os_send 0) ::
        (if os_send 0 = true ∧ img ≠ [] then [Effect.send t.client_fd img (os_send 1)]
         else []) ∧
    http_response (bytes "200 OK")
        [(bytes "Content-Type", ct), (bytes "Content-Length", to_string img.length)] [] ++ img =
      http_response (bytes "200 OK")
        [(bytes "Content-Type", ct), (bytes "Content-Length", to_string img.length)] img ∧
    response_content_length [(bytes "Content-Type", ct),
      (bytes "Content-Length", to_string img.length)] = img.length ∧
    upload_task_body t (.returned false img ct) os_send =
      [Effect.send t.client_fd (http_response (bytes "500 Internal Server Error")
          [(bytes "Content-Type", bytes "text/plain"),
           (bytes "Content-Length", to_string error_msg.length)] error_msg) (os_send 0)] ∧
    response_content_length [(bytes "Content-Type", bytes "text/plain"),
      (bytes "Content-Length", to_string error_msg.length)] = error_msg.length := by
  have e200 : bytes "HTTP/1.1 200 OK\r\nContent-Type: " =
      bytes "HTTP/1.1 " ++ bytes "200 OK" ++ CRLF ++ bytes "Content-Type" ++ [58, 32] := by
    decide
  have ecl : bytes "\r\nContent-Length: " = CRLF ++ bytes "Content-Length" ++ [58, 32] := by
    decide
  have epage : bytes "HTTP/1.1 200 OK\r\nContent-Type: text/html\r\nContent-Length: " =
      bytes "HTTP/1.1 " ++ bytes "200 OK" ++ CRLF ++ bytes "Content-Type" ++ [58, 32] ++
        bytes "text/html" ++ CRLF ++ bytes "Content-Length" ++ [58, 32] := by
    decide
  have e500 : bytes "HTTP/1.1 500 Internal Server Error\r\nContent-Type: text/plain\r\nContent-Length: " =
      bytes "HTTP/1.1 " ++ bytes "500 Internal Server Error" ++ CRLF ++ bytes "Content-Type" ++
        [58, 32] ++ bytes "text/plain" ++ CRLF ++ bytes "Content-Length" ++ [58, 32] := by
    decide
  refine ⟨?_, response_content_length_last [_] _ hh, by decide,
    response_content_length_last [] 0 (by decide), ?_, ?_,
    response_content_length_last [_] _ hi, ?_,
    response_content_length_last [_] _ (by decide)⟩
  · intro hm hp hhtml
    unfold Server.route
    simp only [hm, hp, and_self, if_true]
    rw [if_pos hhtml, http_response_two, ← epage]
    rw [safe_send_ok t.client_fd _ ok hfd (by simp [bytes])]
  · have hhead : bytes "HTTP/1.1 200 OK\r\nContent-Type: " ++ ct ++ bytes "\r\nContent-Length: " ++
          to_string img.length ++ CRLFCRLF =
        http_response (bytes "200 OK")
          [(bytes "Content-Type", ct), (bytes "Content-Length", to_string img.length)] [] := by
      rw [http_response_two, e200, ecl]
      simp only [List.append_assoc, List.append_nil]
    have hnil : http_response (bytes "200 OK")
        [(bytes "Content-Type", ct), (bytes "Content-Length", to_string img.length)] [] ≠ [] := by
      rw [http_response_two]
      simp [bytes]
    unfold upload_task_body
    simp only [if_true]
    rw [hhead, safe_send_ok t.client_fd _ (os_send 0) hfd hnil]
    cases h0 : os_send 0 with
    | false => simp
    | true =>
      by_cases himg : img = []
      · simp [himg, safe_send]
      · simp [himg, safe_send_ok t.client_fd img (os_send 1) hfd himg]
  · rw [http_response_two, http_response_two]
    simp only [List.append_assoc, List.append_nil]
  · unfold upload_task_body
    simp only [Bool.false_eq_true, if_false]
    rw [http_response_two, ← e500]
    rw [safe_send_ok t.client_fd _ (os_send 0) hfd (by simp [bytes])]

end ImpServer

namespace ImpServer

/-- The framing theorem at the upload task of connection 5 with a processed
image of three bytes, and at a page of three bytes. -/
theorem response_framing_witness :
    (0 ≤ task_upload.client_fd ∧ (bytes "<p>").length < 2 ^ 64 ∧ (bytes "JPG").length < 2 ^ 64) ∧
    upload_task_body task_upload (.returned true (bytes "JPG") (bytes "image/jpeg"))
        (fun _ => true) =
      [Effect.send 5 (http_response (bytes "200 OK")
          [(bytes "Content-Type", bytes "image/jpeg"),
           (bytes "Content-Length", to_string (bytes "JPG").length)] []) true,
       Effect.send 5 (bytes "JPG") true] ∧
    response_content_length [(bytes "Content-Type", bytes "image/jpeg"),
      (bytes "Content-Length", to_string (bytes "JPG").length)] = (bytes "JPG").length ∧
    response_content_length [(bytes "Content-Type", bytes "text/html"),
      (bytes "Content-Length", to_string (bytes "<p>").length)] = (bytes "<p>").length :=
  ⟨⟨by decide, by decide, by decide⟩,
    (response_framing server_one HttpParser.new task_upload (bytes "<p>") (bytes "JPG")
      (bytes "image/jpeg") true (fun _ => true) (by decide) (by decide) (by decide)).2.2.2.2.1,
    (response_framing server_one HttpParser.new task_upload (bytes "<p>") (bytes "JPG")
      (bytes "image/jpeg") true (fun _ => true) (by decide) (by decide) (by decide)).2.2.2.2.2.2.1,
    (response_framing server_one HttpParser.new task_upload (bytes "<p>") (bytes "JPG")
      (bytes "image/jpeg") true (fun _ => true) (by decide) (by decide) (by decide)).2.1⟩

end ImpServer

namespace ImpServer

/-! ## Reset, configuration and blur (C23, C24, C30) -/

namespace HttpParser

/-- C23: `reset` restores the initial state. For every parser `p`, `reset p`
is the freshly constructed parser: state `METHOD`, declared length `0`, every
buffer and field empty. Hence `reset` is idempotent, and each call and each
sequence of calls after a `reset` gives what it gives on a fresh parser. -/
theorem reset_restores_initial (p : HttpParser) :
    p.reset = new ∧
    (new._state = .METHOD ∧ new._content_length = 0 ∧ new._buffer = [] ∧ new._method = [] ∧
      new._path = [] ∧ new._headers = [] ∧ new._body = [] ∧ new._boundary = [] ∧
      new._image_data = [] ∧ new._filter_type = [] ∧ new._image_uuid = [] ∧
      new._blur_intensity = [] ∧ new._sharpen_intensity = []) ∧
    p.reset.reset = p.reset ∧
    (∀ data, parse p.reset data = parse new data) ∧
    (∀ cs, feed p.reset cs = feed new cs) := by
  have h : p.reset = new := rfl
  refine ⟨h, ⟨rfl, rfl, rfl, rfl, rfl, rfl, rfl, rfl, rfl, rfl, rfl, rfl, rfl⟩, rfl, ?_, ?_⟩
  · intro data; rw [h]
  · intro cs; rw [h]

end HttpParser

/-- C24 (the code misses the claim): the ceiling is not the configured one.
Without a loaded configuration `getMaxConnections` is `1000`, and with the
entry `max_connections = 2` it is `2`; the ceiling of `handle_new_connection`
is `1000000` in both cases, and the server that `main` constructs from the
configuration completes an accept with the counter at the configured
ceiling. -/
theorem ceiling_ignores_configuration :
    ({ config_loaded_ := false, server_max_connections := none } : ConfigManager).getMaxConnections
        = 1000 ∧
    ({ config_loaded_ := true, server_max_connections := some 2 } : ConfigManager).getMaxConnections
        = 2 ∧
    MAX_CONNECTIONS = 1000000 ∧
    ((({ Server.of_config { config_loaded_ := false, server_max_connections := none } with
          _current_connections := 1000 } : Server).handle_new_connection 7 true).trace =
        [Effect.accept 7, Effect.epoll_add 7]) ∧
    ((({ Server.of_config { config_loaded_ := true, server_max_connections := some 2 } with
          _current_connections := 2 } : Server).handle_new_connection 7 true).trace =
        [Effect.accept 7, Effect.epoll_add 7]) ∧
    ((({ Server.of_config { config_loaded_ := true, server_max_connections := some 2 } with
          _current_connections := 2 } : Server).handle_new_connection 7 true)._current_connections
        = 3) := by
  refine ⟨by decide, by decide, rfl, by decide, by decide, by decide⟩

/-- C30: the blur kernel size is always valid. For every `blur_intensity`
string the size passed to the Gaussian blur is odd and lies in `3..51`. It is
`15` for the empty string and whenever `std::stoi` throws (`invalid_argument`
without a leading integer, `out_of_range` for a number that is no `int`);
otherwise it is the parsed integer clamped to `[3, 51]` and raised by one
when even. -/
theorem blur_kernel_size_valid (blur_intensity : List Nat) :
    blur_size blur_intensity % 2 = 1 ∧ 3 ≤ blur_size blur_intensity ∧
    blur_size blur_intensity ≤ 51 ∧
    (blur_intensity = [] → blur_size blur_intensity = 15) ∧
    (∀ e, stoi blur_intensity = .error e → blur_size blur_intensity = 15) ∧
    (∀ v, blur_intensity ≠ [] → stoi blur_intensity = .ok v →
      blur_size blur_intensity =
        if min 51 (max 3 v) % 2 = 0 then min 51 (max 3 v) + 1 else min 51 (max 3 v)) := by
  have hval : ∀ v : Int, blur_intensity ≠ [] → stoi blur_intensity = .ok v →
      blur_size blur_intensity =
        if min 51 (max 3 v) % 2 = 0 then min 51 (max 3 v) + 1 else min 51 (max 3 v) := by
    intro v hne hv
    unfold blur_size
    rw [if_pos hne, hv]
    simp only
    have e1 : (if v < 3 then (3 : Int) else v) = max 3 v := by
      split <;> omega
    rw [e1]
    have e2 : (if 51 < max 3 v then (51 : Int) else max 3 v) = min 51 (max 3 v) := by
      split <;> omega
    rw [e2]
  have herr : ∀ e, stoi blur_intensity = .error e → blur_size blur_intensity = 15 := by
    intro e he
    unfold blur_size
    split
    · rw [he]
    · rfl
  have hnil : blur_intensity = [] → blur_size blur_intensity = 15 := by
    intro h
    simp [blur_size, h]
  have hall : blur_size blur_intensity % 2 = 1 ∧ 3 ≤ blur_size blur_intensity ∧
      blur_size blur_intensity ≤ 51 := by
    by_cases hne : blur_intensity = []
    · rw [hnil hne]; decide
    · cases hs : stoi blur_intensity with
      | error e => rw [herr e hs]; decide
      | ok v =>
        rw [hval v hne hs]
        split <;> omega
  exact ⟨hall.1, hall.2.1, hall.2.2, hnil, herr, hval⟩

/-- The kernel theorem at the strings `"8"`, `"-4"`, `"77 px"`, `"abc"` and
`"99999999999"`. -/
theorem blur_kernel_size_valid_witness :
    (bytes "8" ≠ [] ∧ stoi (bytes "8") = .ok 8 ∧ blur_size (bytes "8") = 9) ∧
    blur_size (bytes "-4") = 3 ∧ blur_size (bytes "77 px") = 51 ∧
    (stoi (bytes "abc") = .error .invalid_argument ∧ blur_size (bytes "abc") = 15) ∧
    (stoi (bytes "99999999999") = .error .out_of_range ∧
      blur_size (bytes "99999999999") = 15) :=
  ⟨⟨by decide, by decide,
      ((blur_kernel_size_valid (bytes "8")).2.2.2.2.2 8 (by decide) (by decide)).trans
        (by decide)⟩,
    by decide, by decide,
    ⟨by decide, (blur_kernel_size_valid (bytes "abc")).2.2.2.2.1 .invalid_argument (by decide)⟩,
    ⟨by decide, (blur_kernel_size_valid (bytes "99999999999")).2.2.2.2.1 .out_of_range (by decide)⟩⟩

end ImpServer

namespace ImpServer
namespace Logger

/-! ## The logger (C25) -/

theorem log_dropped (lg : Logger) (level : LogLevel) (message file now : List Nat) (line : Int)
    (h : level.value < lg.current_level_.value) : lg.log level message file line now = lg := by
  unfold log
  rw [if_pos h]

theorem log_emitted (lg : Logger) (level : LogLevel) (message file now : List Nat) (line : Int)
    (h : lg.current_level_.value ≤ level.value) :
    lg.log level message file line now =
      { lg with
        console := lg.console ++
          (if lg.enable_console_ then [formatted_message level message file line now] else []),
        log_queue_ := lg.log_queue_ ++
          (if lg.enable_file_ then [formatted_message level message file line now] else []) } := by
  unfold log
  rw [if_neg (by omega)]
  obtain ⟨lv, c, f, out, q⟩ := lg
  cases c <;> cases f <;> simp

theorem setLevel_string_level (lg : Logger) (name : List Nat) :
    lg.setLevel_string name =
      { lg with current_level_ :=
          if name.map toupper = bytes "DEBUG" then .DEBUG
          else if name.map toupper = bytes "INFO" then .INFO
          else if name.map toupper = bytes "ERROR" then .ERROR
          else .INFO } := by
  unfold setLevel_string
  simp only
  split
  · rfl
  · split
    · rfl
    · split <;> rfl

/-- C25: level filtering of the logger. `log` leaves the logger untouched
when the level is below the current one, and otherwise appends the composed
line, which ends with the message, to the console output if the console is
enabled and to the queue of the log file if the file is enabled; so it
changes a sink exactly when the level is at least the current one and a sink
is enabled. The order is `DEBUG < INFO < ERROR`. After `setLevel("INFO")` a
`DEBUG` message is dropped and `INFO` and `ERROR` messages are emitted.
`setLevel(string)` looks only at the upper-cased name, gives the level of the
three names and `INFO` for every other name, and touches no sink. -/
theorem logger_level_filter (lg : Logger) (level : LogLevel) (message file now : List Nat)
    (line : Int) (name name2 : List Nat) :
    (level.value < lg.current_level_.value → lg.log level message file line now = lg) ∧
    (lg.current_level_.value ≤ level.value →
      (lg.log level message file line now).console = lg.console ++
        (if lg.enable_console_ then [formatted_message level message file line now] else []) ∧
      (lg.log level message file line now).log_queue_ = lg.log_queue_ ++
        (if lg.enable_file_ then [formatted_message level message file line now] else []) ∧
      message <:+ formatted_message level message file line now) ∧
    (lg.log level message file line now ≠ lg ↔
      (lg.current_level_.value ≤ level.value ∧
        (lg.enable_console_ = true ∨ lg.enable_file_ = true))) ∧
    (LogLevel.DEBUG.value < LogLevel.INFO.value ∧ LogLevel.INFO.value < LogLevel.ERROR.value) ∧
    ((lg.setLevel_string (bytes "INFO")).log .DEBUG message file line now =
      lg.setLevel_string (bytes "INFO")) ∧
    (level ≠ .DEBUG →
      ((lg.setLevel_string (bytes "INFO")).log level message file line now).console =
        lg.console ++
          (if lg.enable_console_ then [formatted_message level message file line now] else []) ∧
      ((lg.setLevel_string (bytes "INFO")).log level message file line now).log_queue_ =
        lg.log_queue_ ++
          (if lg.enable_file_ then [formatted_message level message file line now] else [])) ∧
    (name.map toupper = bytes "DEBUG" → (lg.setLevel_string name).current_level_ = .DEBUG) ∧
    (name.map toupper = bytes "INFO" → (lg.setLevel_string name).current_level_ = .INFO) ∧
    (name.map toupper = bytes "ERROR" → (lg.setLevel_string name).current_level_ = .ERROR) ∧
    (name.map toupper ≠ bytes "DEBUG" → name.map toupper ≠ bytes "INFO" →
      name.map toupper ≠ bytes "ERROR" → (lg.setLevel_string name).current_level_ = .INFO) ∧
    (name.map toupper = name2.map toupper → lg.setLevel_string name = lg.setLevel_string name2) ∧
    ((lg.setLevel_string name).console = lg.console ∧
      (lg.setLevel_string name).log_queue_ = lg.log_queue_ ∧
      (lg.setLevel_string name).enable_console_ = lg.enable_console_ ∧
      (lg.setLevel_string name).enable_file_ = lg.enable_file_) := by
  have hinfo : lg.setLevel_string (bytes "INFO") = { lg with current_level_ := .INFO } := by
    rw [setLevel_string_level]
    have h1 : (bytes "INFO").map toupper ≠ bytes "DEBUG" := by decide
    have h2 : (bytes "INFO").map toupper = bytes "INFO" := by decide
    rw [if_neg h1, if_pos h2]
  refine ⟨log_dropped lg level message file now line, ?_, ?_, by decide, ?_, ?_, ?_, ?_, ?_, ?_,
    ?_, ?_⟩
  · intro h
    rw [log_emitted lg level message file now line h]
    refine ⟨rfl, rfl, ?_⟩
    unfold formatted_message
    exact List.suffix_append _ _
  · constructor
    · intro hne
      by_cases h : level.value < lg.current_level_.value
      · exact absurd (log_dropped lg level message file now line h) hne
      · refine ⟨by omega, ?_⟩
        by_contra hno
        have hc : lg.enable_console_ = false := by
          cases hc : lg.enable_console_
          · rfl
          · exact absurd (Or.inl hc) hno
        have hf : lg.enable_file_ = false := by
          cases hf : lg.enable_file_
          · rfl
          · exact absurd (Or.inr hf) hno
        apply hne
        rw [log_emitted lg level message file now line (by omega), hc, hf]
        obtain ⟨lv, c, f, out, q⟩ := lg
        simp only at hc hf
        simp [hc, hf]
    · rintro ⟨h, hs⟩ heq
      have h2 := log_emitted lg level message file now line h
      rw [heq] at h2
      rcases hs with hs | hs
      · have := congrArg Logger.console h2
        simp [hs] at this
      · have := congrArg Logger.log_queue_ h2
        simp [hs] at this
  · rw [hinfo]
    exact log_dropped _ _ _ _ _ _ (show LogLevel.DEBUG.value < LogLevel.INFO.value by decide)
  · intro hl
    rw [hinfo]
    have : LogLevel.INFO.value ≤ level.value := by
      cases level
      · exact absurd rfl hl
      · decide
      · decide
    rw [log_emitted _ level message file now line this]
    exact ⟨rfl, rfl⟩
  · intro h
    rw [setLevel_string_level, if_pos h]
  · intro h
    have h1 : name.map toupper ≠ bytes "DEBUG" := by rw [h]; decide
    rw [setLevel_string_level, if_neg h1, if_pos h]
  · intro h
    have h1 : name.map toupper ≠ bytes "DEBUG" := by rw [h]; decide
    have h2 : name.map toupper ≠ bytes "INFO" := by rw [h]; decide
    rw [setLevel_string_level, if_neg h1, if_neg h2, if_pos h]
  · intro h1 h2 h3
    rw [setLevel_string_level, if_neg h1, if_neg h2, if_neg h3]
  · intro h
    rw [setLevel_string_level, setLevel_string_level, h]
  · rw [setLevel_string_level]
    exact ⟨rfl, rfl, rfl, rfl⟩

/-- The filter theorem at a console logger whose level is set by the name
`info`: the `DEBUG` message is dropped, the `ERROR` message is written. -/
theorem logger_level_filter_witness :
    (bytes "info").map toupper = bytes "INFO" ∧
    (console_only.setLevel_string (bytes "info")).current_level_ = .INFO ∧
    (console_only.setLevel_string (bytes "INFO")).log .DEBUG (bytes "d") [] 0 (bytes "t") =
      console_only.setLevel_string (bytes "INFO") ∧
    ((console_only.setLevel_string (bytes "INFO")).log .ERROR (bytes "e") [] 0
        (bytes "t")).console = [bytes "[t] [ERROR] e"] :=
  ⟨by decide,
    (logger_level_filter console_only .DEBUG [] [] [] 0 (bytes "info") []).2.2.2.2.2.2.2.1
      (by decide),
    (logger_level_filter console_only .DEBUG (bytes "d") [] (bytes "t") 0 [] []).2.2.2.2.1,
    ((logger_level_filter console_only .ERROR (bytes "e") [] (bytes "t") 0 [] []).2.2.2.2.2.1
      (by decide)).1.trans (by decide)⟩

end Logger
end ImpServer

namespace ImpServer

/-! ## Header names and the peer close (C28, C29) -/

theorem last_value_none (kvs : List (List Nat × List Nat)) (k : List Nat)
    (h : ∀ kv ∈ kvs, kv.1 ≠ k) : last_value kvs k = none := by
  unfold last_value
  rw [Option.map_eq_none', List.find?_eq_none]
  intro kv hkv
  have := h kv (List.mem_reverse.mp hkv)
  simpa using this

namespace HttpParser

/-- A header block that declares no body length completes in every
chunking, with the five extracted fields empty. -/
theorem feed_zero_length (cs : List (List Nat)) (q0 : HttpParser)
    (h : parsed_header cs.flatten = some q0) (hz : q0._content_length = 0) :
    ∃ q, feed new cs = .ok q ∧ q.is_request_ready = true ∧ q._content_length = 0 ∧
      q.get_image_data = [] ∧ q.get_filter_type = [] ∧ q.get_image_uuid = [] ∧
      q.get_blur_intensity = [] ∧ q.get_sharpen_intensity = [] := by
  have hfresh := parsed_header_fresh _ _ h
  have hfa := feed_awaiting cs [] (by decide)
  simp only [List.nil_append] at hfa
  have hn : awaiting [] = new := rfl
  rw [hn] at hfa
  obtain ⟨hp, _⟩ := parse_new_parsed _ q0 h
  have hc := after_headers_complete q0 (body_bytes cs.flatten) (by omega)
  rw [hp, check_body_complete_short _ (Or.inl (by rw [hc]; simp))] at hfa
  obtain ⟨body, hb, _⟩ := same_upto_body_ok _ _ hfa
  refine ⟨_, hb, ?_, hz, hfresh.2.2.1, hfresh.2.2.2.1, hfresh.2.2.2.2.1,
    hfresh.2.2.2.2.2.1, hfresh.2.2.2.2.2.2.1⟩
  show ((after_headers q0 (body_bytes cs.flatten))._state == ParseState.COMPLETE) = true
  rw [hc]; rfl

/-- C28: header names are matched exactly. For a well-formed header block in
which no line has the key `Content-Length` in exactly this spelling (so also
with `content-length: 10`), the declared length is `0`: in every chunking of
the stream the calls return a ready parser with declared length `0` and the
five extracted fields empty, whatever bytes follow the header block. And when
no line has the key `Content-Type` in exactly this spelling, no boundary is
taken. -/
theorem header_names_case_sensitive (m p v post : List Nat)
    (kvs : List (List Nat × List Nat))
    (hm : 32 ∉ m ∧ 13 ∉ m) (hp : 32 ∉ p ∧ 13 ∉ p) (hv : 13 ∉ v)
    (hk : ∀ kv ∈ kvs, 58 ∉ kv.1 ∧ 13 ∉ kv.1 ∧ 13 ∉ kv.2) :
    ((∀ kv ∈ kvs, kv.1 ≠ bytes "Content-Length") →
      declared_length (header_block (request_line m p v) (kvs.map header_line_of) post)
          = some 0 ∧
      ∀ cs : List (List Nat),
        cs.flatten = header_block (request_line m p v) (kvs.map header_line_of) post →
        ∃ q, feed new cs = .ok q ∧ q.is_request_ready = true ∧ q._content_length = 0 ∧
          q.get_image_data = [] ∧ q.get_filter_type = [] ∧ q.get_image_uuid = [] ∧
          q.get_blur_intensity = [] ∧ q.get_sharpen_intensity = []) ∧
    ((∀ kv ∈ kvs, kv.1 ≠ bytes "Content-Type") →
      declared_boundary (header_block (request_line m p v) (kvs.map header_line_of) post)
          = some []) := by
  obtain ⟨hph, _⟩ := parsed_header_block m p v post kvs hm hp hv hk
  have hcount : ∀ k, (∀ kv ∈ kvs, kv.1 ≠ k) → map_count (record_headers [] kvs) k = false := by
    intro k hno
    rw [(record_headers_lookup kvs [] k).1, last_value_none kvs k hno]
    rfl
  constructor
  · intro hno
    have hz : length_of_headers (record_headers [] kvs) = 0 := by
      unfold length_of_headers
      rw [hcount _ hno]
      rfl
    constructor
    · unfold declared_length
      rw [hph]
      exact congrArg some hz
    · intro cs hcs
      rw [← hcs] at hph
      exact feed_zero_length cs _ hph hz
  · intro hno
    have hz : boundary_of_headers (record_headers [] kvs) = [] := by
      unfold boundary_of_headers
      rw [hcount _ hno]
      rfl
    unfold declared_boundary
    rw [hph]
    exact congrArg some hz

/-- The header-name theorem at an upload with the line `content-length: 33`
and a well-formed multipart body of 33 bytes, fed in two chunks. -/
theorem header_names_case_sensitive_witness :
    [request_lower_case.take 100, request_lower_case.drop 100].flatten =
      header_block (request_line (bytes "POST") (bytes "/upload") (bytes "HTTP/1.1"))
        ([(bytes "Content-Type", bytes "multipart/form-data; boundary=X"),
          (bytes "content-length", bytes "33")].map header_line_of) body_filter_blur ∧
    ∃ q, feed new [request_lower_case.take 100, request_lower_case.drop 100] = .ok q ∧
      q.is_request_ready = true ∧ q._content_length = 0 ∧
      q.get_image_data = [] ∧ q.get_filter_type = [] ∧ q.get_image_uuid = [] ∧
      q.get_blur_intensity = [] ∧ q.get_sharpen_intensity = [] :=
  ⟨by decide,
    ((header_names_case_sensitive (bytes "POST") (bytes "/upload") (bytes "HTTP/1.1")
      body_filter_blur
      [(bytes "Content-Type", bytes "multipart/form-data; boundary=X"),
        (bytes "content-length", bytes "33")]
      (by decide) (by decide) (by decide) (by decide)).1 (by decide)).2 _ (by decide)⟩

end HttpParser

namespace Server

theorem drain_teardown (chunks : List (List Nat)) :
    ∀ (p q : HttpParser) (r : RecvResult) (rest : List RecvResult),
      (∀ c ∈ chunks, c ≠ []) → HttpParser.feed p chunks = .ok q →
      (r = .closed ∨ r = .error) →
      drain (some p) (chunks.map RecvResult.data ++ r :: rest) = .ok .teardown := by
  induction chunks with
  | nil =>
    intro p q r rest _ _ hr
    rcases hr with hr | hr <;> subst hr <;> rfl
  | cons c cs ih =>
    intro p q r rest hne hfeed hr
    have hc : c ≠ [] := hne c (by simp)
    simp only [List.map_cons, List.cons_append, drain, if_neg hc]
    simp only [HttpParser.feed] at hfeed
    cases hp : HttpParser.parse p c with
    | error e =>
      rw [hp] at hfeed
      exact absurd hfeed (by simp)
    | ok p1 =>
      rw [hp] at hfeed
      exact ih p1 q r rest (fun x hx => hne x (by simp [hx])) hfeed hr

theorem parser_of_close (s : Server) (fd : Int) : (s.close_connection fd).parser_of fd = none := by
  unfold parser_of close_connection parsers_erase
  simp only [Option.map_eq_none', List.find?_eq_none]
  intro e he
  have := (List.mem_filter.mp he).2
  simpa using this

end Server

/-- C29: a peer close pre-empts routing. When the reads of one call of
`handle_client_data` deliver chunks that the parser takes (also the last
bytes of a request, which make it complete) and then a 0-byte read or a read
error other than would-block, the call returns the server after
`close_connection`: the handle is deregistered and closed, its parser is
removed from the registry, the counter is one lower; nothing is sent and the
pool is as before, so no task was submitted. -/
theorem peer_close_preempts_routing (s : Server) (fd : Int) (chunks : List (List Nat))
    (p q : HttpParser) (r : RecvResult) (rest : List RecvResult) (html : List Nat) (ok : Bool)
    (hp : s.parser_of fd = some p) (hne : ∀ c ∈ chunks, c ≠ [])
    (hfeed : HttpParser.feed p chunks = .ok q) (hr : r = .closed ∨ r = .error) :
    s.handle_client_data fd (chunks.map RecvResult.data ++ r :: rest) html ok =
      .ok (s.close_connection fd) ∧
    (s.close_connection fd).trace = s.trace ++ [Effect.epoll_del fd, Effect.close fd] ∧
    (s.close_connection fd)._current_connections = s._current_connections - 1 ∧
    (s.close_connection fd).parser_of fd = none ∧
    (s.close_connection fd)._thread_pool = s._thread_pool := by
  refine ⟨?_, rfl, rfl, Server.parser_of_close s fd, rfl⟩
  unfold Server.handle_client_data
  rw [hp, Server.drain_teardown chunks p q r rest hne hfeed hr]

set_option maxRecDepth 100000 in
/-- The peer-close theorem at connection 5: the reads deliver a complete
`GET /` request in two chunks and then the 0-byte read. -/
theorem peer_close_preempts_routing_witness :
    (∃ q, HttpParser.feed HttpParser.new [bytes "GET / HTTP/1.1\r\n", bytes "\r\n"] = .ok q ∧
      q.is_request_ready = true) ∧
    server_one.handle_client_data 5
        [.data (bytes "GET / HTTP/1.1\r\n"), .data (bytes "\r\n"), .closed, .would_block]
        (bytes "<p>") true = .ok (server_one.close_connection 5) ∧
    (server_one.close_connection 5).trace = [Effect.epoll_del 5, Effect.close 5] :=
  ⟨⟨{ HttpParser.new with _state := .COMPLETE, _method := bytes "GET", _path := bytes "/" },
      by decide, by decide⟩,
    (peer_close_preempts_routing server_one 5 [bytes "GET / HTTP/1.1\r\n", bytes "\r\n"]
      HttpParser.new
      { HttpParser.new with _state := .COMPLETE, _method := bytes "GET", _path := bytes "/" }
      .closed [.would_block] (bytes "<p>") true (by decide) (by decide) (by decide)
      (Or.inl rfl)).1,
    (peer_close_preempts_routing server_one 5 [bytes "GET / HTTP/1.1\r\n", bytes "\r\n"]
      HttpParser.new
      { HttpParser.new with _state := .COMPLETE, _method := bytes "GET", _path := bytes "/" }
      .closed [.would_block] (bytes "<p>") true (by decide) (by decide) (by decide)
      (Or.inl rfl)).2.1⟩

end ImpServer

namespace ImpServer
namespace HttpParser

/-! ## The parts of a multipart body (C21, C22, C26) -/

/-- The routing of a part: the first of the five tokens, in the order of the
tests, that occurs anywhere in the part header selects the field. -/
theorem assign_part_cases (p : HttpParser) (hdr value : List Nat) :
    ((find hdr (bytes "name=\"image\"") 0).isSome = true →
      assign_part p hdr value = { p with _image_data := value }) ∧
    ((find hdr (bytes "name=\"image\"") 0).isSome = false →
      (find hdr (bytes "name=\"filter\"") 0).isSome = true →
      assign_part p hdr value = { p with _filter_type := value }) ∧
    ((find hdr (bytes "name=\"image\"") 0).isSome = false →
      (find hdr (bytes "name=\"filter\"") 0).isSome = false →
      (find hdr (bytes "name=\"uuid\"") 0).isSome = true →
      assign_part p hdr value = { p with _image_uuid := value }) ∧
    ((find hdr (bytes "name=\"image\"") 0).isSome = false →
      (find hdr (bytes "name=\"filter\"") 0).isSome = false →
      (find hdr (bytes "name=\"uuid\"") 0).isSome = false →
      (find hdr (bytes "name=\"blur_intensity\"") 0).isSome = true →
      assign_part p hdr value = { p with _blur_intensity := value }) ∧
    ((find hdr (bytes "name=\"image\"") 0).isSome = false →
      (find hdr (bytes "name=\"filter\"") 0).isSome = false →
      (find hdr (bytes "name=\"uuid\"") 0).isSome = false →
      (find hdr (bytes "name=\"blur_intensity\"") 0).isSome = false →
      (find hdr (bytes "name=\"sharpen_intensity\"") 0).isSome = true →
      assign_part p hdr value = { p with _sharpen_intensity := value }) ∧
    (recognised hdr = false → assign_part p hdr value = p) := by
  unfold assign_part recognised
  refine ⟨?_, ?_, ?_, ?_, ?_, ?_⟩
  · intro h1; simp [h1]
  · intro h1 h2; simp [h1, h2]
  · intro h1 h2 h3; simp [h1, h2, h3]
  · intro h1 h2 h3 h4; simp [h1, h2, h3, h4]
  · intro h1 h2 h3 h4 h5; simp [h1, h2, h3, h4, h5]
  · intro h
    simp only [Bool.or_eq_false_iff] at h
    obtain ⟨⟨⟨⟨h1, h2⟩, h3⟩, h4⟩, h5⟩ := h
    simp [h1, h2, h3, h4, h5]

/-- C21: the trailing CRLF is stripped. Let the body hold, from `pre.length`
on, the boundary, CRLF, a part header with one of the five names, CRLF CRLF,
the bytes `value`, CRLF and the next boundary (the boundary does not occur in
header or value and holds no CR or LF, the part's first CRLF CRLF is the one
behind the header). Then the bytes between that CRLF CRLF and the next
boundary are `value` followed by CRLF, and the round of the part loop stores
exactly `value` in the field that the header selects, changes no other field,
and goes on at the next boundary. -/
theorem trailing_crlf_stripped (p : HttpParser) (pre hdr value post bnd : List Nat)
    (fuel : Nat)
    (hbody : p._body = pre ++ (part bnd hdr value ++ (bnd ++ post)))
    (hbnd : p._boundary = bnd) (hne : bnd ≠ []) (h13 : 13 ∉ bnd) (h10 : 10 ∉ bnd)
    (hh : find hdr bnd 0 = none) (hv : find value bnd 0 = none)
    (hsep : find (hdr ++ CRLFCRLF) CRLFCRLF 0 = some hdr.length)
    (hsize : p._body.length < 2 ^ 64) (hrec : recognised hdr = true) :
    (p._body.drop (pre.length + bnd.length + 2 + hdr.length + 4)).take (value.length + 2) =
      value ++ CRLF ∧
    multipart_loop (fuel + 1) p pre.length =
      multipart_loop fuel (assign_part p hdr value) (pre.length + (part bnd hdr value).length) ∧
    extraction_frame p (assign_part p hdr value) ∧
    ((find hdr (bytes "name=\"image\"") 0).isSome = true →
      (assign_part p hdr value)._image_data = value) ∧
    ((find hdr (bytes "name=\"image\"") 0).isSome = false →
      (find hdr (bytes "name=\"filter\"") 0).isSome = true →
      (assign_part p hdr value)._filter_type = value) ∧
    ((find hdr (bytes "name=\"image\"") 0).isSome = false →
      (find hdr (bytes "name=\"filter\"") 0).isSome = false →
      (find hdr (bytes "name=\"uuid\"") 0).isSome = true →
      (assign_part p hdr value)._image_uuid = value) ∧
    ((find hdr (bytes "name=\"image\"") 0).isSome = false →
      (find hdr (bytes "name=\"filter\"") 0).isSome = false →
      (find hdr (bytes "name=\"uuid\"") 0).isSome = false →
      (find hdr (bytes "name=\"blur_intensity\"") 0).isSome = true →
      (assign_part p hdr value)._blur_intensity = value) ∧
    ((find hdr (bytes "name=\"image\"") 0).isSome = false →
      (find hdr (bytes "name=\"filter\"") 0).isSome = false →
      (find hdr (bytes "name=\"uuid\"") 0).isSome = false →
      (find hdr (bytes "name=\"blur_intensity\"") 0).isSome = false →
      (assign_part p hdr value)._sharpen_intensity = value) := by
  have hstep := multipart_part_step p pre hdr value post bnd fuel hbody hbnd hne h13 h10 hh hv
    hsep hsize
  rw [if_pos hrec] at hstep
  obtain ⟨c1, c2, c3, c4, c5, _⟩ := assign_part_cases p hdr value
  refine ⟨?_, hstep, assign_part_frame _ _ _, ?_, ?_, ?_, ?_, ?_⟩
  · have hB : p._body =
        (pre ++ (bnd ++ (CRLF ++ (hdr ++ CRLFCRLF)))) ++ ((value ++ CRLF) ++ (bnd ++ post)) := by
      rw [hbody]; simp [part, List.append_assoc]
    have hl : pre.length + bnd.length + 2 + hdr.length + 4 =
        (pre ++ (bnd ++ (CRLF ++ (hdr ++ CRLFCRLF)))).length := by
      simp [CRLF, CRLFCRLF]; omega
    have hl2 : value.length + 2 = (value ++ CRLF).length := by simp [CRLF]
    rw [hB, hl, List.drop_left, hl2, List.take_left]
  · intro h1; rw [c1 h1]
  · intro h1 h2; rw [c2 h1 h2]
  · intro h1 h2 h3; rw [c3 h1 h2 h3]
  · intro h1 h2 h3 h4; rw [c4 h1 h2 h3 h4]
  · intro h1 h2 h3 h4
    have h5 : (find hdr (bytes "name=\"sharpen_intensity\"") 0).isSome = true := by
      unfold recognised at hrec
      simpa [h1, h2, h3, h4] using hrec
    rw [c5 h1 h2 h3 h4 h5]

/-- The stripping theorem at the body with the one part `filter` of value
`blur`. -/
theorem trailing_crlf_stripped_witness :
    (with_body body_filter_blur)._body =
      [] ++ (part (bytes "--X") (bytes "name=\"filter\"") (bytes "blur") ++
        (bytes "--X" ++ bytes "--")) ∧
    ((with_body body_filter_blur)._body.drop 22).take 6 = bytes "blur\r\n" ∧
    (assign_part (with_body body_filter_blur) (bytes "name=\"filter\"")
      (bytes "blur"))._filter_type = bytes "blur" :=
  ⟨by decide,
    (trailing_crlf_stripped (with_body body_filter_blur) [] (bytes "name=\"filter\"")
      (bytes "blur") (bytes "--") (bytes "--X") 33 (by decide) (by decide) (by decide)
      (by decide) (by decide) (by decide) (by decide) (by decide) (by decide) (by decide)).1,
    (trailing_crlf_stripped (with_body body_filter_blur) [] (bytes "name=\"filter\"")
      (bytes "blur") (bytes "--") (bytes "--X") 33 (by decide) (by decide) (by decide)
      (by decide) (by decide) (by decide) (by decide) (by decide) (by decide)
      (by decide)).2.2.2.2.1 (by decide) (by decide)⟩

/-- C22 (the code misses the claim): a file name routes the part. The form
field `photo`, sent as a file with the file name `image`, is none of the five
fields, and the part loop stores its bytes as the image, because the header
is searched for the text `name="image"`, which `filename="image"` holds; the
same file name on the field `filter` stores the bytes as the image and leaves
the filter empty. -/
theorem file_name_routes_part :
    parse_multipart_body (with_body body_photo_part) =
      .ok { with_body body_photo_part with _image_data := bytes "abc" } ∧
    parse_multipart_body (with_body body_filter_file_part) =
      .ok { with_body body_filter_file_part with _image_data := bytes "abc" } ∧
    (parse new request_photo).map
        (fun q => (q.is_request_ready, q.get_image_data, q.get_filter_type)) =
      .ok (true, bytes "abc", []) := by
  refine ⟨by decide, by decide, by decide⟩

/-- C26 (the code misses the claim): the part-body length wraps. In the body
`--X\r\nname="filter"\r\n\r\n--X--` the boundaries are found at 0 and 22 and
the header separator at 18, so the part body starts at 22 and its length
`22 - 22 - 2` is `2 ^ 64 - 2` in `size_t`; with one byte before the next
boundary it is `2 ^ 64 - 1`. The `assign` with that length throws
`std::length_error`. -/
theorem part_body_length_wraps :
    memmem body_empty_part 0 27 (bytes "--X") = some 0 ∧
    memmem body_empty_part 3 24 (bytes "--X") = some 22 ∧
    memmem body_empty_part 5 17 CRLFCRLF = some 18 ∧
    size_sub (size_sub 22 (18 + 4)) 2 = 2 ^ 64 - 2 ∧
    process_part (with_body body_empty_part) 0 22 = .error .length_error ∧
    parse_multipart_body (with_body body_empty_part) = .error .length_error ∧
    size_sub (size_sub 23 (18 + 4)) 2 = 2 ^ 64 - 1 ∧
    process_part (with_body body_one_byte_part) 0 23 = .error .length_error ∧
    parse_multipart_body (with_body body_one_byte_part) = .error .length_error := by
  refine ⟨by decide, by decide, by decide, by decide, by decide, by decide, by decide,
    by decide, by decide⟩

end HttpParser
end ImpServer

namespace ImpServer
namespace HttpParser

/-! ## Termination of the part loop (C27) -/

theorem memmem_bounds (mem needle : List Nat) (start len i : Nat)
    (h : memmem mem start len needle = some i) :
    start ≤ i ∧ i + needle.length ≤ mem.length := by
  unfold memmem at h
  have h1 := find_some_ge _ _ _ _ h
  have h2 := find_some_bound _ _ _ _ h
  rw [List.length_take] at h2
  exact ⟨h1, by omega⟩

/-- A round that does not break moves the scan position forward by at least
the length of the boundary, stays inside the body, and keeps body and
boundary. -/
theorem multipart_round_progress (p p1 : HttpParser) (cur next : Nat)
    (h : multipart_round p cur = .ok (p1, some next)) :
    cur + p._boundary.length ≤ next ∧ next + p._boundary.length ≤ p._body.length ∧
      p1._body = p._body ∧ p1._boundary = p._boundary := by
  unfold multipart_round at h
  simp only at h
  split at h
  · simp at h
  · rename_i bs hbs
    split at h
    · simp at h
    · rename_i nbs hnbs
      split at h
      · exact absurd h (by simp)
      · rename_i q hq
        injection h with h
        injection h with h1 h2
        injection h2 with h2
        subst h1 h2
        have b1 := memmem_bounds _ _ _ _ _ hbs
        have b2 := memmem_bounds _ _ _ _ _ hnbs
        have hf := extraction_frame_body _ _ (process_part_frame _ _ _ _ hq)
        exact ⟨by omega, b2.2, hf.1, hf.2⟩

/-- The loop of the source is the repetition of its rounds. -/
theorem multipart_loop_round (fuel : Nat) (p : HttpParser) (cur : Nat) :
    multipart_loop (fuel + 1) p cur =
      if cur < p._body.length then
        (multipart_round p cur).bind (after_round (multipart_loop fuel))
      else .ok p := by
  conv_lhs => rw [multipart_loop]
  split
  · unfold multipart_round
    simp only
    split
    · rfl
    · split
      · rfl
      · split <;> rfl
  · rfl

theorem multipart_rounds_bound (fuel : Nat) :
    ∀ (p : HttpParser) (cur : Nat), p._boundary ≠ [] → p._body.length - cur < fuel →
      ∃ n, multipart_rounds fuel p cur = some n ∧ n ≤ p._body.length - cur := by
  induction fuel with
  | zero => intro p cur _ h; omega
  | succ fuel ih =>
    intro p cur hb hf
    simp only [multipart_rounds]
    split
    · rename_i hlt
      split
      · rename_i p1 next hr
        obtain ⟨g1, g2, g3, g4⟩ := multipart_round_progress p p1 cur next hr
        have hpos : 0 < p._boundary.length := List.length_pos.mpr hb
        obtain ⟨n, hn, hle⟩ := ih p1 next (by rw [g4]; exact hb) (by rw [g3]; omega)
        rw [hn]
        rw [g3] at hle
        exact ⟨n + 1, rfl, by omega⟩
      · exact ⟨1, rfl, by omega⟩
    · exact ⟨0, rfl, by omega⟩

/-- C27: multipart extraction terminates. With a non-empty boundary, the loop
of the source is the repetition of its rounds; a round that does not break or
throw ends at the next boundary, at least one boundary length past the scan
position and inside the body, with body and boundary unchanged; so from every
position the loop ends after at most as many rounds as bytes remain, and the
loop of `parse_multipart_body` after at most `body.length` rounds, within
the fuel that it is given. -/
theorem multipart_extraction_terminates (p : HttpParser) (cur : Nat)
    (hb : p._boundary ≠ []) :
    (∀ fuel, multipart_loop (fuel + 1) p cur =
      if cur < p._body.length then
        (multipart_round p cur).bind (after_round (multipart_loop fuel))
      else .ok p) ∧
    (∀ p1 next, multipart_round p cur = .ok (p1, some next) →
      cur < next ∧ cur + p._boundary.length ≤ next ∧
        next + p._boundary.length ≤ p._body.length ∧
        p1._body = p._body ∧ p1._boundary = p._boundary) ∧
    (∀ fuel, p._body.length - cur < fuel →
      ∃ n, multipart_rounds fuel p cur = some n ∧ n ≤ p._body.length - cur) ∧
    (∃ n, multipart_rounds (p._body.length + 1) p 0 = some n ∧ n ≤ p._body.length) ∧
    (∀ fuel, p._body.length < fuel →
      multipart_loop fuel p 0 = multipart_loop (p._body.length + 1) p 0) := by
  have hpos : 0 < p._boundary.length := List.length_pos.mpr hb
  refine ⟨fun fuel => multipart_loop_round fuel p cur, ?_,
    fun fuel hf => multipart_rounds_bound fuel p cur hb hf, ?_, ?_⟩
  · intro p1 next h
    obtain ⟨g1, g2, g3, g4⟩ := multipart_round_progress p p1 cur next h
    exact ⟨by omega, g1, g2, g3, g4⟩
  · obtain ⟨n, hn, hle⟩ := multipart_rounds_bound (p._body.length + 1) p 0 hb (by omega)
    exact ⟨n, hn, by omega⟩
  · intro fuel hf
    exact multipart_loop_fuel p._body.length p 0 fuel (p._body.length + 1) hb (by omega) hf
      (by omega)

/-- The termination theorem at the upload body of two parts: the loop runs
three rounds, the third of which breaks at the closing boundary. -/
theorem multipart_extraction_terminates_witness :
    (with_body (upload_body (bytes "name=\"filter\"") (bytes "name=\"image\"")
        (bytes "PNG")))._boundary ≠ [] ∧
    multipart_rounds 65 (with_body (upload_body (bytes "name=\"filter\"")
        (bytes "name=\"image\"") (bytes "PNG"))) 0 = some 3 ∧
    ∃ n, multipart_rounds ((with_body (upload_body (bytes "name=\"filter\"")
          (bytes "name=\"image\"") (bytes "PNG")))._body.length + 1)
        (with_body (upload_body (bytes "name=\"filter\"") (bytes "name=\"image\"")
          (bytes "PNG"))) 0 = some n ∧
      n ≤ (with_body (upload_body (bytes "name=\"filter\"") (bytes "name=\"image\"")
          (bytes "PNG")))._body.length :=
  ⟨by decide, by decide,
    (multipart_extraction_terminates (with_body (upload_body (bytes "name=\"filter\"")
      (bytes "name=\"image\"") (bytes "PNG"))) 0 (by decide)).2.2.2.1⟩

end HttpParser
end ImpServer

namespace ImpServer
namespace HttpParser

theorem memmem_first_byte (mem rest : List Nat) (start len i c : Nat)
    (h : memmem mem start len (c :: rest) = some i) : mem[i]? = some c := by
  unfold memmem at h
  obtain ⟨_, t, ht⟩ := find_some_occurs _ _ _ _ h
  have h1 : ((mem.take (start + len)).drop i)[0]? = some c := by
    rw [← ht]; simp
  rw [List.getElem?_drop, Nat.add_zero] at h1
  rw [List.getElem?_take] at h1
  split at h1
  · exact h1
  · exact absurd h1 (by simp)

/-- The part length does not wrap: with a boundary whose first byte is neither
CR nor LF (every boundary token starts with `--`), the next boundary starts at
or behind the start of the part, also when a CRLF behind the boundary was
skipped. -/
theorem part_length_no_wrap (p : HttpParser) (bs nbs c : Nat) (rest : List Nat)
    (hb : p._boundary = c :: rest) (hc : c ≠ 13 ∧ c ≠ 10)
    (h : memmem p._body (bs + p._boundary.length)
      (p._body.length - (bs + p._boundary.length)) p._boundary = some nbs)
    (hsize : p._body.length < 2 ^ 64) :
    skip_crlf p._body (bs + p._boundary.length) ≤ nbs ∧
      size_sub nbs (skip_crlf p._body (bs + p._boundary.length)) =
        nbs - skip_crlf p._body (bs + p._boundary.length) := by
  have hbnd := memmem_bounds _ _ _ _ _ h
  have hfirst : p._body[nbs]? = some c := by
    rw [hb] at h
    exact memmem_first_byte _ _ _ _ _ _ h
  have hle : skip_crlf p._body (bs + p._boundary.length) ≤ nbs := by
    unfold skip_crlf
    split
    · rename_i hs
      obtain ⟨_, h13, h10⟩ := hs
      by_contra hn
      have : nbs = bs + p._boundary.length ∨ nbs = bs + p._boundary.length + 1 := by omega
      rcases this with e | e
      · rw [e, h13] at hfirst
        injection hfirst with hfirst
        exact hc.1 hfirst.symm
      · rw [e, h10] at hfirst
        injection hfirst with hfirst
        exact hc.2 hfirst.symm
    · exact hbnd.1
  exact ⟨hle, size_sub_eq _ _ hle (by omega)⟩

end HttpParser
end ImpServer
